import Mathlib

/-!
Verification development for the klickhouse ClickHouse native-protocol client.

This file shallowly embeds the byte-level core of the library and proves
properties of it:

* `src/klickhouse/src/io.rs` — varint and length-prefixed string I/O
  (`read_var_uint`, `write_var_uint`, `read_string`, `write_string`);
* `src/klickhouse/src/compression.rs` — the LZ4 + CityHash compression
  envelope (`decompress_block`, `read_compressed_blob`);
* `src/klickhouse/src/types/serialize/nullable.rs` — the Nullable column
  serializer;
* the typed column codec and the type-expression grammar. The codec and
  grammar sources are not part of the `src/` snapshot (only their tests in
  `src/klickhouse/src/types/tests.rs` are), so those definitions are
  modelled from the specification, as marked in their doc comments.

Modelling conventions: a byte stream is a `List Nat` whose elements are
byte values (0..255); readers are state-passing functions consuming a
prefix of the stream; machine integers are `Nat`/`Int` with explicit
`% 2^w` where overflow matters; `f32`/`f64` values are carried as their
raw IEEE-754 bit patterns (`Nat` below `2^32`/`2^64`), so value equality
is bit-pattern equality and NaN payloads are preserved exactly.
External C dependencies (the LZ4 codec and the CityHash function) are
not code of this repository and are taken as explicit function
parameters of the definitions that call them.
-/

namespace Klickhouse

/-- Error kinds of `KlickhouseError` (src/klickhouse/src/errors.rs) that the
embedded fragment can produce. `ioError` stands for the `Io` variant raised
when `read_exact` hits the end of the stream; the message-carrying variants
mirror `ProtocolError(String)` and friends. -/
inductive KlickhouseError where
  | ioError
  | protocolError (msg : String)
  | compressionError (msg : String)
  | serializeError (msg : String)
  | deserializeError (msg : String)
  | typeParseError (msg : String)
deriving DecidableEq

/-- Result type mirroring `Result<T, KlickhouseError>` from errors.rs. -/
inductive KResult (α : Type) where
  | ok (v : α)
  | err (e : KlickhouseError)
deriving DecidableEq

def KResult.bind {α β : Type} : KResult α → (α → KResult β) → KResult β
  | .ok v, f => f v
  | .err e, _ => .err e

instance : Monad KResult where
  pure := KResult.ok
  bind := KResult.bind

@[simp] theorem KResult.bind_ok {α β : Type} (v : α) (f : α → KResult β) :
    KResult.bind (.ok v) f = f v := rfl

@[simp] theorem KResult.bind_err {α β : Type} (e : KlickhouseError) (f : α → KResult β) :
    KResult.bind (.err e) f = .err e := rfl

@[simp] theorem KResult.pure_eq {α : Type} (v : α) : (pure v : KResult α) = .ok v := rfl

@[simp] theorem KResult.bind_eq {α β : Type} (x : KResult α) (f : α → KResult β) :
    x >>= f = KResult.bind x f := rfl

/-! ## Little-endian byte encoding helpers

These model the `to_le_bytes` / `read_uN_le` primitives used throughout the
wire format (all multibyte integers are little-endian). -/

/-- Little-endian byte encoding of `v` on exactly `w` bytes (truncating at
`2 ^ (8 * w)`, as `to_le_bytes` on a machine integer does). -/
def natToLE : Nat → Nat → List Nat
  | 0, _ => []
  | w + 1, v => v % 256 :: natToLE w (v / 256)

/-- Little-endian read of a `w`-byte unsigned integer from the stream,
modelling `read_uN_le` (an `Io` error when the stream is too short). -/
def readLE : Nat → List Nat → KResult (Nat × List Nat)
  | 0, s => .ok (0, s)
  | _ + 1, [] => .err .ioError
  | w + 1, b :: s =>
    match readLE w s with
    | .ok (v, rest) => .ok (b + 256 * v, rest)
    | .err e => .err e

@[simp] theorem natToLE_length (w v : Nat) : (natToLE w v).length = w := by
  induction w generalizing v with
  | zero => rfl
  | succ w ih => simp [natToLE, ih]

theorem readLE_append (w v : Nat) (rest : List Nat) :
    readLE w (natToLE w v ++ rest) = .ok (v % 256 ^ w, rest) := by
  induction w generalizing v with
  | zero => simp [natToLE, readLE, Nat.mod_one]
  | succ w ih =>
    have hm : v % (256 * 256 ^ w) = v % 256 + 256 * (v / 256 % 256 ^ w) := Nat.mod_mul
    simp [natToLE, readLE, ih, pow_succ]
    rw [mul_comm (256 ^ w) 256, hm]

theorem readLE_append_of_lt {w v : Nat} (h : v < 256 ^ w) (rest : List Nat) :
    readLE w (natToLE w v ++ rest) = .ok (v, rest) := by
  rw [readLE_append, Nat.mod_eq_of_lt h]

/-- Disjoint-bit `or` is addition: used to reason about the accumulator
`out |= (octet & 0x7F) << (7 * i)` of the varint reader. -/
theorem lor_mul_two_pow {a : Nat} (b : Nat) {k : Nat} (ha : a < 2 ^ k) :
    a ||| b * 2 ^ k = a + b * 2 ^ k := by
  induction k generalizing a b with
  | zero =>
    have : a = 0 := by omega
    simp [this]
  | succ k ih =>
    have hy : (b * 2 ^ (k + 1)) % 2 = 0 := by
      have : 2 ^ (k + 1) = 2 ^ k * 2 := by ring
      simp [this, Nat.mul_mod, ← mul_assoc]
    have hdiv2 : b * 2 ^ (k + 1) / 2 = b * 2 ^ k := by
      have : b * 2 ^ (k + 1) = b * 2 ^ k * 2 := by ring
      simp [this]
    have hmod : (a ||| b * 2 ^ (k + 1)) % 2 = a % 2 := by
      rcases Nat.mod_two_eq_zero_or_one a with h | h
      · have : ¬ ((a ||| b * 2 ^ (k + 1)) % 2 = 1) := by
          rw [Nat.or_mod_two_eq_one]
          omega
        omega
      · have : (a ||| b * 2 ^ (k + 1)) % 2 = 1 := by
          rw [Nat.or_mod_two_eq_one]
          omega
        omega
    have hdiv : (a ||| b * 2 ^ (k + 1)) / 2 = a / 2 + b * 2 ^ k := by
      rw [Nat.or_div_two, hdiv2]
      exact ih (a := a / 2) b (by omega)
    have e0 : 2 * ((a ||| b * 2 ^ (k + 1)) / 2) + (a ||| b * 2 ^ (k + 1)) % 2
        = a ||| b * 2 ^ (k + 1) := Nat.div_add_mod _ 2
    rw [hdiv, hmod] at e0
    have ea : 2 * (a / 2) + a % 2 = a := Nat.div_add_mod a 2
    have e2 : b * 2 ^ (k + 1) = 2 * (b * 2 ^ k) := by ring
    rw [e2] at e0 ⊢
    omega

/-! ## Embedding of src/klickhouse/src/io.rs

`read_var_uint` (lines 20–31): up to 9 iterations; each reads one byte,
ors its low 7 bits into the accumulator at position `7 * i`, and stops when
the continuation bit `0x80` is clear. When all 9 bytes have the
continuation bit set the loop simply ends and the accumulated value is
returned with `Ok` — there is no error path other than `read_exact`
failing. Byte values are assumed below 256, so the test
`octet & 0x80 == 0` is modelled as `octet < 128` and `octet & 0x7F` as
`octet % 128`. -/

def readVarUintLoop : Nat → Nat → Nat → List Nat → KResult (Nat × List Nat)
  | 0, _, out, s => .ok (out, s)
  | fuel + 1, i, out, s =>
    match s with
    | [] => .err .ioError
    | octet :: rest =>
      let out2 := out ||| (octet % 128) <<< (7 * i)
      if octet < 128 then .ok (out2, rest)
      else readVarUintLoop fuel (i + 1) out2 rest

/-- Embedded from src/klickhouse/src/io.rs lines 20–31. -/
def read_var_uint (s : List Nat) : KResult (Nat × List Nat) :=
  readVarUintLoop 9 0 0 s

/-- Loop body of `write_var_uint` (io.rs lines 60–73): up to 9 iterations;
writes `value & 0x7F` with `0x80` ored in while `value > 0x7F`, shifts
`value` right by 7, and stops when the remaining value is zero. -/
def writeVarUintLoop : Nat → Nat → List Nat
  | 0, _ => []
  | fuel + 1, value =>
    (if 127 < value then value % 128 + 128 else value % 128)
      :: (if value / 128 = 0 then [] else writeVarUintLoop fuel (value / 128))

/-- Embedded from src/klickhouse/src/io.rs lines 60–73. The argument is a
`u64`, i.e. callers only pass values below `2 ^ 64`. -/
def write_var_uint (value : Nat) : List Nat :=
  writeVarUintLoop 9 value

/-- Modelled from the spec: `MAX_STRING_SIZE` lives in protocol.rs, which is
not part of the `src/` snapshot; §4.1 of the spec fixes it at 1 GiB. -/
def MAX_STRING_SIZE : Nat := 1073741824

/-- Embedded from src/klickhouse/src/io.rs lines 33–47: read a varint
length, reject lengths above `MAX_STRING_SIZE` with a `ProtocolError`
(before any buffer of that length is created), then read exactly that many
bytes. -/
def read_string (s : List Nat) : KResult (List Nat × List Nat) :=
  match read_var_uint s with
  | .err e => .err e
  | .ok (len, rest) =>
    if MAX_STRING_SIZE < len then .err (.protocolError "string too large")
    else if len = 0 then .ok ([], rest)
    else if rest.length < len then .err .ioError
    else .ok (rest.take len, rest.drop len)

/-- Embedded from src/klickhouse/src/io.rs lines 75–80. -/
def write_string (value : List Nat) : List Nat :=
  write_var_uint value.length ++ value

theorem writeVarUintLoop_length (fuel value : Nat) :
    (writeVarUintLoop fuel value).length ≤ fuel := by
  induction fuel generalizing value with
  | zero => simp [writeVarUintLoop]
  | succ fuel ih =>
    by_cases h : value / 128 = 0 <;> simp [writeVarUintLoop, h]
    exact ih _

/-- Core varint round-trip invariant, tracking the partial accumulator. -/
theorem varint_loop_roundtrip :
    ∀ (fuel value i out : Nat) (rest : List Nat), out < 2 ^ (7 * i) →
      readVarUintLoop fuel i out (writeVarUintLoop fuel value ++ rest)
        = .ok (out + value % 2 ^ (7 * fuel) * 2 ^ (7 * i), rest) := by
  intro fuel
  induction fuel with
  | zero =>
    intro value i out rest _
    simp [writeVarUintLoop, readVarUintLoop, Nat.mod_one]
  | succ fuel ih =>
    intro value i out rest hout
    by_cases hv : 127 < value
    · have hdiv : ¬ (value / 128 = 0) := by omega
      have hbyte : ¬ (value % 128 + 128 < 128) := by omega
      have hbmod : (value % 128 + 128) % 128 = value % 128 := by omega
      simp only [writeVarUintLoop, if_pos hv, if_neg hdiv, List.cons_append,
        readVarUintLoop, if_neg hbyte, hbmod]
      have hout2 : out ||| (value % 128) <<< (7 * i)
          = out + value % 128 * 2 ^ (7 * i) := by
        rw [Nat.shiftLeft_eq]
        exact lor_mul_two_pow _ hout
      have hout2lt : out + value % 128 * 2 ^ (7 * i) < 2 ^ (7 * (i + 1)) := by
        have h1 : value % 128 < 128 := Nat.mod_lt _ (by omega)
        have h2 : 2 ^ (7 * (i + 1)) = 2 ^ (7 * i) * 128 := by
          rw [Nat.mul_add, pow_add]
          norm_num
        have h3 : value % 128 * 2 ^ (7 * i) ≤ 127 * 2 ^ (7 * i) :=
          Nat.mul_le_mul_right _ (by omega)
        have h4 : (0:Nat) < 2 ^ (7 * i) := Nat.pos_pow_of_pos _ (by omega)
        rw [h2]
        nlinarith
      rw [hout2, ih (value / 128) (i + 1) _ rest hout2lt]
      have hsplit : value % 2 ^ (7 * (fuel + 1))
          = value % 128 + 128 * (value / 128 % 2 ^ (7 * fuel)) := by
        have h1 : (2:Nat) ^ (7 * (fuel + 1)) = 128 * 2 ^ (7 * fuel) := by
          rw [Nat.mul_add, pow_add]
          ring
        rw [h1]
        exact Nat.mod_mul
      have hpow : (2:Nat) ^ (7 * (i + 1)) = 2 ^ (7 * i) * 128 := by
        rw [Nat.mul_add, pow_add]
        norm_num
      rw [hsplit, hpow]
      congr 1
      ring
    · have hdiv : value / 128 = 0 := by omega
      have hbyte : value % 128 < 128 := Nat.mod_lt _ (by omega)
      simp only [writeVarUintLoop, if_neg hv, if_pos hdiv, List.cons_append,
        readVarUintLoop, if_pos hbyte]
      have hout2 : out ||| (value % 128 % 128) <<< (7 * i)
          = out + value * 2 ^ (7 * i) := by
        have hmod : value % 128 % 128 = value := by omega
        rw [hmod, Nat.shiftLeft_eq]
        exact lor_mul_two_pow _ hout
      have hvmod : value % 2 ^ (7 * (fuel + 1)) = value := by
        apply Nat.mod_eq_of_lt
        have : (128:Nat) ≤ 2 ^ (7 * (fuel + 1)) := by
          have h7 : 7 * (fuel + 1) = 7 * fuel + 7 := by ring
          rw [h7, pow_add]
          have h1 : (1:Nat) ≤ 2 ^ (7 * fuel) := Nat.one_le_two_pow
          calc (128:Nat) = 1 * 128 := by norm_num
          _ ≤ 2 ^ (7 * fuel) * 2 ^ 7 := by
            apply Nat.mul_le_mul h1
            norm_num
        omega
      rw [hout2, hvmod]
      simp

/-- C6: for every u64 value `n ≤ 2^63 − 1`, `write_var_uint n` produces at
most 9 bytes and `read_var_uint` applied to those bytes (followed by any
further stream content) returns exactly `n`, consuming exactly the written
bytes. -/
theorem C6_varint_roundtrip (n : Nat) (rest : List Nat) (h : n < 2 ^ 63) :
    (write_var_uint n).length ≤ 9 ∧
      read_var_uint (write_var_uint n ++ rest) = .ok (n, rest) := by
  refine ⟨writeVarUintLoop_length 9 n, ?_⟩
  have := varint_loop_roundtrip 9 n 0 0 rest (by norm_num)
  rw [read_var_uint, write_var_uint, this]
  have h63 : (7:Nat) * 9 = 63 := by norm_num
  rw [h63, Nat.mod_eq_of_lt h]
  norm_num

theorem C6_varint_roundtrip_witness :
    (1234567890123456789 : Nat) < 2 ^ 63 ∧
      ((write_var_uint 1234567890123456789).length ≤ 9 ∧
        read_var_uint (write_var_uint 1234567890123456789 ++ [7])
          = .ok (1234567890123456789, [7])) :=
  ⟨by decide, C6_varint_roundtrip 1234567890123456789 [7] (by decide)⟩

/-- C10: for every u64 value `n` — including `n ≥ 2^63` — the encoder emits
at most 9 bytes and decoding its output returns `n % 2^63`: the 9th encoded
byte keeps only 7 of the remaining 8 bits, so the top bit is silently
dropped instead of causing an error. -/
theorem C10_varint_truncation (n : Nat) (rest : List Nat) (_h : n < 2 ^ 64) :
    (write_var_uint n).length ≤ 9 ∧
      read_var_uint (write_var_uint n ++ rest) = .ok (n % 2 ^ 63, rest) := by
  refine ⟨writeVarUintLoop_length 9 n, ?_⟩
  have := varint_loop_roundtrip 9 n 0 0 rest (by norm_num)
  rw [read_var_uint, write_var_uint, this]
  have h63 : (7:Nat) * 9 = 63 := by norm_num
  rw [h63]
  norm_num

theorem C10_varint_truncation_witness :
    (2 ^ 63 + 5 : Nat) < 2 ^ 64 ∧
      ((write_var_uint (2 ^ 63 + 5)).length ≤ 9 ∧
        read_var_uint (write_var_uint (2 ^ 63 + 5) ++ [])
          = .ok ((2 ^ 63 + 5) % 2 ^ 63, [])) :=
  ⟨by decide, C10_varint_truncation (2 ^ 63 + 5) [] (by decide)⟩

/-- Value accumulated by the varint reader from continuation bytes starting
at 7-bit group `i`: the low seven bits of each byte, little-endian. -/
def varintAccumAux : Nat → List Nat → Nat
  | _, [] => 0
  | i, b :: bs => b % 128 * 2 ^ (7 * i) + varintAccumAux (i + 1) bs

def varintAccum (bs : List Nat) : Nat :=
  varintAccumAux 0 bs

theorem readVarUintLoop_consumes :
    ∀ (fuel i out : Nat) (s v : _) (rest : List Nat),
      readVarUintLoop fuel i out s = .ok (v, rest) →
      s.length - fuel ≤ rest.length := by
  intro fuel
  induction fuel with
  | zero =>
    intro i out s v rest h
    simp only [readVarUintLoop] at h
    cases h
    omega
  | succ fuel ih =>
    intro i out s v rest h
    match s with
    | [] => simp [readVarUintLoop] at h
    | octet :: s2 =>
      simp only [readVarUintLoop] at h
      by_cases hb : octet < 128
      · rw [if_pos hb] at h
        cases h
        simp only [List.length_cons]
        omega
      · rw [if_neg hb] at h
        have := ih _ _ _ _ _ h
        simp only [List.length_cons] at this ⊢
        omega

theorem readVarUintLoop_continuation :
    ∀ (bs : List Nat) (i out : Nat) (rest : List Nat),
      (∀ b ∈ bs, 128 ≤ b ∧ b < 256) → out < 2 ^ (7 * i) →
      readVarUintLoop bs.length i out (bs ++ rest)
        = .ok (out + varintAccumAux i bs, rest) := by
  intro bs
  induction bs with
  | nil =>
    intro i out rest _ _
    simp [readVarUintLoop, varintAccumAux]
  | cons b bs ih =>
    intro i out rest hb hout
    have hb1 : 128 ≤ b := (hb b (by simp)).1
    have hnb : ¬ b < 128 := by omega
    simp only [List.length_cons, List.cons_append, readVarUintLoop, if_neg hnb]
    have hout2 : out ||| (b % 128) <<< (7 * i)
        = out + b % 128 * 2 ^ (7 * i) := by
      rw [Nat.shiftLeft_eq]
      exact lor_mul_two_pow _ hout
    have hout2lt : out + b % 128 * 2 ^ (7 * i) < 2 ^ (7 * (i + 1)) := by
      have h1 : b % 128 < 128 := Nat.mod_lt _ (by omega)
      have h2 : 2 ^ (7 * (i + 1)) = 2 ^ (7 * i) * 128 := by
        rw [Nat.mul_add, pow_add]
        norm_num
      have h4 : (0:Nat) < 2 ^ (7 * i) := Nat.pos_pow_of_pos _ (by omega)
      rw [h2]
      nlinarith
    rw [hout2, ih (i + 1) _ rest (fun x hx => hb x (by simp [hx])) hout2lt]
    simp [varintAccumAux]
    ring

/-- C5 counterexample: on an input whose first nine bytes all have the
continuation bit `0x80` set, `read_var_uint` does NOT return a protocol
error — it returns the accumulated value (here 0) with `Ok`, the loop in
io.rs lines 22–29 simply ending after its ninth iteration. -/
theorem C5_counterexample_nine_continuations :
    read_var_uint [128, 128, 128, 128, 128, 128, 128, 128, 128]
      = .ok (0, []) := by decide

/-- C5 (amended): the unsigned-varint reader consumes at most 9 bytes, and
on any input whose first nine bytes all have the continuation bit set it
stops after consuming exactly those nine bytes and returns — without any
error — the value assembled from the low 7 bits of each of the nine bytes. -/
theorem C5_varint_nine_byte_stop (bs rest : List Nat) (hlen : bs.length = 9)
    (hcont : ∀ b ∈ bs, 128 ≤ b ∧ b < 256) :
    (∀ (s : List Nat) (v : Nat) (r : List Nat),
        read_var_uint s = .ok (v, r) → s.length - 9 ≤ r.length) ∧
      read_var_uint (bs ++ rest) = .ok (varintAccum bs, rest) := by
  constructor
  · intro s v r h
    exact readVarUintLoop_consumes 9 0 0 s v r h
  · have := readVarUintLoop_continuation bs 0 0 rest hcont (by norm_num)
    rw [read_var_uint, ← hlen, this, varintAccum]
    norm_num

theorem C5_varint_nine_byte_stop_witness :
    ([129, 130, 131, 132, 133, 134, 135, 136, 255] : List Nat).length = 9 ∧
      read_var_uint ([129, 130, 131, 132, 133, 134, 135, 136, 255] ++ [17])
        = .ok (varintAccum [129, 130, 131, 132, 133, 134, 135, 136, 255], [17]) :=
  ⟨by decide,
    (C5_varint_nine_byte_stop [129, 130, 131, 132, 133, 134, 135, 136, 255] [17]
      (by decide) (by decide)).2⟩

/-- C7: `read_string` first reads a varint length; any length above
`MAX_STRING_SIZE` (1 GiB) makes it fail immediately with a `ProtocolError`
(no buffer of the declared length is ever filled — the error is produced
before any payload byte is consumed), and any length within the limit makes
it read exactly that many payload bytes. -/
theorem C7_read_string_boundary (s : List Nat) (len : Nat) (rest : List Nat)
    (h : read_var_uint s = .ok (len, rest)) :
    (MAX_STRING_SIZE < len →
      read_string s = .err (.protocolError "string too large")) ∧
    (len ≤ MAX_STRING_SIZE → len ≤ rest.length →
      read_string s = .ok (rest.take len, rest.drop len) ∧
        (rest.take len).length = len) := by
  constructor
  · intro hl
    simp [read_string, h, if_pos hl]
  · intro hl hr
    simp only [read_string, h]
    rw [if_neg (by omega)]
    by_cases h0 : len = 0
    · subst h0
      simp
    · rw [if_neg h0, if_neg (by omega)]
      refine ⟨rfl, ?_⟩
      simp [List.length_take]
      omega

theorem C7_read_string_boundary_witness :
    read_var_uint (write_var_uint 1073741825) = .ok (1073741825, []) ∧
      read_string (write_var_uint 1073741825)
        = .err (.protocolError "string too large") :=
  ⟨by decide,
    (C7_read_string_boundary (write_var_uint 1073741825) 1073741825 []
      (by decide)).1 (by decide)⟩

/-! ## Embedding of src/klickhouse/src/compression.rs

The two external C functions used there are not code of this repository:
`lz4::liblz4::LZ4_decompress_safe` and `cityhash_rs::cityhash_102_128`.
They are taken as explicit parameters: `lz4 data capacity` returns `none`
when the C decoder reports a negative length (malformed input) and
`some out` when it succeeds having written `out`; `hash bytes` returns the
128-bit CityHash value of `bytes`. -/

/-- Single byte read, modelling `read_u8`. -/
def readU8 : List Nat → KResult (Nat × List Nat)
  | [] => .err .ioError
  | b :: s => .ok (b, s)

/-- Modelled from the spec: `MAX_COMPRESSION_SIZE` lives in
internal_client_in.rs, which is not part of the `src/` snapshot; the
comment at compression.rs line 118 and spec §4.2 fix it at 1 GB. -/
def MAX_COMPRESSION_SIZE : Nat := 1073741824

/-- Embedded from src/klickhouse/src/compression.rs lines 63–98
(`decompress_block`): reject inputs beyond `i32::MAX`, create an output
buffer of capacity `decompressed_size + 1`, call the LZ4 safe decoder with
that capacity, reject a negative return code and a result exceeding the
buffer capacity, and otherwise return the decoded bytes as-is — the length
of a successful decode is NOT compared against `decompressed_size`. -/
def decompress_block (lz4 : List Nat → Nat → Option (List Nat))
    (data : List Nat) (decompressed_size : Nat) : KResult (List Nat) :=
  if 2147483647 < data.length then
    .err (.compressionError "compressed input too large for LZ4")
  else
    match lz4 data (decompressed_size + 1) with
    | none =>
      .err (.compressionError "LZ4 decompression failed: malformed compressed block")
    | some output =>
      if decompressed_size + 1 < output.length then
        .err (.compressionError "LZ4 decompressed output exceeded buffer capacity")
      else .ok output

/-- Embedded from src/klickhouse/src/compression.rs lines 101–144
(`read_compressed_blob`): read the 16-byte checksum as two little-endian
`u64` reads (the first read is the high half), the algorithm byte, the
4-byte compressed size (bounds-checked against `[9, 1 GiB]`), the 4-byte
decompressed size, and `csize - 9` body bytes; reassemble the 9-byte header
in front of the body, recompute the CityHash over exactly those bytes, fail
with the corrupt-checksum `ProtocolError` when it differs from the wire
checksum, and only then decompress the body. -/
def read_compressed_blob (hash : List Nat → Nat)
    (lz4 : List Nat → Nat → Option (List Nat)) (methodByte : Nat)
    (s : List Nat) : KResult (List Nat × List Nat) :=
  match readLE 8 s with
  | .err e => .err e
  | .ok (hi, s1) =>
    match readLE 8 s1 with
    | .err e => .err e
    | .ok (lo, s2) =>
      let checksum := hi * 2 ^ 64 + lo
      match readU8 s2 with
      | .err e => .err e
      | .ok (type_byte, s3) =>
        if type_byte ≠ methodByte then
          .err (.protocolError "unexpected compression algorithm identifier")
        else
          match readLE 4 s3 with
          | .err e => .err e
          | .ok (compressed_size, s4) =>
            if MAX_COMPRESSION_SIZE < compressed_size then
              .err (.protocolError "compressed payload too large")
            else if compressed_size < 9 then
              .err (.protocolError "compressed payload too small")
            else
              match readLE 4 s4 with
              | .err e => .err e
              | .ok (decompressed_size, s5) =>
                if s5.length < compressed_size - 9 then .err .ioError
                else
                  let body := s5.take (compressed_size - 9)
                  let rest := s5.drop (compressed_size - 9)
                  let assembled := type_byte :: (natToLE 4 compressed_size
                    ++ natToLE 4 decompressed_size ++ body)
                  if hash assembled ≠ checksum then
                    .err (.protocolError "corrupt checksum")
                  else
                    match decompress_block lz4 body decompressed_size with
                    | .err e => .err e
                    | .ok raw => .ok (raw, rest)

/-- C4 counterexample: a decode result whose length differs from the
declared uncompressed size is NOT rejected. With a decoder returning a
1-byte result against a declared size of 2, `decompress_block` returns the
1-byte result with `Ok` instead of an error. -/
theorem C4_counterexample_short_decode :
    decompress_block (fun _ _ => some [7]) [0] 2 = .ok [7] ∧
      ([7] : List Nat).length ≠ 2 := by
  constructor
  · rfl
  · decide

/-- C4 (amended): the LZ4 decode path allocates its output buffer with
capacity exactly `decompressed_size + 1` and hands that capacity to the LZ4
safe decoder; it errors when the decoder signals failure and when the
result exceeds the buffer capacity `decompressed_size + 1`, but a
successful decode whose length is anything up to `decompressed_size + 1` —
including lengths different from the declared size — is accepted and
returned as-is. -/
theorem C4_decompress_block_checks (lz4 : List Nat → Nat → Option (List Nat))
    (data : List Nat) (decompressed_size : Nat)
    (hlen : data.length ≤ 2147483647) :
    (lz4 data (decompressed_size + 1) = none →
      decompress_block lz4 data decompressed_size
        = .err (.compressionError
            "LZ4 decompression failed: malformed compressed block")) ∧
    (∀ out, lz4 data (decompressed_size + 1) = some out →
      (out.length ≤ decompressed_size + 1 →
        decompress_block lz4 data decompressed_size = .ok out) ∧
      (decompressed_size + 1 < out.length →
        decompress_block lz4 data decompressed_size
          = .err (.compressionError
              "LZ4 decompressed output exceeded buffer capacity"))) := by
  have hl : ¬ (2147483647 < data.length) := by omega
  refine ⟨fun hnone => ?_, fun out hout => ⟨fun hle => ?_, fun hgt => ?_⟩⟩
  · simp [decompress_block, hl, hnone]
  · simp [decompress_block, hl, hout]
    omega
  · simp [decompress_block, hl, hout, hgt]

theorem C4_decompress_block_checks_witness :
    ([9, 9] : List Nat).length ≤ 2147483647 ∧
      ((fun (_ : List Nat) (_ : Nat) => some ([5] : List Nat)) [9, 9] (3 + 1)
          = some [5] →
        (([5] : List Nat).length ≤ 3 + 1 →
          decompress_block (fun _ _ => some [5]) [9, 9] 3 = .ok [5])) :=
  ⟨by decide, fun h =>
    ((C4_decompress_block_checks (fun _ _ => some [5]) [9, 9] 3
      (by decide)).2 [5] h).1⟩

/-- C3: the compressed-frame decoder recomputes the 128-bit CityHash over
exactly the 9-byte header (algorithm byte, 4-byte compressed size, 4-byte
uncompressed size) concatenated with the `csize - 9` body bytes it read,
and fails with the corrupt-checksum `ProtocolError` exactly when that value
differs from the 16-byte wire checksum; when it matches, the result is
whatever `decompress_block` makes of the body. The statement is quantified
over every `lz4` decompressor, so the checksum decision provably never
depends on (and the hash is never applied to) the decompressed plaintext.
-/
theorem C3_checksum_over_header_and_body
    (hash : List Nat → Nat) (lz4 : List Nat → Nat → Option (List Nat))
    (methodByte c1 c2 csize dsize : Nat) (body rest : List Nat)
    (hc1 : c1 < 2 ^ 64) (hc2 : c2 < 2 ^ 64)
    (hcs1 : csize ≤ MAX_COMPRESSION_SIZE) (hcs2 : 9 ≤ csize)
    (hds : dsize < 2 ^ 32) (hbody : body.length = csize - 9) :
    (hash (methodByte :: (natToLE 4 csize ++ natToLE 4 dsize ++ body))
        ≠ c1 * 2 ^ 64 + c2 →
      read_compressed_blob hash lz4 methodByte
        (natToLE 8 c1 ++ natToLE 8 c2 ++ [methodByte] ++ natToLE 4 csize
          ++ natToLE 4 dsize ++ body ++ rest)
        = .err (.protocolError "corrupt checksum")) ∧
    (hash (methodByte :: (natToLE 4 csize ++ natToLE 4 dsize ++ body))
        = c1 * 2 ^ 64 + c2 →
      read_compressed_blob hash lz4 methodByte
        (natToLE 8 c1 ++ natToLE 8 c2 ++ [methodByte] ++ natToLE 4 csize
          ++ natToLE 4 dsize ++ body ++ rest)
        = KResult.bind (decompress_block lz4 body dsize)
            (fun raw => .ok (raw, rest))) := by
  have hcs3 : csize < 2 ^ 32 := by
    have : MAX_COMPRESSION_SIZE = 1073741824 := rfl
    omega
  have hc1b : c1 < 256 ^ 8 := by
    have h : (256:Nat) ^ 8 = 2 ^ 64 := by norm_num
    omega
  have hc2b : c2 < 256 ^ 8 := by
    have h : (256:Nat) ^ 8 = 2 ^ 64 := by norm_num
    omega
  have hcs3b : csize < 256 ^ 4 := by
    have h : (256:Nat) ^ 4 = 2 ^ 32 := by norm_num
    omega
  have hdsb : dsize < 256 ^ 4 := by
    have h : (256:Nat) ^ 4 = 2 ^ 32 := by norm_num
    omega
  have hinput : natToLE 8 c1 ++ natToLE 8 c2 ++ [methodByte] ++ natToLE 4 csize
      ++ natToLE 4 dsize ++ body ++ rest
      = natToLE 8 c1 ++ (natToLE 8 c2 ++ (methodByte :: (natToLE 4 csize
        ++ (natToLE 4 dsize ++ (body ++ rest))))) := by
    simp [List.append_assoc]
  have hlen : ¬ ((body ++ rest).length < csize - 9) := by
    simp [List.length_append]
    omega
  have htake : (body ++ rest).take (csize - 9) = body := List.take_left' hbody
  have hdrop : (body ++ rest).drop (csize - 9) = rest := List.drop_left' hbody
  have hmain : read_compressed_blob hash lz4 methodByte
      (natToLE 8 c1 ++ natToLE 8 c2 ++ [methodByte] ++ natToLE 4 csize
        ++ natToLE 4 dsize ++ body ++ rest)
      = if hash (methodByte :: (natToLE 4 csize ++ natToLE 4 dsize ++ body))
            ≠ c1 * 2 ^ 64 + c2 then
          .err (.protocolError "corrupt checksum")
        else
          KResult.bind (decompress_block lz4 body dsize)
            (fun raw => .ok (raw, rest)) := by
    have hne1 : ¬ (MAX_COMPRESSION_SIZE < csize) := by omega
    have hne2 : ¬ (csize < 9) := by omega
    rw [hinput, read_compressed_blob]
    simp only [readLE_append_of_lt hc1b, readLE_append_of_lt hc2b, readU8,
      readLE_append_of_lt hcs3b, readLE_append_of_lt hdsb, ne_eq,
      not_true_eq_false, if_false, hne1, hne2, hlen, htake, hdrop,
      ite_false, ite_true]
    by_cases hh : hash (methodByte :: (natToLE 4 csize ++ natToLE 4 dsize ++ body))
        = c1 * 2 ^ 64 + c2
    · simp only [hh, not_true_eq_false, if_false, ite_false]
      cases decompress_block lz4 body dsize <;> rfl
    · rw [if_pos hh, if_pos hh]
  constructor
  · intro hne
    rw [hmain, if_pos hne]
  · intro heq
    rw [hmain, if_neg (by omega)]

theorem C3_checksum_over_header_and_body_witness :
    ((fun (_ : List Nat) => (5 : Nat)) (2 :: (natToLE 4 9 ++ natToLE 4 0 ++ []))
        ≠ 0 * 2 ^ 64 + 4 →
      read_compressed_blob (fun _ => 5) (fun _ _ => some []) 2
        (natToLE 8 0 ++ natToLE 8 4 ++ [2] ++ natToLE 4 9
          ++ natToLE 4 0 ++ [] ++ [3])
        = .err (.protocolError "corrupt checksum")) ∧
      ((fun (_ : List Nat) => (5 : Nat)) (2 :: (natToLE 4 9 ++ natToLE 4 0 ++ []))
          = 0 * 2 ^ 64 + 4 →
        read_compressed_blob (fun _ => 5) (fun _ _ => some []) 2
          (natToLE 8 0 ++ natToLE 8 4 ++ [2] ++ natToLE 4 9
            ++ natToLE 4 0 ++ [] ++ [3])
          = KResult.bind (decompress_block (fun _ _ => some []) [] 0)
              (fun raw => .ok (raw, [3]))) :=
  C3_checksum_over_header_and_body (fun _ => 5) (fun _ _ => some []) 2 0 4 9 0
    [] [3] (by decide) (by decide) (by decide) (by decide) (by decide)
    (by decide)

/-! ## The typed column codec

The `Type` / `Value` model and the per-type column serializers live in the
`types` module of the repository, which is not part of the `src/` snapshot —
only its test-suite (src/klickhouse/src/types/tests.rs) and the Nullable
serializer (src/klickhouse/src/types/serialize/nullable.rs) are. Except for
the Nullable serializer, which is embedded from its source, the codec below
is therefore modelled from §3 and §4.4 of the specification, with the
behaviour at the points the spec leaves open pinned by the tests:
FixedString deserialization trims trailing zero bytes (the FixedString(32)
round trip in `roundtrip_string` succeeds on shorter strings) and
FixedString serialization silently truncates over-long values (the
FixedString(3) case in `roundtrip_string` serializes over-long strings
without error and asserts the round trip is merely unequal). -/

/-- Modelled from the spec §3: the recursive `Type` sum (named `CHType`
since `Type` is reserved in Lean). Enum entries are (name, value) pairs;
the `i8`/`i16` bounds of the Rust representation are checked by
`validateType` / the parser rather than by the Lean payload type. -/
inductive CHType where
  | int8
  | int16
  | int32
  | int64
  | int128
  | int256
  | uint8
  | uint16
  | uint32
  | uint64
  | uint128
  | uint256
  | float32
  | float64
  | decimal32 (scale : Nat)
  | decimal64 (scale : Nat)
  | decimal128 (scale : Nat)
  | decimal256 (scale : Nat)
  | string
  | fixedString (n : Nat)
  | uuid
  | date
  | dateTime (tz : String)
  | dateTime64 (precision : Nat) (tz : String)
  | enum8 (entries : List (String × Int))
  | enum16 (entries : List (String × Int))
  | lowCardinality (inner : CHType)
  | array (inner : CHType)
  | tuple (fields : List CHType)
  | nullable (inner : CHType)
  | map (key : CHType) (value : CHType)
  | point
  | ring
  | polygon
  | multiPolygon

/-- Modelled from the spec §3: the `Value` variant. Integers carry `Nat`
(unsigned) or `Int` (signed) with ranges enforced by `validateValue`;
floats carry raw IEEE-754 bit patterns; strings and UUIDs carry raw byte
lists; geo values carry `f64` bit-pattern pairs. -/
inductive CHValue where
  | int8 (v : Int)
  | int16 (v : Int)
  | int32 (v : Int)
  | int64 (v : Int)
  | int128 (v : Int)
  | int256 (v : Int)
  | uint8 (v : Nat)
  | uint16 (v : Nat)
  | uint32 (v : Nat)
  | uint64 (v : Nat)
  | uint128 (v : Nat)
  | uint256 (v : Nat)
  | float32 (bits : Nat)
  | float64 (bits : Nat)
  | decimal32 (scale : Nat) (v : Int)
  | decimal64 (scale : Nat) (v : Int)
  | decimal128 (scale : Nat) (v : Int)
  | decimal256 (scale : Nat) (v : Int)
  | string (bytes : List Nat)
  | uuid (bytes : List Nat)
  | date (days : Nat)
  | dateTime (tz : String) (seconds : Nat)
  | dateTime64 (tz : String) (value : Int) (precision : Nat)
  | enum8 (v : Int)
  | enum16 (v : Int)
  | array (items : List CHValue)
  | tuple (items : List CHValue)
  | map (keys : List CHValue) (vals : List CHValue)
  | null
  | point (x : Nat) (y : Nat)
  | ring (points : List (Nat × Nat))
  | polygon (rings : List (List (Nat × Nat)))
  | multiPolygon (polygons : List (List (List (Nat × Nat))))

mutual

/-- Structural equality test for `CHType` (decidable equality is derived
from it below; Lean cannot derive instances for nested inductives). The
outer match is on the first argument only, with a small inner match per
constructor, to keep the compiled matchers small. -/
def eqType : CHType → CHType → Bool
  | .int8, b => match b with | .int8 => true | _ => false
  | .int16, b => match b with | .int16 => true | _ => false
  | .int32, b => match b with | .int32 => true | _ => false
  | .int64, b => match b with | .int64 => true | _ => false
  | .int128, b => match b with | .int128 => true | _ => false
  | .int256, b => match b with | .int256 => true | _ => false
  | .uint8, b => match b with | .uint8 => true | _ => false
  | .uint16, b => match b with | .uint16 => true | _ => false
  | .uint32, b => match b with | .uint32 => true | _ => false
  | .uint64, b => match b with | .uint64 => true | _ => false
  | .uint128, b => match b with | .uint128 => true | _ => false
  | .uint256, b => match b with | .uint256 => true | _ => false
  | .float32, b => match b with | .float32 => true | _ => false
  | .float64, b => match b with | .float64 => true | _ => false
  | .decimal32 s, b => match b with | .decimal32 s2 => s == s2 | _ => false
  | .decimal64 s, b => match b with | .decimal64 s2 => s == s2 | _ => false
  | .decimal128 s, b => match b with | .decimal128 s2 => s == s2 | _ => false
  | .decimal256 s, b => match b with | .decimal256 s2 => s == s2 | _ => false
  | .string, b => match b with | .string => true | _ => false
  | .fixedString n, b => match b with | .fixedString m => n == m | _ => false
  | .uuid, b => match b with | .uuid => true | _ => false
  | .date, b => match b with | .date => true | _ => false
  | .dateTime tz, b => match b with | .dateTime tz2 => tz == tz2 | _ => false
  | .dateTime64 p tz, b =>
    match b with | .dateTime64 q tz2 => p == q && tz == tz2 | _ => false
  | .enum8 es, b => match b with | .enum8 es2 => es == es2 | _ => false
  | .enum16 es, b => match b with | .enum16 es2 => es == es2 | _ => false
  | .lowCardinality a, b =>
    match b with | .lowCardinality b2 => eqType a b2 | _ => false
  | .array a, b => match b with | .array b2 => eqType a b2 | _ => false
  | .tuple fs, b => match b with | .tuple gs => eqTypeList fs gs | _ => false
  | .nullable a, b => match b with | .nullable b2 => eqType a b2 | _ => false
  | .map k v, b =>
    match b with | .map k2 v2 => eqType k k2 && eqType v v2 | _ => false
  | .point, b => match b with | .point => true | _ => false
  | .ring, b => match b with | .ring => true | _ => false
  | .polygon, b => match b with | .polygon => true | _ => false
  | .multiPolygon, b => match b with | .multiPolygon => true | _ => false

def eqTypeList : List CHType → List CHType → Bool
  | [], bs => match bs with | [] => true | _ => false
  | a :: as2, bs =>
    match bs with
    | b :: bs2 => eqType a b && eqTypeList as2 bs2
    | _ => false

end

mutual

/-- Structural equality test for `CHValue` (mirrors the derived `PartialEq`
of the Rust `Value`; decidable equality is derived from it below). -/
def veq : CHValue → CHValue → Bool
  | .int8 x, b => match b with | .int8 y => x == y | _ => false
  | .int16 x, b => match b with | .int16 y => x == y | _ => false
  | .int32 x, b => match b with | .int32 y => x == y | _ => false
  | .int64 x, b => match b with | .int64 y => x == y | _ => false
  | .int128 x, b => match b with | .int128 y => x == y | _ => false
  | .int256 x, b => match b with | .int256 y => x == y | _ => false
  | .uint8 x, b => match b with | .uint8 y => x == y | _ => false
  | .uint16 x, b => match b with | .uint16 y => x == y | _ => false
  | .uint32 x, b => match b with | .uint32 y => x == y | _ => false
  | .uint64 x, b => match b with | .uint64 y => x == y | _ => false
  | .uint128 x, b => match b with | .uint128 y => x == y | _ => false
  | .uint256 x, b => match b with | .uint256 y => x == y | _ => false
  | .float32 x, b => match b with | .float32 y => x == y | _ => false
  | .float64 x, b => match b with | .float64 y => x == y | _ => false
  | .decimal32 s x, b =>
    match b with | .decimal32 s2 y => s == s2 && x == y | _ => false
  | .decimal64 s x, b =>
    match b with | .decimal64 s2 y => s == s2 && x == y | _ => false
  | .decimal128 s x, b =>
    match b with | .decimal128 s2 y => s == s2 && x == y | _ => false
  | .decimal256 s x, b =>
    match b with | .decimal256 s2 y => s == s2 && x == y | _ => false
  | .string x, b => match b with | .string y => x == y | _ => false
  | .uuid x, b => match b with | .uuid y => x == y | _ => false
  | .date x, b => match b with | .date y => x == y | _ => false
  | .dateTime tz s, b =>
    match b with | .dateTime tz2 s2 => tz == tz2 && s == s2 | _ => false
  | .dateTime64 tz v p, b =>
    match b with
    | .dateTime64 tz2 v2 p2 => tz == tz2 && v == v2 && p == p2
    | _ => false
  | .enum8 x, b => match b with | .enum8 y => x == y | _ => false
  | .enum16 x, b => match b with | .enum16 y => x == y | _ => false
  | .array xs, b => match b with | .array ys => veqList xs ys | _ => false
  | .tuple xs, b => match b with | .tuple ys => veqList xs ys | _ => false
  | .map ks vs, b =>
    match b with
    | .map ks2 vs2 => veqList ks ks2 && veqList vs vs2
    | _ => false
  | .null, b => match b with | .null => true | _ => false
  | .point x y, b =>
    match b with | .point x2 y2 => x == x2 && y == y2 | _ => false
  | .ring x, b => match b with | .ring y => x == y | _ => false
  | .polygon x, b => match b with | .polygon y => x == y | _ => false
  | .multiPolygon x, b => match b with | .multiPolygon y => x == y | _ => false

def veqList : List CHValue → List CHValue → Bool
  | [], bs => match bs with | [] => true | _ => false
  | a :: as2, bs =>
    match bs with
    | b :: bs2 => veq a b && veqList as2 bs2
    | _ => false

end

set_option maxHeartbeats 1600000 in
theorem eqType_iff : ∀ a b : CHType, eqType a b = true ↔ a = b := by
  have H : ∀ a : CHType, ∀ b, eqType a b = true ↔ a = b := by
    intro a
    refine @CHType.rec (fun a => ∀ b, eqType a b = true ↔ a = b)
      (fun as2 => ∀ bs, eqTypeList as2 bs = true ↔ as2 = bs)
      ?_ ?_ ?_ ?_ ?_ ?_ ?_ ?_ ?_ ?_ ?_ ?_ ?_ ?_ ?_ ?_ ?_ ?_ ?_ ?_ ?_ ?_ ?_ ?_
      ?_ ?_ ?_ ?_ ?_ ?_ ?_ ?_ ?_ ?_ ?_ ?_ ?_ a
    all_goals first
    | (intro x y ih1 ih2 b
       cases b <;> simp [eqType, eqTypeList, ih1, ih2])
    | (intro x ih b
       cases b <;> simp [eqType, eqTypeList, ih])
    | (intro x y b
       cases b <;> simp [eqType, eqTypeList])
    | (intro x b
       cases b <;> simp [eqType, eqTypeList])
    | (intro b
       cases b <;> simp [eqType, eqTypeList])
  exact H

instance : DecidableEq CHType := fun a b =>
  decidable_of_iff (eqType a b = true) (eqType_iff a b)

set_option maxHeartbeats 1600000 in
theorem veq_iff : ∀ a b : CHValue, veq a b = true ↔ a = b := by
  have H : ∀ a : CHValue, ∀ b, veq a b = true ↔ a = b := by
    intro a
    refine @CHValue.rec (fun a => ∀ b, veq a b = true ↔ a = b)
      (fun as2 => ∀ bs, veqList as2 bs = true ↔ as2 = bs)
      ?_ ?_ ?_ ?_ ?_ ?_ ?_ ?_ ?_ ?_ ?_ ?_ ?_ ?_ ?_ ?_ ?_ ?_ ?_ ?_ ?_ ?_ ?_ ?_
      ?_ ?_ ?_ ?_ ?_ ?_ ?_ ?_ ?_ ?_ ?_ a
    all_goals first
    | (intro x y ih1 ih2 b
       cases b <;> simp [veq, veqList, and_assoc, ih1, ih2])
    | (intro x ih b
       cases b <;> simp [veq, veqList, and_assoc, ih])
    | (intro x y z b
       cases b <;> simp [veq, veqList, and_assoc])
    | (intro x y b
       cases b <;> simp [veq, veqList, and_assoc])
    | (intro x b
       cases b <;> simp [veq, veqList, and_assoc])
    | (intro b
       cases b <;> simp [veq, veqList, and_assoc])
  exact H

instance : DecidableEq CHValue := fun a b =>
  decidable_of_iff (veq a b = true) (veq_iff a b)

/-! ## Codec building blocks -/

/-- Two's-complement little-endian encoding of a signed `w`-byte integer
(`to_le_bytes` on `iN`). -/
def intToLE (w : Nat) (v : Int) : List Nat :=
  natToLE w (v % ((2 : Int) ^ (8 * w))).toNat

/-- Reinterpret a `w`-byte unsigned read as a signed value. -/
def decodeSigned (w n : Nat) : Int :=
  if n < 2 ^ (8 * w - 1) then (n : Int) else (n : Int) - (2 : Int) ^ (8 * w)

theorem intToLE_toNat_lt (w : Nat) (v : Int) :
    (v % ((2 : Int) ^ (8 * w))).toNat < 2 ^ (8 * w) := by
  have hpos : (0 : Int) < (2 : Int) ^ (8 * w) := by positivity
  have h1 := Int.emod_nonneg v (ne_of_gt hpos)
  have h2 := Int.emod_lt_of_pos v hpos
  have hcast : ((2 ^ (8 * w) : Nat) : Int) = (2 : Int) ^ (8 * w) := by push_cast; ring
  omega

theorem decodeSigned_intToLE {w : Nat} (hw : 0 < w) {v : Int}
    (h1 : -((2 : Int) ^ (8 * w - 1)) ≤ v) (h2 : v < (2 : Int) ^ (8 * w - 1)) :
    decodeSigned w (v % ((2 : Int) ^ (8 * w))).toNat = v := by
  have hsplit : (2 : Int) ^ (8 * w) = 2 * (2 : Int) ^ (8 * w - 1) := by
    have h8 : 8 * w - 1 + 1 = 8 * w := by omega
    calc (2 : Int) ^ (8 * w) = (2 : Int) ^ (8 * w - 1 + 1) := by rw [h8]
    _ = (2 : Int) ^ (8 * w - 1) * 2 := pow_succ 2 (8 * w - 1)
    _ = 2 * (2 : Int) ^ (8 * w - 1) := by ring
  have hpos : (0 : Int) < (2 : Int) ^ (8 * w) := by positivity
  have hPpos : (0 : Int) < (2 : Int) ^ (8 * w - 1) := by positivity
  have hcast : ((2 ^ (8 * w - 1) : Nat) : Int) = (2 : Int) ^ (8 * w - 1) := by
    push_cast; ring
  rcases le_or_lt 0 v with hv | hv
  · have hlt : v < (2 : Int) ^ (8 * w) := by omega
    have hmod : v % ((2 : Int) ^ (8 * w)) = v := Int.emod_eq_of_lt hv hlt
    rw [hmod, decodeSigned]
    rw [if_pos (by omega)]
    omega
  · have hmod : v % ((2 : Int) ^ (8 * w)) = v + (2 : Int) ^ (8 * w) := by
      have e1 : (v + (2 : Int) ^ (8 * w) * 1) % ((2 : Int) ^ (8 * w))
          = v % ((2 : Int) ^ (8 * w)) :=
        Int.add_mul_emod_self_left v ((2 : Int) ^ (8 * w)) 1
      rw [mul_one] at e1
      have e2 : (v + (2 : Int) ^ (8 * w)) % ((2 : Int) ^ (8 * w))
          = v + (2 : Int) ^ (8 * w) :=
        Int.emod_eq_of_lt (by omega) (by omega)
      omega
    rw [hmod, decodeSigned]
    rw [if_neg (by omega)]
    omega

/-- Error-propagating map over a list in the `KResult` monad. -/
def mapKR {α β : Type} (f : α → KResult β) : List α → KResult (List β)
  | [] => .ok []
  | a :: as2 =>
    match f a with
    | .err e => .err e
    | .ok b =>
      match mapKR f as2 with
      | .err e => .err e
      | .ok bs => .ok (b :: bs)

theorem mapKR_ok {α β : Type} (f : α → KResult β) (g : α → β) :
    ∀ xs : List α, (∀ x ∈ xs, f x = .ok (g x)) → mapKR f xs = .ok (xs.map g) := by
  intro xs
  induction xs with
  | nil => intro _; rfl
  | cons a as2 ih =>
    intro h
    have ha : f a = .ok (g a) := h a (by simp)
    simp [mapKR, ha, ih (fun x hx => h x (by simp [hx]))]

/-- Concatenated per-element column encoding (used for the scalar types,
whose columns are just the element encodings in order). -/
def encColumn (enc : CHValue → KResult (List Nat)) : List CHValue → KResult (List Nat)
  | [] => .ok []
  | v :: vs =>
    match enc v with
    | .err e => .err e
    | .ok b =>
      match encColumn enc vs with
      | .err e => .err e
      | .ok bs => .ok (b ++ bs)

/-- Sequential per-element column decoding of exactly `n` elements. -/
def decColumn (dec : List Nat → KResult (CHValue × List Nat)) :
    Nat → List Nat → KResult (List CHValue × List Nat)
  | 0, s => .ok ([], s)
  | n + 1, s =>
    match dec s with
    | .err e => .err e
    | .ok (v, s2) =>
      match decColumn dec n s2 with
      | .err e => .err e
      | .ok (vs, s3) => .ok (v :: vs, s3)

theorem encColumn_decColumn (enc : CHValue → KResult (List Nat))
    (dec : List Nat → KResult (CHValue × List Nat))
    (R : CHValue → CHValue → Prop) :
    ∀ (vs : List CHValue) (rest : List Nat),
      (∀ v ∈ vs, ∃ b w, enc v = .ok b ∧
        (∀ r2, dec (b ++ r2) = .ok (w, r2)) ∧ R v w) →
      ∃ out ws, encColumn enc vs = .ok out ∧
        decColumn dec vs.length (out ++ rest) = .ok (ws, rest) ∧
        List.Forall₂ R vs ws := by
  intro vs
  induction vs with
  | nil =>
    intro rest _
    exact ⟨[], [], rfl, rfl, List.Forall₂.nil⟩
  | cons v vs ih =>
    intro rest h
    obtain ⟨b, w, hb, hdec, hR⟩ := h v (by simp)
    obtain ⟨out, ws, hout, hdecs, hRs⟩ := ih rest (fun x hx => h x (by simp [hx]))
    refine ⟨b ++ out, w :: ws, ?_, ?_, List.Forall₂.cons hR hRs⟩
    · simp [encColumn, hb, hout]
    · simp only [List.length_cons, decColumn, List.append_assoc, hdec, hdecs]

/-- Sequential read of `n` unsigned `w`-byte little-endian integers. -/
def decNats (w : Nat) : Nat → List Nat → KResult (List Nat × List Nat)
  | 0, s => .ok ([], s)
  | n + 1, s =>
    match readLE w s with
    | .err e => .err e
    | .ok (v, s2) =>
      match decNats w n s2 with
      | .err e => .err e
      | .ok (vs, s3) => .ok (v :: vs, s3)

theorem decNats_append (w : Nat) :
    ∀ (xs : List Nat) (rest : List Nat), (∀ x ∈ xs, x < 256 ^ w) →
      decNats w xs.length ((xs.map (natToLE w)).flatten ++ rest) = .ok (xs, rest) := by
  intro xs
  induction xs with
  | nil => intro rest _; rfl
  | cons x xs ih =>
    intro rest h
    have hx : x < 256 ^ w := h x (by simp)
    simp only [List.length_cons, List.map_cons, List.flatten_cons, decNats,
      List.append_assoc, readLE_append_of_lt hx,
      ih rest (fun y hy => h y (by simp [hy]))]

/-- Running cumulative sums: the u64 offsets of the Array format. -/
def cumAux (acc : Nat) : List Nat → List Nat
  | [] => []
  | l :: ls => (acc + l) :: cumAux (acc + l) ls

/-- Consecutive differences of an offset list (the reader's view). -/
def offSizes (prev : Nat) : List Nat → List Nat
  | [] => []
  | o :: os => (o - prev) :: offSizes o os

/-- Split a flattened list back into chunks of the given sizes. -/
def splitChunks {α : Type} : List Nat → List α → List (List α)
  | [], _ => []
  | sz :: szs, ws => ws.take sz :: splitChunks szs (ws.drop sz)

@[simp] theorem cumAux_length (ls : List Nat) :
    ∀ acc, (cumAux acc ls).length = ls.length := by
  induction ls with
  | nil => intro acc; rfl
  | cons l ls ih => intro acc; simp [cumAux, ih]

theorem offSizes_cumAux (ls : List Nat) :
    ∀ acc, offSizes acc (cumAux acc ls) = ls := by
  induction ls with
  | nil => intro acc; rfl
  | cons l ls ih => intro acc; simp [cumAux, offSizes, ih]

/-- Last element with a default, matching the reader's
`offsets.last().copied().unwrap_or(0)` view of an offset list. -/
def lastD {α : Type} (d : α) : List α → α
  | [] => d
  | x :: xs => lastD x xs

theorem lastD_cumAux (ls : List Nat) :
    ∀ acc, lastD acc (cumAux acc ls) = acc + ls.sum := by
  induction ls with
  | nil => intro acc; simp [cumAux, lastD]
  | cons l ls ih =>
    intro acc
    simp only [cumAux, List.sum_cons, lastD, ih (acc + l)]
    omega

theorem cumAux_mem_le (ls : List Nat) :
    ∀ acc o, o ∈ cumAux acc ls → o ≤ acc + ls.sum := by
  induction ls with
  | nil => intro acc o h; simp [cumAux] at h
  | cons l ls ih =>
    intro acc o h
    simp only [cumAux, List.mem_cons] at h
    rcases h with h | h
    · simp only [List.sum_cons]
      omega
    · have := ih (acc + l) o h
      simp only [List.sum_cons]
      omega

theorem splitChunks_flatten {α : Type} :
    ∀ chunks : List (List α),
      splitChunks (chunks.map List.length) chunks.flatten = chunks := by
  intro chunks
  induction chunks with
  | nil => rfl
  | cons c cs ih =>
    simp only [List.map_cons, List.flatten_cons, splitChunks, List.take_left,
      List.drop_left, ih]

/-- Strip trailing zero bytes, as the FixedString deserializer does (pinned
by the FixedString(32) round trip in tests.rs `roundtrip_string`). -/
def trimTrailingZeros (bs : List Nat) : List Nat :=
  (bs.reverse.dropWhile (fun b => b == 0)).reverse

/-! Extractors from `CHValue` rows used by the composite column
serializers. Each has an error-reporting version (used by the serializer)
and a total version (used by the size-bound predicate `colFits`); on
well-typed and on `Null` rows the two agree. -/

def arrayItems : CHValue → KResult (List CHValue)
  | .array xs => .ok xs
  | .null => .ok []
  | _ => .err (.serializeError "unexpected value for array type")

def arrayItemsD : CHValue → List CHValue
  | .array xs => xs
  | _ => []

def mapEntries : CHValue → KResult (List CHValue × List CHValue)
  | .map ks vs => .ok (ks, vs)
  | .null => .ok ([], [])
  | _ => .err (.serializeError "unexpected value for map type")

def mapKeysD : CHValue → List CHValue
  | .map ks _ => ks
  | _ => []

def mapValsD : CHValue → List CHValue
  | .map _ vs => vs
  | _ => []

def tupleHead : CHValue → KResult CHValue
  | .tuple (x :: _) => .ok x
  | .null => .ok .null
  | _ => .err (.serializeError "unexpected value for tuple type")

def tupleHeadD : CHValue → CHValue
  | .tuple (x :: _) => x
  | _ => .null

def tupleTail : CHValue → KResult CHValue
  | .tuple (_ :: xs) => .ok (.tuple xs)
  | .null => .ok .null
  | _ => .err (.serializeError "unexpected value for tuple type")

def tupleTailD : CHValue → CHValue
  | .tuple (_ :: xs) => .tuple xs
  | v => v

def consTuple (v : CHValue) : CHValue → CHValue
  | .tuple xs => .tuple (v :: xs)
  | w => w

def pointOf : CHValue → KResult (Nat × Nat)
  | .point x y => .ok (x, y)
  | .null => .ok (0, 0)
  | _ => .err (.serializeError "unexpected value for point type")

def ringOf : CHValue → KResult (List (Nat × Nat))
  | .ring ps => .ok ps
  | .null => .ok []
  | _ => .err (.serializeError "unexpected value for ring type")

def ringOfD : CHValue → List (Nat × Nat)
  | .ring ps => ps
  | _ => []

def polygonOf : CHValue → KResult (List (List (Nat × Nat)))
  | .polygon rs => .ok rs
  | .null => .ok []
  | _ => .err (.serializeError "unexpected value for polygon type")

def polygonOfD : CHValue → List (List (Nat × Nat))
  | .polygon rs => rs
  | _ => []

def multiPolygonOf : CHValue → KResult (List (List (List (Nat × Nat))))
  | .multiPolygon ps => .ok ps
  | .null => .ok []
  | _ => .err (.serializeError "unexpected value for multipolygon type")

def multiPolygonOfD : CHValue → List (List (List (Nat × Nat)))
  | .multiPolygon ps => ps
  | _ => []

/-- Index of the first occurrence of `v` (0 when absent). -/
def idxOf (v : CHValue) : List CHValue → Nat
  | [] => 0
  | w :: ws => if w = v then 0 else idxOf v ws + 1

theorem idxOf_lt {v : CHValue} : ∀ {l : List CHValue}, v ∈ l → idxOf v l < l.length := by
  intro l
  induction l with
  | nil => intro h; simp at h
  | cons w ws ih =>
    intro h
    by_cases hw : w = v
    · simp [idxOf, hw]
    · have hv : v ∈ ws := by
        rcases List.mem_cons.mp h with h2 | h2
        · exact absurd h2.symm hw
        · exact h2
      simp only [idxOf, if_neg hw, List.length_cons]
      have := ih hv
      omega

theorem idxOf_getD {v : CHValue} (d : CHValue) :
    ∀ {l : List CHValue}, v ∈ l → l.getD (idxOf v l) d = v := by
  intro l
  induction l with
  | nil => intro h; simp at h
  | cons w ws ih =>
    intro h
    by_cases hw : w = v
    · simp [idxOf, hw]
    · have hv : v ∈ ws := by
        rcases List.mem_cons.mp h with h2 | h2
        · exact absurd h2.symm hw
        · exact h2
      simp only [idxOf, if_neg hw]
      simpa using ih hv

/-- First-seen-order deduplication (the dictionary construction of the
LowCardinality serializer, spec §4.4). -/
def firstDedupAux (acc : List CHValue) : List CHValue → List CHValue
  | [] => acc
  | v :: vs => if v ∈ acc then firstDedupAux acc vs else firstDedupAux (acc ++ [v]) vs

def firstDedup (vs : List CHValue) : List CHValue :=
  firstDedupAux [] vs

theorem firstDedupAux_mem {v : CHValue} :
    ∀ (vs acc : List CHValue), v ∈ vs ∨ v ∈ acc → v ∈ firstDedupAux acc vs := by
  intro vs
  induction vs with
  | nil =>
    intro acc h
    rcases h with h | h
    · simp at h
    · simpa [firstDedupAux] using h
  | cons w ws ih =>
    intro acc h
    by_cases hw : w ∈ acc
    · simp only [firstDedupAux, if_pos hw]
      apply ih
      rcases h with h | h
      · rcases List.mem_cons.mp h with h2 | h2
        · right; rw [h2]; exact hw
        · left; exact h2
      · right; exact h
    · simp only [firstDedupAux, if_neg hw]
      apply ih
      rcases h with h | h
      · rcases List.mem_cons.mp h with h2 | h2
        · right; simp [h2]
        · left; exact h2
      · right; simp [h]

theorem firstDedup_mem {v : CHValue} {vs : List CHValue} (h : v ∈ vs) :
    v ∈ firstDedup vs :=
  firstDedupAux_mem vs [] (Or.inl h)

theorem firstDedupAux_sub {v : CHValue} :
    ∀ (vs acc : List CHValue), v ∈ firstDedupAux acc vs → v ∈ acc ∨ v ∈ vs := by
  intro vs
  induction vs with
  | nil =>
    intro acc h
    exact Or.inl (by simpa [firstDedupAux] using h)
  | cons w ws ih =>
    intro acc h
    by_cases hw : w ∈ acc
    · simp only [firstDedupAux, if_pos hw] at h
      rcases ih acc h with h2 | h2
      · exact Or.inl h2
      · exact Or.inr (by simp [h2])
    · simp only [firstDedupAux, if_neg hw] at h
      rcases ih (acc ++ [w]) h with h2 | h2
      · rcases List.mem_append.mp h2 with h3 | h3
        · exact Or.inl h3
        · exact Or.inr (by simp at h3; simp [h3])
      · exact Or.inr (by simp [h2])

theorem firstDedupAux_length :
    ∀ (vs acc : List CHValue),
      (firstDedupAux acc vs).length ≤ acc.length + vs.length := by
  intro vs
  induction vs with
  | nil => intro acc; simp [firstDedupAux]
  | cons w ws ih =>
    intro acc
    by_cases hw : w ∈ acc
    · simp only [firstDedupAux, if_pos hw, List.length_cons]
      have := ih acc
      omega
    · simp only [firstDedupAux, if_neg hw, List.length_cons]
      have := ih (acc ++ [w])
      simp at this
      omega

theorem firstDedup_length (vs : List CHValue) :
    (firstDedup vs).length ≤ vs.length := by
  have := firstDedupAux_length vs []
  simpa [firstDedup] using this

/-! Geo column codecs. Point compiles to `Tuple(F64, F64)` — one column of
all x coordinates then one of all y coordinates; Ring, Polygon and
MultiPolygon compile to `Array(Point)`, `Array(Ring)`, `Array(Polygon)` —
u64 cumulative offsets, then the flattened inner column (spec §4.4). -/

def pointColEnc (ps : List (Nat × Nat)) : List Nat :=
  ((ps.map Prod.fst).map (natToLE 8)).flatten
    ++ ((ps.map Prod.snd).map (natToLE 8)).flatten

def pointColDec (n : Nat) (s : List Nat) : KResult (List (Nat × Nat) × List Nat) :=
  match decNats 8 n s with
  | .err e => .err e
  | .ok (xs, s2) =>
    match decNats 8 n s2 with
    | .err e => .err e
    | .ok (ys, s3) => .ok (xs.zip ys, s3)

def ringColEnc (rs : List (List (Nat × Nat))) : List Nat :=
  ((cumAux 0 (rs.map List.length)).map (natToLE 8)).flatten
    ++ pointColEnc rs.flatten

def ringColDec (n : Nat) (s : List Nat) :
    KResult (List (List (Nat × Nat)) × List Nat) :=
  match decNats 8 n s with
  | .err e => .err e
  | .ok (offs, s2) =>
    match pointColDec (lastD 0 offs) s2 with
    | .err e => .err e
    | .ok (ps, s3) => .ok (splitChunks (offSizes 0 offs) ps, s3)

def polygonColEnc (qs : List (List (List (Nat × Nat)))) : List Nat :=
  ((cumAux 0 (qs.map List.length)).map (natToLE 8)).flatten
    ++ ringColEnc qs.flatten

def polygonColDec (n : Nat) (s : List Nat) :
    KResult (List (List (List (Nat × Nat))) × List Nat) :=
  match decNats 8 n s with
  | .err e => .err e
  | .ok (offs, s2) =>
    match ringColDec (lastD 0 offs) s2 with
    | .err e => .err e
    | .ok (rs, s3) => .ok (splitChunks (offSizes 0 offs) rs, s3)

def multiPolygonColEnc (ms : List (List (List (List (Nat × Nat))))) : List Nat :=
  ((cumAux 0 (ms.map List.length)).map (natToLE 8)).flatten
    ++ polygonColEnc ms.flatten

def multiPolygonColDec (n : Nat) (s : List Nat) :
    KResult (List (List (List (List (Nat × Nat)))) × List Nat) :=
  match decNats 8 n s with
  | .err e => .err e
  | .ok (offs, s2) =>
    match polygonColDec (lastD 0 offs) s2 with
    | .err e => .err e
    | .ok (qs, s3) => .ok (splitChunks (offSizes 0 offs) qs, s3)

/-- Modelled from the spec §4.4: per-element encoding of the scalar (leaf)
types — raw little-endian integers, IEEE-754 bit patterns, signed decimal
mantissas, varint-length-prefixed strings, zero-padded (and, per the
`roundtrip_string` test, silently truncated) FixedString, half-swapped
UUID, u16 Date, u32 DateTime, i64 DateTime64, signed enum codes. A `Null`
row encodes as the zero of the type (the placeholder the Nullable mask
points across, spec §4.4). -/
def encElem : CHType → CHValue → KResult (List Nat)
  | .int8, v =>
    match v with
    | .int8 x => .ok (intToLE 1 x)
    | .null => .ok (natToLE 1 0)
    | _ => .err (.serializeError "unexpected value for type")
  | .int16, v =>
    match v with
    | .int16 x => .ok (intToLE 2 x)
    | .null => .ok (natToLE 2 0)
    | _ => .err (.serializeError "unexpected value for type")
  | .int32, v =>
    match v with
    | .int32 x => .ok (intToLE 4 x)
    | .null => .ok (natToLE 4 0)
    | _ => .err (.serializeError "unexpected value for type")
  | .int64, v =>
    match v with
    | .int64 x => .ok (intToLE 8 x)
    | .null => .ok (natToLE 8 0)
    | _ => .err (.serializeError "unexpected value for type")
  | .int128, v =>
    match v with
    | .int128 x => .ok (intToLE 16 x)
    | .null => .ok (natToLE 16 0)
    | _ => .err (.serializeError "unexpected value for type")
  | .int256, v =>
    match v with
    | .int256 x => .ok (intToLE 32 x)
    | .null => .ok (natToLE 32 0)
    | _ => .err (.serializeError "unexpected value for type")
  | .uint8, v =>
    match v with
    | .uint8 x => .ok (natToLE 1 x)
    | .null => .ok (natToLE 1 0)
    | _ => .err (.serializeError "unexpected value for type")
  | .uint16, v =>
    match v with
    | .uint16 x => .ok (natToLE 2 x)
    | .null => .ok (natToLE 2 0)
    | _ => .err (.serializeError "unexpected value for type")
  | .uint32, v =>
    match v with
    | .uint32 x => .ok (natToLE 4 x)
    | .null => .ok (natToLE 4 0)
    | _ => .err (.serializeError "unexpected value for type")
  | .uint64, v =>
    match v with
    | .uint64 x => .ok (natToLE 8 x)
    | .null => .ok (natToLE 8 0)
    | _ => .err (.serializeError "unexpected value for type")
  | .uint128, v =>
    match v with
    | .uint128 x => .ok (natToLE 16 x)
    | .null => .ok (natToLE 16 0)
    | _ => .err (.serializeError "unexpected value for type")
  | .uint256, v =>
    match v with
    | .uint256 x => .ok (natToLE 32 x)
    | .null => .ok (natToLE 32 0)
    | _ => .err (.serializeError "unexpected value for type")
  | .float32, v =>
    match v with
    | .float32 x => .ok (natToLE 4 x)
    | .null => .ok (natToLE 4 0)
    | _ => .err (.serializeError "unexpected value for type")
  | .float64, v =>
    match v with
    | .float64 x => .ok (natToLE 8 x)
    | .null => .ok (natToLE 8 0)
    | _ => .err (.serializeError "unexpected value for type")
  | .decimal32 _, v =>
    match v with
    | .decimal32 _ x => .ok (intToLE 4 x)
    | .null => .ok (natToLE 4 0)
    | _ => .err (.serializeError "unexpected value for type")
  | .decimal64 _, v =>
    match v with
    | .decimal64 _ x => .ok (intToLE 8 x)
    | .null => .ok (natToLE 8 0)
    | _ => .err (.serializeError "unexpected value for type")
  | .decimal128 _, v =>
    match v with
    | .decimal128 _ x => .ok (intToLE 16 x)
    | .null => .ok (natToLE 16 0)
    | _ => .err (.serializeError "unexpected value for type")
  | .decimal256 _, v =>
    match v with
    | .decimal256 _ x => .ok (intToLE 32 x)
    | .null => .ok (natToLE 32 0)
    | _ => .err (.serializeError "unexpected value for type")
  | .string, v =>
    match v with
    | .string bs => .ok (write_string bs)
    | .null => .ok (write_string [])
    | _ => .err (.serializeError "unexpected value for type")
  | .fixedString n, v =>
    match v with
    | .string bs => .ok (bs.take n ++ List.replicate (n - bs.length) 0)
    | .null => .ok (List.replicate n 0)
    | _ => .err (.serializeError "unexpected value for type")
  | .uuid, v =>
    match v with
    | .uuid bs => .ok ((bs.take 8).reverse ++ (bs.drop 8).reverse)
    | .null => .ok (List.replicate 16 0)
    | _ => .err (.serializeError "unexpected value for type")
  | .date, v =>
    match v with
    | .date x => .ok (natToLE 2 x)
    | .null => .ok (natToLE 2 0)
    | _ => .err (.serializeError "unexpected value for type")
  | .dateTime _, v =>
    match v with
    | .dateTime _ x => .ok (natToLE 4 x)
    | .null => .ok (natToLE 4 0)
    | _ => .err (.serializeError "unexpected value for type")
  | .dateTime64 _ _, v =>
    match v with
    | .dateTime64 _ x _ => .ok (intToLE 8 x)
    | .null => .ok (natToLE 8 0)
    | _ => .err (.serializeError "unexpected value for type")
  | .enum8 _, v =>
    match v with
    | .enum8 x => .ok (intToLE 1 x)
    | .null => .ok (natToLE 1 0)
    | _ => .err (.serializeError "unexpected value for type")
  | .enum16 _, v =>
    match v with
    | .enum16 x => .ok (intToLE 2 x)
    | .null => .ok (natToLE 2 0)
    | _ => .err (.serializeError "unexpected value for type")
  | _, _ => .err (.serializeError "not a scalar type")

/-- Modelled from the spec §4.4: per-element decoding of the scalar types,
mirroring `encElem`. String elements go through `read_string` (io.rs) and
therefore inherit its 1 GiB bound; FixedString reads exactly `n` bytes and
strips the zero padding. -/
def decElem : CHType → List Nat → KResult (CHValue × List Nat)
  | .int8, s =>
    match readLE 1 s with
    | .err e => .err e
    | .ok (x, r) => .ok (.int8 (decodeSigned 1 x), r)
  | .int16, s =>
    match readLE 2 s with
    | .err e => .err e
    | .ok (x, r) => .ok (.int16 (decodeSigned 2 x), r)
  | .int32, s =>
    match readLE 4 s with
    | .err e => .err e
    | .ok (x, r) => .ok (.int32 (decodeSigned 4 x), r)
  | .int64, s =>
    match readLE 8 s with
    | .err e => .err e
    | .ok (x, r) => .ok (.int64 (decodeSigned 8 x), r)
  | .int128, s =>
    match readLE 16 s with
    | .err e => .err e
    | .ok (x, r) => .ok (.int128 (decodeSigned 16 x), r)
  | .int256, s =>
    match readLE 32 s with
    | .err e => .err e
    | .ok (x, r) => .ok (.int256 (decodeSigned 32 x), r)
  | .uint8, s =>
    match readLE 1 s with
    | .err e => .err e
    | .ok (x, r) => .ok (.uint8 x, r)
  | .uint16, s =>
    match readLE 2 s with
    | .err e => .err e
    | .ok (x, r) => .ok (.uint16 x, r)
  | .uint32, s =>
    match readLE 4 s with
    | .err e => .err e
    | .ok (x, r) => .ok (.uint32 x, r)
  | .uint64, s =>
    match readLE 8 s with
    | .err e => .err e
    | .ok (x, r) => .ok (.uint64 x, r)
  | .uint128, s =>
    match readLE 16 s with
    | .err e => .err e
    | .ok (x, r) => .ok (.uint128 x, r)
  | .uint256, s =>
    match readLE 32 s with
    | .err e => .err e
    | .ok (x, r) => .ok (.uint256 x, r)
  | .float32, s =>
    match readLE 4 s with
    | .err e => .err e
    | .ok (x, r) => .ok (.float32 x, r)
  | .float64, s =>
    match readLE 8 s with
    | .err e => .err e
    | .ok (x, r) => .ok (.float64 x, r)
  | .decimal32 sc, s =>
    match readLE 4 s with
    | .err e => .err e
    | .ok (x, r) => .ok (.decimal32 sc (decodeSigned 4 x), r)
  | .decimal64 sc, s =>
    match readLE 8 s with
    | .err e => .err e
    | .ok (x, r) => .ok (.decimal64 sc (decodeSigned 8 x), r)
  | .decimal128 sc, s =>
    match readLE 16 s with
    | .err e => .err e
    | .ok (x, r) => .ok (.decimal128 sc (decodeSigned 16 x), r)
  | .decimal256 sc, s =>
    match readLE 32 s with
    | .err e => .err e
    | .ok (x, r) => .ok (.decimal256 sc (decodeSigned 32 x), r)
  | .string, s =>
    match read_string s with
    | .err e => .err e
    | .ok (bs, r) => .ok (.string bs, r)
  | .fixedString n, s =>
    if s.length < n then .err .ioError
    else .ok (.string (trimTrailingZeros (s.take n)), s.drop n)
  | .uuid, s =>
    if s.length < 16 then .err .ioError
    else .ok (.uuid (((s.take 16).take 8).reverse ++ ((s.take 16).drop 8).reverse),
      s.drop 16)
  | .date, s =>
    match readLE 2 s with
    | .err e => .err e
    | .ok (x, r) => .ok (.date x, r)
  | .dateTime tz, s =>
    match readLE 4 s with
    | .err e => .err e
    | .ok (x, r) => .ok (.dateTime tz x, r)
  | .dateTime64 p tz, s =>
    match readLE 8 s with
    | .err e => .err e
    | .ok (x, r) => .ok (.dateTime64 tz (decodeSigned 8 x) p, r)
  | .enum8 _, s =>
    match readLE 1 s with
    | .err e => .err e
    | .ok (x, r) => .ok (.enum8 (decodeSigned 1 x), r)
  | .enum16 _, s =>
    match readLE 2 s with
    | .err e => .err e
    | .ok (x, r) => .ok (.enum16 (decodeSigned 2 x), r)
  | _, _ => .err (.deserializeError "not a scalar type")

/-! LowCardinality framing (spec §4.4): a u64 flags word — the canonical
value `0x0002_0202_0100_0000` with the index-width bits ored into the low
byte (0 = u8, 1 = u16, 2 = u32, 3 = u64) — then the u64 dictionary size,
the dictionary serialized as a flattened column of the inner type (a
`Nullable` inner type contributes a null sentinel at dictionary index 0
and drops its mask), the u64 row count, and the packed indices. -/

def lcFlags : Nat := 0x0002020201000000

def widthBits (m : Nat) : Nat :=
  if m ≤ 255 then 0
  else if m ≤ 65535 then 1
  else if m ≤ 4294967295 then 2
  else 3

def lcIndexBytes (m : Nat) : Nat := 2 ^ widthBits m

/-- Trailer of a serialized LowCardinality column given the dictionary
`keys`, its serialized bytes `dict`, and the rows `vs`. -/
def lcSerTail (keys : List CHValue) (dict : List Nat) (vs : List CHValue) : List Nat :=
  natToLE 8 (lcFlags ||| widthBits keys.length) ++ natToLE 8 keys.length ++ dict
    ++ natToLE 8 vs.length
    ++ ((vs.map (fun v => idxOf v keys)).map (natToLE (lcIndexBytes keys.length))).flatten

mutual

/-- Modelled from the spec §4.4, with the Nullable arm embedded from
src/klickhouse/src/types/serialize/nullable.rs lines 8–31:
`serialize_column` writes exactly the elements of `values` as a column of
type `type_`. Scalars are the concatenated element encodings; Nullable is
a length-n 0/1 mask followed by the inner column at the same length (one
inner element emitted even at null positions); Array is u64 cumulative
offsets then the flattened inner column; Tuple is one column per field in
order with no interleaving; Map is laid out as `Array(Tuple(K, V))`; geo
types compile to their Tuple/Array forms; LowCardinality is the
dictionary-encoded trailer of `lcSerTail` (nothing at all for an empty
column). -/
def serializeColumn : CHType → List CHValue → KResult (List Nat)
  | .lowCardinality inner, vs =>
    if vs.length = 0 then .ok []
    else
      match inner with
      | .nullable u =>
        match serializeColumn u
            (CHValue.null :: firstDedup (vs.filter (fun v => decide (v ≠ CHValue.null)))) with
        | .err e => .err e
        | .ok dict =>
          .ok (lcSerTail
            (CHValue.null :: firstDedup (vs.filter (fun v => decide (v ≠ CHValue.null))))
            dict vs)
      | u =>
        match serializeColumn u (firstDedup vs) with
        | .err e => .err e
        | .ok dict => .ok (lcSerTail (firstDedup vs) dict vs)
  | .array inner, vs =>
    match mapKR arrayItems vs with
    | .err e => .err e
    | .ok itemLists =>
      match serializeColumn inner itemLists.flatten with
      | .err e => .err e
      | .ok body =>
        .ok (((cumAux 0 (itemLists.map List.length)).map (natToLE 8)).flatten ++ body)
  | .tuple fs, vs => serializeTupleCols fs vs
  | .nullable inner, vs =>
    match serializeColumn inner vs with
    | .err e => .err e
    | .ok body =>
      .ok (vs.map (fun v => if v = CHValue.null then 1 else 0) ++ body)
  | .map k v, vs =>
    match mapKR mapEntries vs with
    | .err e => .err e
    | .ok pairs =>
      match serializeColumn k (pairs.map Prod.fst).flatten with
      | .err e => .err e
      | .ok kb =>
        match serializeColumn v (pairs.map Prod.snd).flatten with
        | .err e => .err e
        | .ok vb =>
          .ok (((cumAux 0 (pairs.map (fun p => p.1.length))).map (natToLE 8)).flatten
            ++ kb ++ vb)
  | .point, vs =>
    match mapKR pointOf vs with
    | .err e => .err e
    | .ok ps => .ok (pointColEnc ps)
  | .ring, vs =>
    match mapKR ringOf vs with
    | .err e => .err e
    | .ok rs => .ok (ringColEnc rs)
  | .polygon, vs =>
    match mapKR polygonOf vs with
    | .err e => .err e
    | .ok qs => .ok (polygonColEnc qs)
  | .multiPolygon, vs =>
    match mapKR multiPolygonOf vs with
    | .err e => .err e
    | .ok ms => .ok (multiPolygonColEnc ms)
  | t, vs => encColumn (encElem t) vs

/-- Tuple component columns, peeled one field at a time: the column of
first components of every row, then the remaining fields applied to the
rows with their first component removed. -/
def serializeTupleCols : List CHType → List CHValue → KResult (List Nat)
  | [], _ => .ok []
  | f :: fs, vs =>
    match mapKR tupleHead vs with
    | .err e => .err e
    | .ok heads =>
      match serializeColumn f heads with
      | .err e => .err e
      | .ok col =>
        match mapKR tupleTail vs with
        | .err e => .err e
        | .ok tls =>
          match serializeTupleCols fs tls with
          | .err e => .err e
          | .ok rest => .ok (col ++ rest)

end

mutual

/-- Modelled from the spec §4.4: `deserialize_column` reads exactly `n`
elements of the given type, mirroring `serializeColumn`. -/
def deserializeColumn : CHType → Nat → List Nat → KResult (List CHValue × List Nat)
  | .lowCardinality inner, n, s =>
    if n = 0 then .ok ([], s)
    else
      match readLE 8 s with
      | .err e => .err e
      | .ok (flags, s2) =>
        if 3 < flags % 256 then
          .err (.deserializeError "unsupported low cardinality index width")
        else
          match readLE 8 s2 with
          | .err e => .err e
          | .ok (dictLen, s3) =>
            match inner with
            | .nullable u =>
              match deserializeColumn u dictLen s3 with
              | .err e => .err e
              | .ok (dictVals, s4) =>
                match readLE 8 s4 with
                | .err e => .err e
                | .ok (rowCount, s5) =>
                  match decNats (2 ^ (flags % 256)) rowCount s5 with
                  | .err e => .err e
                  | .ok (idxs, s6) =>
                    .ok (idxs.map (fun i =>
                      if i = 0 then CHValue.null else dictVals.getD i CHValue.null), s6)
            | u =>
              match deserializeColumn u dictLen s3 with
              | .err e => .err e
              | .ok (dictVals, s4) =>
                match readLE 8 s4 with
                | .err e => .err e
                | .ok (rowCount, s5) =>
                  match decNats (2 ^ (flags % 256)) rowCount s5 with
                  | .err e => .err e
                  | .ok (idxs, s6) =>
                    .ok (idxs.map (fun i => dictVals.getD i CHValue.null), s6)
  | .array inner, n, s =>
    match decNats 8 n s with
    | .err e => .err e
    | .ok (offs, s2) =>
      match deserializeColumn inner (lastD 0 offs) s2 with
      | .err e => .err e
      | .ok (flat, s3) =>
        .ok ((splitChunks (offSizes 0 offs) flat).map CHValue.array, s3)
  | .tuple fs, n, s => deserializeTupleCols fs n s
  | .nullable inner, n, s =>
    match decNats 1 n s with
    | .err e => .err e
    | .ok (mask, s2) =>
      match deserializeColumn inner n s2 with
      | .err e => .err e
      | .ok (vals, s3) =>
        .ok (List.zipWith (fun m v => if m ≠ 0 then CHValue.null else v) mask vals, s3)
  | .map k v, n, s =>
    match decNats 8 n s with
    | .err e => .err e
    | .ok (offs, s2) =>
      match deserializeColumn k (lastD 0 offs) s2 with
      | .err e => .err e
      | .ok (flatK, s3) =>
        match deserializeColumn v (lastD 0 offs) s3 with
        | .err e => .err e
        | .ok (flatV, s4) =>
          .ok (List.zipWith (fun a b => CHValue.map a b)
            (splitChunks (offSizes 0 offs) flatK)
            (splitChunks (offSizes 0 offs) flatV), s4)
  | .point, n, s =>
    match pointColDec n s with
    | .err e => .err e
    | .ok (ps, s2) => .ok (ps.map (fun p => CHValue.point p.1 p.2), s2)
  | .ring, n, s =>
    match ringColDec n s with
    | .err e => .err e
    | .ok (rs, s2) => .ok (rs.map CHValue.ring, s2)
  | .polygon, n, s =>
    match polygonColDec n s with
    | .err e => .err e
    | .ok (qs, s2) => .ok (qs.map CHValue.polygon, s2)
  | .multiPolygon, n, s =>
    match multiPolygonColDec n s with
    | .err e => .err e
    | .ok (ms, s2) => .ok (ms.map CHValue.multiPolygon, s2)
  | t, n, s => decColumn (decElem t) n s

def deserializeTupleCols : List CHType → Nat → List Nat → KResult (List CHValue × List Nat)
  | [], n, s => .ok (List.replicate n (.tuple []), s)
  | f :: fs, n, s =>
    match deserializeColumn f n s with
    | .err e => .err e
    | .ok (col, s2) =>
      match deserializeTupleCols fs n s2 with
      | .err e => .err e
      | .ok (rows, s3) => .ok (List.zipWith consTuple col rows, s3)

end

mutual

/-- Modelled from the spec §4.4: `serialize_prefix` — the type header.
LowCardinality emits one u64 version tag = 1; the composite types recurse
into their children; everything else emits nothing. -/
def serializePrefix : CHType → List Nat
  | .lowCardinality _ => natToLE 8 1
  | .array inner => serializePrefix inner
  | .nullable inner => serializePrefix inner
  | .map k v => serializePrefix k ++ serializePrefix v
  | .tuple fs => serializePrefixList fs
  | _ => []

def serializePrefixList : List CHType → List Nat
  | [] => []
  | f :: fs => serializePrefix f ++ serializePrefixList fs

end

mutual

/-- Modelled from the spec §4.4: `deserialize_prefix`, mirror of
`serializePrefix`. -/
def deserializePrefix : CHType → List Nat → KResult (List Nat)
  | .lowCardinality _, s =>
    match readLE 8 s with
    | .err e => .err e
    | .ok (v, rest) =>
      if v = 1 then .ok rest
      else .err (.deserializeError "unsupported low cardinality version")
  | .array inner, s => deserializePrefix inner s
  | .nullable inner, s => deserializePrefix inner s
  | .map k v, s =>
    match deserializePrefix k s with
    | .err e => .err e
    | .ok s2 => deserializePrefix v s2
  | .tuple fs, s => deserializePrefixList fs s
  | _, s => .ok s

def deserializePrefixList : List CHType → List Nat → KResult (List Nat)
  | [], s => .ok s
  | f :: fs, s =>
    match deserializePrefix f s with
    | .err e => .err e
    | .ok s2 => deserializePrefixList fs s2

end

/-- Strip the Nullable / LowCardinality wrapper spine off a type. -/
def stripLcNull : CHType → CHType
  | .nullable inner => stripLcNull inner
  | .lowCardinality inner => stripLcNull inner
  | t => t

/-- Does the wrapper spine of the type contain a Nullable layer (i.e. is
`Null` a well-typed value, and does the column format preserve it)? -/
def hasNullWrapper : CHType → Bool
  | .nullable _ => true
  | .lowCardinality inner => hasNullWrapper inner
  | _ => false

mutual

/-- Modelled from the spec §3 (the `validate(type, value)` invariant, with
the enum membership rules pinned by the `enum8_validate_value` tests):
well-typedness of a single value for a type. Numeric ranges follow the
Rust value representation (`u8` below 256, and so on); strings are byte
lists below 256 with length at most `MAX_STRING_SIZE`; a FixedString value
must fit in `n` bytes and not end in a zero byte (the wire format
zero-pads, so a trailing zero cannot survive a round trip); DateTime
scale/timezone parameters must match the type's; enum codes must be in
range and members of the entry list; `Null` is well-typed exactly under a
Nullable wrapper (possibly below LowCardinality). -/
def validateValue : CHType → CHValue → Bool
  | t, .null => hasNullWrapper t
  | t, .int8 x =>
    match stripLcNull t with
    | .int8 => decide (-128 ≤ x ∧ x < 128)
    | _ => false
  | t, .int16 x =>
    match stripLcNull t with
    | .int16 => decide (-32768 ≤ x ∧ x < 32768)
    | _ => false
  | t, .int32 x =>
    match stripLcNull t with
    | .int32 => decide (-((2 : Int) ^ 31) ≤ x ∧ x < (2 : Int) ^ 31)
    | _ => false
  | t, .int64 x =>
    match stripLcNull t with
    | .int64 => decide (-((2 : Int) ^ 63) ≤ x ∧ x < (2 : Int) ^ 63)
    | _ => false
  | t, .int128 x =>
    match stripLcNull t with
    | .int128 => decide (-((2 : Int) ^ 127) ≤ x ∧ x < (2 : Int) ^ 127)
    | _ => false
  | t, .int256 x =>
    match stripLcNull t with
    | .int256 => decide (-((2 : Int) ^ 255) ≤ x ∧ x < (2 : Int) ^ 255)
    | _ => false
  | t, .uint8 x =>
    match stripLcNull t with
    | .uint8 => decide (x < 2 ^ 8)
    | _ => false
  | t, .uint16 x =>
    match stripLcNull t with
    | .uint16 => decide (x < 2 ^ 16)
    | _ => false
  | t, .uint32 x =>
    match stripLcNull t with
    | .uint32 => decide (x < 2 ^ 32)
    | _ => false
  | t, .uint64 x =>
    match stripLcNull t with
    | .uint64 => decide (x < 2 ^ 64)
    | _ => false
  | t, .uint128 x =>
    match stripLcNull t with
    | .uint128 => decide (x < 2 ^ 128)
    | _ => false
  | t, .uint256 x =>
    match stripLcNull t with
    | .uint256 => decide (x < 2 ^ 256)
    | _ => false
  | t, .float32 x =>
    match stripLcNull t with
    | .float32 => decide (x < 2 ^ 32)
    | _ => false
  | t, .float64 x =>
    match stripLcNull t with
    | .float64 => decide (x < 2 ^ 64)
    | _ => false
  | t, .decimal32 sc x =>
    match stripLcNull t with
    | .decimal32 sc2 => decide (sc = sc2) &&
        decide (-((2 : Int) ^ 31) ≤ x ∧ x < (2 : Int) ^ 31)
    | _ => false
  | t, .decimal64 sc x =>
    match stripLcNull t with
    | .decimal64 sc2 => decide (sc = sc2) &&
        decide (-((2 : Int) ^ 63) ≤ x ∧ x < (2 : Int) ^ 63)
    | _ => false
  | t, .decimal128 sc x =>
    match stripLcNull t with
    | .decimal128 sc2 => decide (sc = sc2) &&
        decide (-((2 : Int) ^ 127) ≤ x ∧ x < (2 : Int) ^ 127)
    | _ => false
  | t, .decimal256 sc x =>
    match stripLcNull t with
    | .decimal256 sc2 => decide (sc = sc2) &&
        decide (-((2 : Int) ^ 255) ≤ x ∧ x < (2 : Int) ^ 255)
    | _ => false
  | t, .string bs =>
    match stripLcNull t with
    | .string => decide (bs.length ≤ MAX_STRING_SIZE) && bs.all (fun b => decide (b < 256))
    | .fixedString n =>
      decide (bs.length ≤ n) && bs.all (fun b => decide (b < 256)) &&
        decide (bs.getLast? ≠ some 0)
    | _ => false
  | t, .uuid bs =>
    match stripLcNull t with
    | .uuid => decide (bs.length = 16) && bs.all (fun b => decide (b < 256))
    | _ => false
  | t, .date x =>
    match stripLcNull t with
    | .date => decide (x < 2 ^ 16)
    | _ => false
  | t, .dateTime tz x =>
    match stripLcNull t with
    | .dateTime tz2 => decide (tz = tz2) && decide (x < 2 ^ 32)
    | _ => false
  | t, .dateTime64 tz x p =>
    match stripLcNull t with
    | .dateTime64 p2 tz2 => decide (tz = tz2) && decide (p = p2) &&
        decide (-((2 : Int) ^ 63) ≤ x ∧ x < (2 : Int) ^ 63)
    | _ => false
  | t, .enum8 x =>
    match stripLcNull t with
    | .enum8 entries => decide (-128 ≤ x ∧ x < 128) &&
        entries.any (fun e => decide (e.2 = x))
    | _ => false
  | t, .enum16 x =>
    match stripLcNull t with
    | .enum16 entries => decide (-32768 ≤ x ∧ x < 32768) &&
        entries.any (fun e => decide (e.2 = x))
    | _ => false
  | t, .array xs =>
    match stripLcNull t with
    | .array inner => validateAll inner xs
    | _ => false
  | t, .tuple xs =>
    match stripLcNull t with
    | .tuple fs => validateTuple fs xs
    | _ => false
  | t, .map ks vs =>
    match stripLcNull t with
    | .map k v => decide (ks.length = vs.length) && validateAll k ks && validateAll v vs
    | _ => false
  | t, .point x y =>
    match stripLcNull t with
    | .point => decide (x < 2 ^ 64) && decide (y < 2 ^ 64)
    | _ => false
  | t, .ring ps =>
    match stripLcNull t with
    | .ring => ps.all (fun p => decide (p.1 < 2 ^ 64) && decide (p.2 < 2 ^ 64))
    | _ => false
  | t, .polygon rs =>
    match stripLcNull t with
    | .polygon =>
      rs.all (fun r => r.all (fun p => decide (p.1 < 2 ^ 64) && decide (p.2 < 2 ^ 64)))
    | _ => false
  | t, .multiPolygon ms =>
    match stripLcNull t with
    | .multiPolygon =>
      ms.all (fun q =>
        q.all (fun r => r.all (fun p => decide (p.1 < 2 ^ 64) && decide (p.2 < 2 ^ 64))))
    | _ => false

def validateAll (t : CHType) : List CHValue → Bool
  | [] => true
  | v :: vs => validateValue t v && validateAll t vs

def validateTuple : List CHType → List CHValue → Bool
  | [], [] => true
  | f :: fs, x :: xs => validateValue f x && validateTuple fs xs
  | _, _ => false

end

mutual

/-- Induction measure for the column codec: recursive calls of
`serializeColumn` are always on a type of strictly smaller weight (the
LowCardinality serializer may skip past a Nullable wrapper, hence its
weight 2). -/
def typeWeight : CHType → Nat
  | .lowCardinality inner => typeWeight inner + 2
  | .array inner => typeWeight inner + 1
  | .nullable inner => typeWeight inner + 1
  | .map k v => typeWeight k + typeWeight v + 1
  | .tuple fs => typeWeightList fs + 1
  | _ => 1

def typeWeightList : List CHType → Nat
  | [] => 1
  | f :: fs => typeWeight f + typeWeightList fs + 1

end

/-- The Nullable / LowCardinality spine does not change well-typedness of a
non-null value. -/
theorem validateValue_nullable {v : CHValue} (t : CHType) (h : v ≠ CHValue.null) :
    validateValue (.nullable t) v = validateValue t v := by
  cases v <;> first
  | exact absurd rfl h
  | simp only [validateValue, stripLcNull]

theorem validateValue_lowCardinality {v : CHValue} (t : CHType) (h : v ≠ CHValue.null) :
    validateValue (.lowCardinality t) v = validateValue t v := by
  cases v <;> first
  | exact absurd rfl h
  | simp only [validateValue, stripLcNull]

theorem validateValue_null (t : CHType) :
    validateValue t .null = hasNullWrapper t := rfl

theorem validateAll_iff (t : CHType) :
    ∀ xs : List CHValue, validateAll t xs = true ↔ ∀ x ∈ xs, validateValue t x = true := by
  intro xs
  induction xs with
  | nil => simp [validateAll]
  | cons x xs ih => simp [validateAll, ih]

/-- Decoder agreement relation: the decoded element `w` must equal the
source element `v` except when `v` is a `Null` fed through a column type
whose format cannot represent it (then the decoder yields the zero
placeholder and the spec says readers must ignore it). -/
def DecRel (t : CHType) (v w : CHValue) : Prop :=
  v ≠ CHValue.null ∨ hasNullWrapper t = true → w = v

theorem forall₂_imp_mem {α β : Type} {R S : α → β → Prop} :
    ∀ {xs : List α} {ys : List β}, List.Forall₂ R xs ys →
      (∀ x ∈ xs, ∀ y, R x y → S x y) → List.Forall₂ S xs ys := by
  intro xs ys h
  induction h with
  | nil => intro _; exact List.Forall₂.nil
  | cons hR _ ih =>
    intro himp
    exact List.Forall₂.cons (himp _ (by simp) _ hR)
      (ih (fun x hx y hR2 => himp x (by simp [hx]) y hR2))

theorem forall₂_append_split {α β : Type} {R : α → β → Prop} :
    ∀ (xs1 : List α) {xs2 : List α} {ys : List β},
      List.Forall₂ R (xs1 ++ xs2) ys →
      List.Forall₂ R xs1 (ys.take xs1.length) ∧
        List.Forall₂ R xs2 (ys.drop xs1.length) := by
  intro xs1
  induction xs1 with
  | nil => intro xs2 ys h; exact ⟨List.Forall₂.nil, h⟩
  | cons x xs ih =>
    intro xs2 ys h
    cases h with
    | cons hR hrest =>
      obtain ⟨h1, h2⟩ := ih hrest
      exact ⟨List.Forall₂.cons hR h1, h2⟩

theorem splitChunks_forall₂ {α β : Type} {R : α → β → Prop} :
    ∀ (chunks : List (List α)) (ws : List β),
      List.Forall₂ R chunks.flatten ws →
      List.Forall₂ (List.Forall₂ R) chunks (splitChunks (chunks.map List.length) ws) := by
  intro chunks
  induction chunks with
  | nil => intro ws _; exact List.Forall₂.nil
  | cons c cs ih =>
    intro ws h
    rw [List.flatten_cons] at h
    obtain ⟨h1, h2⟩ := forall₂_append_split c h
    exact List.Forall₂.cons h1 (ih _ h2)

theorem forall₂_getD {α β : Type} {R : α → β → Prop} :
    ∀ {xs : List α} {ys : List β}, List.Forall₂ R xs ys →
      ∀ (i : Nat), i < xs.length → ∀ (d : α) (d2 : β), R (xs.getD i d) (ys.getD i d2) := by
  intro xs ys h
  induction h with
  | nil => intro i hi; simp at hi
  | cons hR hrest ih =>
    intro i hi d d2
    cases i with
    | zero => simpa using hR
    | succ i =>
      simp only [List.getD_cons_succ]
      exact ih i (by simpa using hi) d d2

theorem forall₂_replicate_of_mem {α β : Type} {R : α → β → Prop} {c : β} :
    ∀ (xs : List α), (∀ x ∈ xs, R x c) →
      List.Forall₂ R xs (List.replicate xs.length c) := by
  intro xs
  induction xs with
  | nil => intro _; exact List.Forall₂.nil
  | cons x xs ih =>
    intro h
    simp only [List.length_cons, List.replicate_succ]
    exact List.Forall₂.cons (h x (by simp)) (ih (fun y hy => h y (by simp [hy])))

/-- A decoded column agrees exactly with a fully well-typed source column. -/
theorem forall₂_DecRel_eq {t : CHType} :
    ∀ {xs ws : List CHValue}, List.Forall₂ (DecRel t) xs ws →
      (∀ x ∈ xs, validateValue t x = true) → ws = xs := by
  intro xs ws h
  induction h with
  | nil => intro _; rfl
  | cons hR hrest ih =>
    rename_i x w xs2 ws2
    intro hval
    have hx : w = x := by
      by_cases hn : x = CHValue.null
      · subst hn
        have hw : hasNullWrapper t = true := by
          have h0 := hval CHValue.null (by simp)
          rwa [validateValue_null] at h0
        exact hR (Or.inr hw)
      · exact hR (Or.inl hn)
    rw [hx, ih (fun y hy => hval y (by simp [hy]))]

theorem zip_map_fst_snd {α β : Type} :
    ∀ ps : List (α × β), (ps.map Prod.fst).zip (ps.map Prod.snd) = ps := by
  intro ps
  induction ps with
  | nil => rfl
  | cons p ps ih => simp [ih]

theorem flatten_map_natToLE_one :
    ∀ bs : List Nat, (∀ b ∈ bs, b < 256) → (bs.map (natToLE 1)).flatten = bs := by
  intro bs
  induction bs with
  | nil => intro _; rfl
  | cons b bs ih =>
    intro h
    have hb : b < 256 := h b (by simp)
    have h1 : natToLE 1 b = [b] := by simp [natToLE, Nat.mod_eq_of_lt hb]
    simp only [List.map_cons, List.flatten_cons, h1,
      ih (fun x hx => h x (by simp [hx])), List.singleton_append]

theorem trimTrailingZeros_pad {bs : List Nat} (h : bs.getLast? ≠ some 0) :
    ∀ k : Nat, trimTrailingZeros (bs ++ List.replicate k 0) = bs := by
  intro k
  unfold trimTrailingZeros
  rw [List.reverse_append, List.reverse_replicate]
  have hdrop0 : List.dropWhile (fun b => b == 0) (List.replicate k 0 ++ bs.reverse)
      = List.dropWhile (fun b => b == 0) bs.reverse := by
    induction k with
    | zero => simp
    | succ k ih =>
      rw [List.replicate_succ, List.cons_append, List.dropWhile_cons]
      simp only [beq_self_eq_true, if_true]
      exact ih
  rw [hdrop0]
  cases hbs : bs.reverse with
  | nil =>
    have : bs = [] := by simpa using congrArg List.reverse hbs
    simp [this]
  | cons x xs =>
    have hx : x ≠ 0 := by
      intro hx0
      apply h
      have hh : bs.getLast? = (x :: xs).head? := by
        rw [← hbs, List.head?_reverse]
      simp [hh, hx0]
    rw [List.dropWhile_cons]
    simp only [beq_iff_eq, hx, if_false]
    calc (x :: xs).reverse = bs.reverse.reverse := by rw [hbs]
    _ = bs := List.reverse_reverse bs

mutual

/-- Size side-conditions under which a column is serializable without u64
truncation: every length the wire format stores as a u64 — cumulative
array/map/geo offsets, LowCardinality row and dictionary counts — must be
below `2 ^ 64`. Any value list realizable in the Rust process satisfies
this (`Vec` lengths are bounded by the address space). -/
def colFits : CHType → List CHValue → Bool
  | .lowCardinality inner, vs =>
    match inner with
    | .nullable u =>
      decide (vs.length < 2 ^ 64) &&
        decide ((CHValue.null ::
          firstDedup (vs.filter (fun v => decide (v ≠ CHValue.null)))).length < 2 ^ 64) &&
        colFits u (CHValue.null ::
          firstDedup (vs.filter (fun v => decide (v ≠ CHValue.null))))
    | u =>
      decide (vs.length < 2 ^ 64) && decide ((firstDedup vs).length < 2 ^ 64) &&
        colFits u (firstDedup vs)
  | .array inner, vs =>
    decide ((vs.map arrayItemsD).flatten.length < 2 ^ 64) &&
      colFits inner (vs.map arrayItemsD).flatten
  | .tuple fs, vs => colFitsTuple fs vs
  | .nullable inner, vs => colFits inner vs
  | .map k v, vs =>
    decide ((vs.map mapKeysD).flatten.length < 2 ^ 64) &&
      colFits k (vs.map mapKeysD).flatten && colFits v (vs.map mapValsD).flatten
  | .ring, vs => decide ((vs.map ringOfD).flatten.length < 2 ^ 64)
  | .polygon, vs =>
    decide ((vs.map polygonOfD).flatten.length < 2 ^ 64) &&
      decide ((vs.map polygonOfD).flatten.flatten.length < 2 ^ 64)
  | .multiPolygon, vs =>
    decide ((vs.map multiPolygonOfD).flatten.length < 2 ^ 64) &&
      decide ((vs.map multiPolygonOfD).flatten.flatten.length < 2 ^ 64) &&
      decide ((vs.map multiPolygonOfD).flatten.flatten.flatten.length < 2 ^ 64)
  | _, _ => true

def colFitsTuple : List CHType → List CHValue → Bool
  | [], _ => true
  | f :: fs, vs =>
    colFits f (vs.map tupleHeadD) && colFitsTuple fs (vs.map tupleTailD)

end

/-- Column round-trip property of one type: a well-typed (or null-rowed)
value list serializes successfully and deserializes — from the produced
bytes followed by anything — back to a `DecRel`-matching list, consuming
exactly the produced bytes. -/
def ColRT (t : CHType) : Prop :=
  ∀ (vs : List CHValue) (rest : List Nat),
    (∀ v ∈ vs, v = CHValue.null ∨ validateValue t v = true) →
    colFits t vs = true →
    ∃ out ws, serializeColumn t vs = .ok out ∧
      deserializeColumn t vs.length (out ++ rest) = .ok (ws, rest) ∧
      List.Forall₂ (DecRel t) vs ws

/-- Round-trip property of the peeled tuple-column serializer. -/
def TupRT (fs : List CHType) : Prop :=
  ∀ (vs : List CHValue) (rest : List Nat),
    (∀ v ∈ vs, v = CHValue.null ∨ validateValue (.tuple fs) v = true) →
    colFitsTuple fs vs = true →
    ∃ out ws, serializeTupleCols fs vs = .ok out ∧
      deserializeTupleCols fs vs.length (out ++ rest) = .ok (ws, rest) ∧
      List.Forall₂ (DecRel (.tuple fs)) vs ws

theorem read_write_string (bs : List Nat) (h : bs.length ≤ MAX_STRING_SIZE)
    (r2 : List Nat) : read_string (write_string bs ++ r2) = .ok (bs, r2) := by
  have hlt : bs.length < 2 ^ 63 := by
    have : MAX_STRING_SIZE = 1073741824 := rfl
    have h2 : (1073741824 : Nat) < 2 ^ 63 := by norm_num
    omega
  have hv := (C6_varint_roundtrip bs.length (bs ++ r2) hlt).2
  rw [write_string, List.append_assoc]
  simp only [read_string, hv]
  rw [if_neg (by omega)]
  by_cases h0 : bs.length = 0
  · have : bs = [] := List.length_eq_zero.mp h0
    subst this
    simp
  · rw [if_neg h0, if_neg (by simp)]
    rw [List.take_left, List.drop_left]
theorem elemRT_uint8 :
    ∀ v, v = CHValue.null ∨ validateValue (CHType.uint8) v = true →
      ∃ b w, encElem (CHType.uint8) v = .ok b ∧
        (∀ r2, decElem (CHType.uint8) (b ++ r2) = .ok (w, r2)) ∧ DecRel (CHType.uint8) v w := by
  intro v hv
  have hp : (256 : Nat) ^ 1 = 2 ^ 8 := by norm_num
  rcases hv with rfl | hval
  · refine ⟨natToLE 1 0, CHValue.uint8 0, rfl, fun r2 => ?_, fun h => ?_⟩
    · simp [decElem, readLE_append_of_lt (show (0:Nat) < 256 ^ 1 by positivity)]
    · rcases h with h | h
      · exact absurd rfl h
      · simp [hasNullWrapper] at h
  · cases v <;>
      simp only [validateValue, stripLcNull, hasNullWrapper, Bool.and_eq_true,
        decide_eq_true_eq, Bool.false_eq_true] at hval
    rename_i x
    refine ⟨natToLE 1 x, CHValue.uint8 x, rfl, fun r2 => ?_, fun _ => rfl⟩
    simp [decElem, readLE_append_of_lt (show x < 256 ^ 1 by omega)]

theorem elemRT_uint16 :
    ∀ v, v = CHValue.null ∨ validateValue (CHType.uint16) v = true →
      ∃ b w, encElem (CHType.uint16) v = .ok b ∧
        (∀ r2, decElem (CHType.uint16) (b ++ r2) = .ok (w, r2)) ∧ DecRel (CHType.uint16) v w := by
  intro v hv
  have hp : (256 : Nat) ^ 2 = 2 ^ 16 := by norm_num
  rcases hv with rfl | hval
  · refine ⟨natToLE 2 0, CHValue.uint16 0, rfl, fun r2 => ?_, fun h => ?_⟩
    · simp [decElem, readLE_append_of_lt (show (0:Nat) < 256 ^ 2 by positivity)]
    · rcases h with h | h
      · exact absurd rfl h
      · simp [hasNullWrapper] at h
  · cases v <;>
      simp only [validateValue, stripLcNull, hasNullWrapper, Bool.and_eq_true,
        decide_eq_true_eq, Bool.false_eq_true] at hval
    rename_i x
    refine ⟨natToLE 2 x, CHValue.uint16 x, rfl, fun r2 => ?_, fun _ => rfl⟩
    simp [decElem, readLE_append_of_lt (show x < 256 ^ 2 by omega)]

theorem elemRT_uint32 :
    ∀ v, v = CHValue.null ∨ validateValue (CHType.uint32) v = true →
      ∃ b w, encElem (CHType.uint32) v = .ok b ∧
        (∀ r2, decElem (CHType.uint32) (b ++ r2) = .ok (w, r2)) ∧ DecRel (CHType.uint32) v w := by
  intro v hv
  have hp : (256 : Nat) ^ 4 = 2 ^ 32 := by norm_num
  rcases hv with rfl | hval
  · refine ⟨natToLE 4 0, CHValue.uint32 0, rfl, fun r2 => ?_, fun h => ?_⟩
    · simp [decElem, readLE_append_of_lt (show (0:Nat) < 256 ^ 4 by positivity)]
    · rcases h with h | h
      · exact absurd rfl h
      · simp [hasNullWrapper] at h
  · cases v <;>
      simp only [validateValue, stripLcNull, hasNullWrapper, Bool.and_eq_true,
        decide_eq_true_eq, Bool.false_eq_true] at hval
    rename_i x
    refine ⟨natToLE 4 x, CHValue.uint32 x, rfl, fun r2 => ?_, fun _ => rfl⟩
    simp [decElem, readLE_append_of_lt (show x < 256 ^ 4 by omega)]

theorem elemRT_uint64 :
    ∀ v, v = CHValue.null ∨ validateValue (CHType.uint64) v = true →
      ∃ b w, encElem (CHType.uint64) v = .ok b ∧
        (∀ r2, decElem (CHType.uint64) (b ++ r2) = .ok (w, r2)) ∧ DecRel (CHType.uint64) v w := by
  intro v hv
  have hp : (256 : Nat) ^ 8 = 2 ^ 64 := by norm_num
  rcases hv with rfl | hval
  · refine ⟨natToLE 8 0, CHValue.uint64 0, rfl, fun r2 => ?_, fun h => ?_⟩
    · simp [decElem, readLE_append_of_lt (show (0:Nat) < 256 ^ 8 by positivity)]
    · rcases h with h | h
      · exact absurd rfl h
      · simp [hasNullWrapper] at h
  · cases v <;>
      simp only [validateValue, stripLcNull, hasNullWrapper, Bool.and_eq_true,
        decide_eq_true_eq, Bool.false_eq_true] at hval
    rename_i x
    refine ⟨natToLE 8 x, CHValue.uint64 x, rfl, fun r2 => ?_, fun _ => rfl⟩
    simp [decElem, readLE_append_of_lt (show x < 256 ^ 8 by omega)]

theorem elemRT_uint128 :
    ∀ v, v = CHValue.null ∨ validateValue (CHType.uint128) v = true →
      ∃ b w, encElem (CHType.uint128) v = .ok b ∧
        (∀ r2, decElem (CHType.uint128) (b ++ r2) = .ok (w, r2)) ∧ DecRel (CHType.uint128) v w := by
  intro v hv
  have hp : (256 : Nat) ^ 16 = 2 ^ 128 := by norm_num
  rcases hv with rfl | hval
  · refine ⟨natToLE 16 0, CHValue.uint128 0, rfl, fun r2 => ?_, fun h => ?_⟩
    · simp [decElem, readLE_append_of_lt (show (0:Nat) < 256 ^ 16 by positivity)]
    · rcases h with h | h
      · exact absurd rfl h
      · simp [hasNullWrapper] at h
  · cases v <;>
      simp only [validateValue, stripLcNull, hasNullWrapper, Bool.and_eq_true,
        decide_eq_true_eq, Bool.false_eq_true] at hval
    rename_i x
    refine ⟨natToLE 16 x, CHValue.uint128 x, rfl, fun r2 => ?_, fun _ => rfl⟩
    simp [decElem, readLE_append_of_lt (show x < 256 ^ 16 by omega)]

theorem elemRT_uint256 :
    ∀ v, v = CHValue.null ∨ validateValue (CHType.uint256) v = true →
      ∃ b w, encElem (CHType.uint256) v = .ok b ∧
        (∀ r2, decElem (CHType.uint256) (b ++ r2) = .ok (w, r2)) ∧ DecRel (CHType.uint256) v w := by
  intro v hv
  have hp : (256 : Nat) ^ 32 = 2 ^ 256 := by norm_num
  rcases hv with rfl | hval
  · refine ⟨natToLE 32 0, CHValue.uint256 0, rfl, fun r2 => ?_, fun h => ?_⟩
    · simp [decElem, readLE_append_of_lt (show (0:Nat) < 256 ^ 32 by positivity)]
    · rcases h with h | h
      · exact absurd rfl h
      · simp [hasNullWrapper] at h
  · cases v <;>
      simp only [validateValue, stripLcNull, hasNullWrapper, Bool.and_eq_true,
        decide_eq_true_eq, Bool.false_eq_true] at hval
    rename_i x
    refine ⟨natToLE 32 x, CHValue.uint256 x, rfl, fun r2 => ?_, fun _ => rfl⟩
    simp [decElem, readLE_append_of_lt (show x < 256 ^ 32 by omega)]

theorem elemRT_float32 :
    ∀ v, v = CHValue.null ∨ validateValue (CHType.float32) v = true →
      ∃ b w, encElem (CHType.float32) v = .ok b ∧
        (∀ r2, decElem (CHType.float32) (b ++ r2) = .ok (w, r2)) ∧ DecRel (CHType.float32) v w := by
  intro v hv
  have hp : (256 : Nat) ^ 4 = 2 ^ 32 := by norm_num
  rcases hv with rfl | hval
  · refine ⟨natToLE 4 0, CHValue.float32 0, rfl, fun r2 => ?_, fun h => ?_⟩
    · simp [decElem, readLE_append_of_lt (show (0:Nat) < 256 ^ 4 by positivity)]
    · rcases h with h | h
      · exact absurd rfl h
      · simp [hasNullWrapper] at h
  · cases v <;>
      simp only [validateValue, stripLcNull, hasNullWrapper, Bool.and_eq_true,
        decide_eq_true_eq, Bool.false_eq_true] at hval
    rename_i x
    refine ⟨natToLE 4 x, CHValue.float32 x, rfl, fun r2 => ?_, fun _ => rfl⟩
    simp [decElem, readLE_append_of_lt (show x < 256 ^ 4 by omega)]

theorem elemRT_float64 :
    ∀ v, v = CHValue.null ∨ validateValue (CHType.float64) v = true →
      ∃ b w, encElem (CHType.float64) v = .ok b ∧
        (∀ r2, decElem (CHType.float64) (b ++ r2) = .ok (w, r2)) ∧ DecRel (CHType.float64) v w := by
  intro v hv
  have hp : (256 : Nat) ^ 8 = 2 ^ 64 := by norm_num
  rcases hv with rfl | hval
  · refine ⟨natToLE 8 0, CHValue.float64 0, rfl, fun r2 => ?_, fun h => ?_⟩
    · simp [decElem, readLE_append_of_lt (show (0:Nat) < 256 ^ 8 by positivity)]
    · rcases h with h | h
      · exact absurd rfl h
      · simp [hasNullWrapper] at h
  · cases v <;>
      simp only [validateValue, stripLcNull, hasNullWrapper, Bool.and_eq_true,
        decide_eq_true_eq, Bool.false_eq_true] at hval
    rename_i x
    refine ⟨natToLE 8 x, CHValue.float64 x, rfl, fun r2 => ?_, fun _ => rfl⟩
    simp [decElem, readLE_append_of_lt (show x < 256 ^ 8 by omega)]

theorem elemRT_date :
    ∀ v, v = CHValue.null ∨ validateValue (CHType.date) v = true →
      ∃ b w, encElem (CHType.date) v = .ok b ∧
        (∀ r2, decElem (CHType.date) (b ++ r2) = .ok (w, r2)) ∧ DecRel (CHType.date) v w := by
  intro v hv
  have hp : (256 : Nat) ^ 2 = 2 ^ 16 := by norm_num
  rcases hv with rfl | hval
  · refine ⟨natToLE 2 0, CHValue.date 0, rfl, fun r2 => ?_, fun h => ?_⟩
    · simp [decElem, readLE_append_of_lt (show (0:Nat) < 256 ^ 2 by positivity)]
    · rcases h with h | h
      · exact absurd rfl h
      · simp [hasNullWrapper] at h
  · cases v <;>
      simp only [validateValue, stripLcNull, hasNullWrapper, Bool.and_eq_true,
        decide_eq_true_eq, Bool.false_eq_true] at hval
    rename_i x
    refine ⟨natToLE 2 x, CHValue.date x, rfl, fun r2 => ?_, fun _ => rfl⟩
    simp [decElem, readLE_append_of_lt (show x < 256 ^ 2 by omega)]

theorem elemRT_int8 :
    ∀ v, v = CHValue.null ∨ validateValue (CHType.int8) v = true →
      ∃ b w, encElem (CHType.int8) v = .ok b ∧
        (∀ r2, decElem (CHType.int8) (b ++ r2) = .ok (w, r2)) ∧ DecRel (CHType.int8) v w := by
  intro v hv
  rcases hv with rfl | hval
  · refine ⟨natToLE 1 0, CHValue.int8 (decodeSigned 1 0), rfl, fun r2 => ?_, fun h => ?_⟩
    · simp [decElem, readLE_append_of_lt (show (0:Nat) < 256 ^ 1 by positivity)]
    · rcases h with h | h
      · exact absurd rfl h
      · simp [hasNullWrapper] at h
  · cases v <;>
      simp only [validateValue, stripLcNull, hasNullWrapper, Bool.and_eq_true,
        decide_eq_true_eq, Bool.false_eq_true] at hval
    rename_i x
    obtain ⟨h1, h2⟩ := hval
    have eL : ((2 : Int) ^ 7) = 128 := by norm_num
    have hlt : ((x % ((2 : Int) ^ (8 * 1))).toNat) < 256 ^ 1 := by
      have h1 := intToLE_toNat_lt 1 x
      have h2 : (2 : Nat) ^ (8 * 1) = 256 ^ 1 := by norm_num
      omega
    have eh : ((2 : Int) ^ (8 * 1 - 1)) = 128 := by norm_num
    have hA : -((2 : Int) ^ (8 * 1 - 1)) ≤ x := by rw [eh]; omega
    have hB : x < (2 : Int) ^ (8 * 1 - 1) := by rw [eh]; omega
    have hd := decodeSigned_intToLE (w := 1) (by norm_num) hA hB
    refine ⟨intToLE 1 x, CHValue.int8 x, rfl, fun r2 => ?_, fun _ => rfl⟩
    have hr : readLE 1 (intToLE 1 x ++ r2)
        = .ok ((x % ((2 : Int) ^ (8 * 1))).toNat, r2) := by
      rw [intToLE]
      exact readLE_append_of_lt hlt r2
    simp only [decElem, hr, hd]

theorem elemRT_int16 :
    ∀ v, v = CHValue.null ∨ validateValue (CHType.int16) v = true →
      ∃ b w, encElem (CHType.int16) v = .ok b ∧
        (∀ r2, decElem (CHType.int16) (b ++ r2) = .ok (w, r2)) ∧ DecRel (CHType.int16) v w := by
  intro v hv
  rcases hv with rfl | hval
  · refine ⟨natToLE 2 0, CHValue.int16 (decodeSigned 2 0), rfl, fun r2 => ?_, fun h => ?_⟩
    · simp [decElem, readLE_append_of_lt (show (0:Nat) < 256 ^ 2 by positivity)]
    · rcases h with h | h
      · exact absurd rfl h
      · simp [hasNullWrapper] at h
  · cases v <;>
      simp only [validateValue, stripLcNull, hasNullWrapper, Bool.and_eq_true,
        decide_eq_true_eq, Bool.false_eq_true] at hval
    rename_i x
    obtain ⟨h1, h2⟩ := hval
    have eL : ((2 : Int) ^ 15) = 32768 := by norm_num
    have hlt : ((x % ((2 : Int) ^ (8 * 2))).toNat) < 256 ^ 2 := by
      have h1 := intToLE_toNat_lt 2 x
      have h2 : (2 : Nat) ^ (8 * 2) = 256 ^ 2 := by norm_num
      omega
    have eh : ((2 : Int) ^ (8 * 2 - 1)) = 32768 := by norm_num
    have hA : -((2 : Int) ^ (8 * 2 - 1)) ≤ x := by rw [eh]; omega
    have hB : x < (2 : Int) ^ (8 * 2 - 1) := by rw [eh]; omega
    have hd := decodeSigned_intToLE (w := 2) (by norm_num) hA hB
    refine ⟨intToLE 2 x, CHValue.int16 x, rfl, fun r2 => ?_, fun _ => rfl⟩
    have hr : readLE 2 (intToLE 2 x ++ r2)
        = .ok ((x % ((2 : Int) ^ (8 * 2))).toNat, r2) := by
      rw [intToLE]
      exact readLE_append_of_lt hlt r2
    simp only [decElem, hr, hd]

theorem elemRT_int32 :
    ∀ v, v = CHValue.null ∨ validateValue (CHType.int32) v = true →
      ∃ b w, encElem (CHType.int32) v = .ok b ∧
        (∀ r2, decElem (CHType.int32) (b ++ r2) = .ok (w, r2)) ∧ DecRel (CHType.int32) v w := by
  intro v hv
  rcases hv with rfl | hval
  · refine ⟨natToLE 4 0, CHValue.int32 (decodeSigned 4 0), rfl, fun r2 => ?_, fun h => ?_⟩
    · simp [decElem, readLE_append_of_lt (show (0:Nat) < 256 ^ 4 by positivity)]
    · rcases h with h | h
      · exact absurd rfl h
      · simp [hasNullWrapper] at h
  · cases v <;>
      simp only [validateValue, stripLcNull, hasNullWrapper, Bool.and_eq_true,
        decide_eq_true_eq, Bool.false_eq_true] at hval
    rename_i x
    obtain ⟨h1, h2⟩ := hval
    have eL : ((2 : Int) ^ 31) = 2147483648 := by norm_num
    have hlt : ((x % ((2 : Int) ^ (8 * 4))).toNat) < 256 ^ 4 := by
      have h1 := intToLE_toNat_lt 4 x
      have h2 : (2 : Nat) ^ (8 * 4) = 256 ^ 4 := by norm_num
      omega
    have eh : ((2 : Int) ^ (8 * 4 - 1)) = 2147483648 := by norm_num
    have hA : -((2 : Int) ^ (8 * 4 - 1)) ≤ x := by rw [eh]; omega
    have hB : x < (2 : Int) ^ (8 * 4 - 1) := by rw [eh]; omega
    have hd := decodeSigned_intToLE (w := 4) (by norm_num) hA hB
    refine ⟨intToLE 4 x, CHValue.int32 x, rfl, fun r2 => ?_, fun _ => rfl⟩
    have hr : readLE 4 (intToLE 4 x ++ r2)
        = .ok ((x % ((2 : Int) ^ (8 * 4))).toNat, r2) := by
      rw [intToLE]
      exact readLE_append_of_lt hlt r2
    simp only [decElem, hr, hd]

theorem elemRT_int64 :
    ∀ v, v = CHValue.null ∨ validateValue (CHType.int64) v = true →
      ∃ b w, encElem (CHType.int64) v = .ok b ∧
        (∀ r2, decElem (CHType.int64) (b ++ r2) = .ok (w, r2)) ∧ DecRel (CHType.int64) v w := by
  intro v hv
  rcases hv with rfl | hval
  · refine ⟨natToLE 8 0, CHValue.int64 (decodeSigned 8 0), rfl, fun r2 => ?_, fun h => ?_⟩
    · simp [decElem, readLE_append_of_lt (show (0:Nat) < 256 ^ 8 by positivity)]
    · rcases h with h | h
      · exact absurd rfl h
      · simp [hasNullWrapper] at h
  · cases v <;>
      simp only [validateValue, stripLcNull, hasNullWrapper, Bool.and_eq_true,
        decide_eq_true_eq, Bool.false_eq_true] at hval
    rename_i x
    obtain ⟨h1, h2⟩ := hval
    have eL : ((2 : Int) ^ 63) = 9223372036854775808 := by norm_num
    have hlt : ((x % ((2 : Int) ^ (8 * 8))).toNat) < 256 ^ 8 := by
      have h1 := intToLE_toNat_lt 8 x
      have h2 : (2 : Nat) ^ (8 * 8) = 256 ^ 8 := by norm_num
      omega
    have eh : ((2 : Int) ^ (8 * 8 - 1)) = 9223372036854775808 := by norm_num
    have hA : -((2 : Int) ^ (8 * 8 - 1)) ≤ x := by rw [eh]; omega
    have hB : x < (2 : Int) ^ (8 * 8 - 1) := by rw [eh]; omega
    have hd := decodeSigned_intToLE (w := 8) (by norm_num) hA hB
    refine ⟨intToLE 8 x, CHValue.int64 x, rfl, fun r2 => ?_, fun _ => rfl⟩
    have hr : readLE 8 (intToLE 8 x ++ r2)
        = .ok ((x % ((2 : Int) ^ (8 * 8))).toNat, r2) := by
      rw [intToLE]
      exact readLE_append_of_lt hlt r2
    simp only [decElem, hr, hd]

theorem elemRT_int128 :
    ∀ v, v = CHValue.null ∨ validateValue (CHType.int128) v = true →
      ∃ b w, encElem (CHType.int128) v = .ok b ∧
        (∀ r2, decElem (CHType.int128) (b ++ r2) = .ok (w, r2)) ∧ DecRel (CHType.int128) v w := by
  intro v hv
  rcases hv with rfl | hval
  · refine ⟨natToLE 16 0, CHValue.int128 (decodeSigned 16 0), rfl, fun r2 => ?_, fun h => ?_⟩
    · simp [decElem, readLE_append_of_lt (show (0:Nat) < 256 ^ 16 by positivity)]
    · rcases h with h | h
      · exact absurd rfl h
      · simp [hasNullWrapper] at h
  · cases v <;>
      simp only [validateValue, stripLcNull, hasNullWrapper, Bool.and_eq_true,
        decide_eq_true_eq, Bool.false_eq_true] at hval
    rename_i x
    obtain ⟨h1, h2⟩ := hval
    have eL : ((2 : Int) ^ 127) = 170141183460469231731687303715884105728 := by norm_num
    have hlt : ((x % ((2 : Int) ^ (8 * 16))).toNat) < 256 ^ 16 := by
      have h1 := intToLE_toNat_lt 16 x
      have h2 : (2 : Nat) ^ (8 * 16) = 256 ^ 16 := by norm_num
      omega
    have eh : ((2 : Int) ^ (8 * 16 - 1)) = 170141183460469231731687303715884105728 := by norm_num
    have hA : -((2 : Int) ^ (8 * 16 - 1)) ≤ x := by rw [eh]; omega
    have hB : x < (2 : Int) ^ (8 * 16 - 1) := by rw [eh]; omega
    have hd := decodeSigned_intToLE (w := 16) (by norm_num) hA hB
    refine ⟨intToLE 16 x, CHValue.int128 x, rfl, fun r2 => ?_, fun _ => rfl⟩
    have hr : readLE 16 (intToLE 16 x ++ r2)
        = .ok ((x % ((2 : Int) ^ (8 * 16))).toNat, r2) := by
      rw [intToLE]
      exact readLE_append_of_lt hlt r2
    simp only [decElem, hr, hd]

theorem elemRT_int256 :
    ∀ v, v = CHValue.null ∨ validateValue (CHType.int256) v = true →
      ∃ b w, encElem (CHType.int256) v = .ok b ∧
        (∀ r2, decElem (CHType.int256) (b ++ r2) = .ok (w, r2)) ∧ DecRel (CHType.int256) v w := by
  intro v hv
  rcases hv with rfl | hval
  · refine ⟨natToLE 32 0, CHValue.int256 (decodeSigned 32 0), rfl, fun r2 => ?_, fun h => ?_⟩
    · simp [decElem, readLE_append_of_lt (show (0:Nat) < 256 ^ 32 by positivity)]
    · rcases h with h | h
      · exact absurd rfl h
      · simp [hasNullWrapper] at h
  · cases v <;>
      simp only [validateValue, stripLcNull, hasNullWrapper, Bool.and_eq_true,
        decide_eq_true_eq, Bool.false_eq_true] at hval
    rename_i x
    obtain ⟨h1, h2⟩ := hval
    have eL : ((2 : Int) ^ 255) = 57896044618658097711785492504343953926634992332820282019728792003956564819968 := by norm_num
    have hlt : ((x % ((2 : Int) ^ (8 * 32))).toNat) < 256 ^ 32 := by
      have h1 := intToLE_toNat_lt 32 x
      have h2 : (2 : Nat) ^ (8 * 32) = 256 ^ 32 := by norm_num
      omega
    have eh : ((2 : Int) ^ (8 * 32 - 1)) = 57896044618658097711785492504343953926634992332820282019728792003956564819968 := by norm_num
    have hA : -((2 : Int) ^ (8 * 32 - 1)) ≤ x := by rw [eh]; omega
    have hB : x < (2 : Int) ^ (8 * 32 - 1) := by rw [eh]; omega
    have hd := decodeSigned_intToLE (w := 32) (by norm_num) hA hB
    refine ⟨intToLE 32 x, CHValue.int256 x, rfl, fun r2 => ?_, fun _ => rfl⟩
    have hr : readLE 32 (intToLE 32 x ++ r2)
        = .ok ((x % ((2 : Int) ^ (8 * 32))).toNat, r2) := by
      rw [intToLE]
      exact readLE_append_of_lt hlt r2
    simp only [decElem, hr, hd]

theorem elemRT_decimal32 (sc : Nat) :
    ∀ v, v = CHValue.null ∨ validateValue (CHType.decimal32 sc) v = true →
      ∃ b w, encElem (CHType.decimal32 sc) v = .ok b ∧
        (∀ r2, decElem (CHType.decimal32 sc) (b ++ r2) = .ok (w, r2)) ∧ DecRel (CHType.decimal32 sc) v w := by
  intro v hv
  rcases hv with rfl | hval
  · refine ⟨natToLE 4 0, CHValue.decimal32 sc (decodeSigned 4 0), rfl, fun r2 => ?_, fun h => ?_⟩
    · simp [decElem, readLE_append_of_lt (show (0:Nat) < 256 ^ 4 by positivity)]
    · rcases h with h | h
      · exact absurd rfl h
      · simp [hasNullWrapper] at h
  · cases v <;>
      simp only [validateValue, stripLcNull, hasNullWrapper, Bool.and_eq_true,
        decide_eq_true_eq, Bool.false_eq_true] at hval
    rename_i sc2 x
    obtain ⟨hsc, h1, h2⟩ := hval
    have eL : ((2 : Int) ^ 31) = 2147483648 := by norm_num
    have hlt : ((x % ((2 : Int) ^ (8 * 4))).toNat) < 256 ^ 4 := by
      have h1 := intToLE_toNat_lt 4 x
      have h2 : (2 : Nat) ^ (8 * 4) = 256 ^ 4 := by norm_num
      omega
    have eh : ((2 : Int) ^ (8 * 4 - 1)) = 2147483648 := by norm_num
    have hA : -((2 : Int) ^ (8 * 4 - 1)) ≤ x := by rw [eh]; omega
    have hB : x < (2 : Int) ^ (8 * 4 - 1) := by rw [eh]; omega
    have hd := decodeSigned_intToLE (w := 4) (by norm_num) hA hB
    refine ⟨intToLE 4 x, CHValue.decimal32 sc2 x, rfl, fun r2 => ?_, fun _ => rfl⟩
    have hr : readLE 4 (intToLE 4 x ++ r2)
        = .ok ((x % ((2 : Int) ^ (8 * 4))).toNat, r2) := by
      rw [intToLE]
      exact readLE_append_of_lt hlt r2
    simp only [decElem, hr, hd, hsc]

theorem elemRT_decimal64 (sc : Nat) :
    ∀ v, v = CHValue.null ∨ validateValue (CHType.decimal64 sc) v = true →
      ∃ b w, encElem (CHType.decimal64 sc) v = .ok b ∧
        (∀ r2, decElem (CHType.decimal64 sc) (b ++ r2) = .ok (w, r2)) ∧ DecRel (CHType.decimal64 sc) v w := by
  intro v hv
  rcases hv with rfl | hval
  · refine ⟨natToLE 8 0, CHValue.decimal64 sc (decodeSigned 8 0), rfl, fun r2 => ?_, fun h => ?_⟩
    · simp [decElem, readLE_append_of_lt (show (0:Nat) < 256 ^ 8 by positivity)]
    · rcases h with h | h
      · exact absurd rfl h
      · simp [hasNullWrapper] at h
  · cases v <;>
      simp only [validateValue, stripLcNull, hasNullWrapper, Bool.and_eq_true,
        decide_eq_true_eq, Bool.false_eq_true] at hval
    rename_i sc2 x
    obtain ⟨hsc, h1, h2⟩ := hval
    have eL : ((2 : Int) ^ 63) = 9223372036854775808 := by norm_num
    have hlt : ((x % ((2 : Int) ^ (8 * 8))).toNat) < 256 ^ 8 := by
      have h1 := intToLE_toNat_lt 8 x
      have h2 : (2 : Nat) ^ (8 * 8) = 256 ^ 8 := by norm_num
      omega
    have eh : ((2 : Int) ^ (8 * 8 - 1)) = 9223372036854775808 := by norm_num
    have hA : -((2 : Int) ^ (8 * 8 - 1)) ≤ x := by rw [eh]; omega
    have hB : x < (2 : Int) ^ (8 * 8 - 1) := by rw [eh]; omega
    have hd := decodeSigned_intToLE (w := 8) (by norm_num) hA hB
    refine ⟨intToLE 8 x, CHValue.decimal64 sc2 x, rfl, fun r2 => ?_, fun _ => rfl⟩
    have hr : readLE 8 (intToLE 8 x ++ r2)
        = .ok ((x % ((2 : Int) ^ (8 * 8))).toNat, r2) := by
      rw [intToLE]
      exact readLE_append_of_lt hlt r2
    simp only [decElem, hr, hd, hsc]

theorem elemRT_decimal128 (sc : Nat) :
    ∀ v, v = CHValue.null ∨ validateValue (CHType.decimal128 sc) v = true →
      ∃ b w, encElem (CHType.decimal128 sc) v = .ok b ∧
        (∀ r2, decElem (CHType.decimal128 sc) (b ++ r2) = .ok (w, r2)) ∧ DecRel (CHType.decimal128 sc) v w := by
  intro v hv
  rcases hv with rfl | hval
  · refine ⟨natToLE 16 0, CHValue.decimal128 sc (decodeSigned 16 0), rfl, fun r2 => ?_, fun h => ?_⟩
    · simp [decElem, readLE_append_of_lt (show (0:Nat) < 256 ^ 16 by positivity)]
    · rcases h with h | h
      · exact absurd rfl h
      · simp [hasNullWrapper] at h
  · cases v <;>
      simp only [validateValue, stripLcNull, hasNullWrapper, Bool.and_eq_true,
        decide_eq_true_eq, Bool.false_eq_true] at hval
    rename_i sc2 x
    obtain ⟨hsc, h1, h2⟩ := hval
    have eL : ((2 : Int) ^ 127) = 170141183460469231731687303715884105728 := by norm_num
    have hlt : ((x % ((2 : Int) ^ (8 * 16))).toNat) < 256 ^ 16 := by
      have h1 := intToLE_toNat_lt 16 x
      have h2 : (2 : Nat) ^ (8 * 16) = 256 ^ 16 := by norm_num
      omega
    have eh : ((2 : Int) ^ (8 * 16 - 1)) = 170141183460469231731687303715884105728 := by norm_num
    have hA : -((2 : Int) ^ (8 * 16 - 1)) ≤ x := by rw [eh]; omega
    have hB : x < (2 : Int) ^ (8 * 16 - 1) := by rw [eh]; omega
    have hd := decodeSigned_intToLE (w := 16) (by norm_num) hA hB
    refine ⟨intToLE 16 x, CHValue.decimal128 sc2 x, rfl, fun r2 => ?_, fun _ => rfl⟩
    have hr : readLE 16 (intToLE 16 x ++ r2)
        = .ok ((x % ((2 : Int) ^ (8 * 16))).toNat, r2) := by
      rw [intToLE]
      exact readLE_append_of_lt hlt r2
    simp only [decElem, hr, hd, hsc]

theorem elemRT_decimal256 (sc : Nat) :
    ∀ v, v = CHValue.null ∨ validateValue (CHType.decimal256 sc) v = true →
      ∃ b w, encElem (CHType.decimal256 sc) v = .ok b ∧
        (∀ r2, decElem (CHType.decimal256 sc) (b ++ r2) = .ok (w, r2)) ∧ DecRel (CHType.decimal256 sc) v w := by
  intro v hv
  rcases hv with rfl | hval
  · refine ⟨natToLE 32 0, CHValue.decimal256 sc (decodeSigned 32 0), rfl, fun r2 => ?_, fun h => ?_⟩
    · simp [decElem, readLE_append_of_lt (show (0:Nat) < 256 ^ 32 by positivity)]
    · rcases h with h | h
      · exact absurd rfl h
      · simp [hasNullWrapper] at h
  · cases v <;>
      simp only [validateValue, stripLcNull, hasNullWrapper, Bool.and_eq_true,
        decide_eq_true_eq, Bool.false_eq_true] at hval
    rename_i sc2 x
    obtain ⟨hsc, h1, h2⟩ := hval
    have eL : ((2 : Int) ^ 255) = 57896044618658097711785492504343953926634992332820282019728792003956564819968 := by norm_num
    have hlt : ((x % ((2 : Int) ^ (8 * 32))).toNat) < 256 ^ 32 := by
      have h1 := intToLE_toNat_lt 32 x
      have h2 : (2 : Nat) ^ (8 * 32) = 256 ^ 32 := by norm_num
      omega
    have eh : ((2 : Int) ^ (8 * 32 - 1)) = 57896044618658097711785492504343953926634992332820282019728792003956564819968 := by norm_num
    have hA : -((2 : Int) ^ (8 * 32 - 1)) ≤ x := by rw [eh]; omega
    have hB : x < (2 : Int) ^ (8 * 32 - 1) := by rw [eh]; omega
    have hd := decodeSigned_intToLE (w := 32) (by norm_num) hA hB
    refine ⟨intToLE 32 x, CHValue.decimal256 sc2 x, rfl, fun r2 => ?_, fun _ => rfl⟩
    have hr : readLE 32 (intToLE 32 x ++ r2)
        = .ok ((x % ((2 : Int) ^ (8 * 32))).toNat, r2) := by
      rw [intToLE]
      exact readLE_append_of_lt hlt r2
    simp only [decElem, hr, hd, hsc]

theorem elemRT_enum8 (entries : List (String × Int)) :
    ∀ v, v = CHValue.null ∨ validateValue (CHType.enum8 entries) v = true →
      ∃ b w, encElem (CHType.enum8 entries) v = .ok b ∧
        (∀ r2, decElem (CHType.enum8 entries) (b ++ r2) = .ok (w, r2)) ∧ DecRel (CHType.enum8 entries) v w := by
  intro v hv
  rcases hv with rfl | hval
  · refine ⟨natToLE 1 0, CHValue.enum8 (decodeSigned 1 0), rfl, fun r2 => ?_, fun h => ?_⟩
    · simp [decElem, readLE_append_of_lt (show (0:Nat) < 256 ^ 1 by positivity)]
    · rcases h with h | h
      · exact absurd rfl h
      · simp [hasNullWrapper] at h
  · cases v <;>
      simp only [validateValue, stripLcNull, hasNullWrapper, Bool.and_eq_true,
        decide_eq_true_eq, Bool.false_eq_true] at hval
    rename_i x
    obtain ⟨⟨h1, h2⟩, _⟩ := hval
    have eL : ((2 : Int) ^ 7) = 128 := by norm_num
    have hlt : ((x % ((2 : Int) ^ (8 * 1))).toNat) < 256 ^ 1 := by
      have h1 := intToLE_toNat_lt 1 x
      have h2 : (2 : Nat) ^ (8 * 1) = 256 ^ 1 := by norm_num
      omega
    have eh : ((2 : Int) ^ (8 * 1 - 1)) = 128 := by norm_num
    have hA : -((2 : Int) ^ (8 * 1 - 1)) ≤ x := by rw [eh]; omega
    have hB : x < (2 : Int) ^ (8 * 1 - 1) := by rw [eh]; omega
    have hd := decodeSigned_intToLE (w := 1) (by norm_num) hA hB
    refine ⟨intToLE 1 x, CHValue.enum8 x, rfl, fun r2 => ?_, fun _ => rfl⟩
    have hr : readLE 1 (intToLE 1 x ++ r2)
        = .ok ((x % ((2 : Int) ^ (8 * 1))).toNat, r2) := by
      rw [intToLE]
      exact readLE_append_of_lt hlt r2
    simp only [decElem, hr, hd]

theorem elemRT_enum16 (entries : List (String × Int)) :
    ∀ v, v = CHValue.null ∨ validateValue (CHType.enum16 entries) v = true →
      ∃ b w, encElem (CHType.enum16 entries) v = .ok b ∧
        (∀ r2, decElem (CHType.enum16 entries) (b ++ r2) = .ok (w, r2)) ∧ DecRel (CHType.enum16 entries) v w := by
  intro v hv
  rcases hv with rfl | hval
  · refine ⟨natToLE 2 0, CHValue.enum16 (decodeSigned 2 0), rfl, fun r2 => ?_, fun h => ?_⟩
    · simp [decElem, readLE_append_of_lt (show (0:Nat) < 256 ^ 2 by positivity)]
    · rcases h with h | h
      · exact absurd rfl h
      · simp [hasNullWrapper] at h
  · cases v <;>
      simp only [validateValue, stripLcNull, hasNullWrapper, Bool.and_eq_true,
        decide_eq_true_eq, Bool.false_eq_true] at hval
    rename_i x
    obtain ⟨⟨h1, h2⟩, _⟩ := hval
    have eL : ((2 : Int) ^ 15) = 32768 := by norm_num
    have hlt : ((x % ((2 : Int) ^ (8 * 2))).toNat) < 256 ^ 2 := by
      have h1 := intToLE_toNat_lt 2 x
      have h2 : (2 : Nat) ^ (8 * 2) = 256 ^ 2 := by norm_num
      omega
    have eh : ((2 : Int) ^ (8 * 2 - 1)) = 32768 := by norm_num
    have hA : -((2 : Int) ^ (8 * 2 - 1)) ≤ x := by rw [eh]; omega
    have hB : x < (2 : Int) ^ (8 * 2 - 1) := by rw [eh]; omega
    have hd := decodeSigned_intToLE (w := 2) (by norm_num) hA hB
    refine ⟨intToLE 2 x, CHValue.enum16 x, rfl, fun r2 => ?_, fun _ => rfl⟩
    have hr : readLE 2 (intToLE 2 x ++ r2)
        = .ok ((x % ((2 : Int) ^ (8 * 2))).toNat, r2) := by
      rw [intToLE]
      exact readLE_append_of_lt hlt r2
    simp only [decElem, hr, hd]

theorem elemRT_dateTime (tz : String) :
    ∀ v, v = CHValue.null ∨ validateValue (CHType.dateTime tz) v = true →
      ∃ b w, encElem (CHType.dateTime tz) v = .ok b ∧
        (∀ r2, decElem (CHType.dateTime tz) (b ++ r2) = .ok (w, r2)) ∧ DecRel (CHType.dateTime tz) v w := by
  intro v hv
  have hp : (256 : Nat) ^ 4 = 2 ^ 32 := by norm_num
  rcases hv with rfl | hval
  · refine ⟨natToLE 4 0, CHValue.dateTime tz 0, rfl, fun r2 => ?_, fun h => ?_⟩
    · simp [decElem, readLE_append_of_lt (show (0:Nat) < 256 ^ 4 by positivity)]
    · rcases h with h | h
      · exact absurd rfl h
      · simp [hasNullWrapper] at h
  · cases v <;>
      simp only [validateValue, stripLcNull, hasNullWrapper, Bool.and_eq_true,
        decide_eq_true_eq, Bool.false_eq_true] at hval
    rename_i tz2 x
    obtain ⟨htz, hx⟩ := hval
    refine ⟨natToLE 4 x, CHValue.dateTime tz2 x, rfl, fun r2 => ?_, fun _ => rfl⟩
    simp [decElem, readLE_append_of_lt (show x < 256 ^ 4 by omega), htz]

theorem elemRT_dateTime64 (p : Nat) (tz : String) :
    ∀ v, v = CHValue.null ∨ validateValue (CHType.dateTime64 p tz) v = true →
      ∃ b w, encElem (CHType.dateTime64 p tz) v = .ok b ∧
        (∀ r2, decElem (CHType.dateTime64 p tz) (b ++ r2) = .ok (w, r2)) ∧ DecRel (CHType.dateTime64 p tz) v w := by
  intro v hv
  rcases hv with rfl | hval
  · refine ⟨natToLE 8 0, CHValue.dateTime64 tz (decodeSigned 8 0) p, rfl, fun r2 => ?_, fun h => ?_⟩
    · simp [decElem, readLE_append_of_lt (show (0:Nat) < 256 ^ 8 by positivity)]
    · rcases h with h | h
      · exact absurd rfl h
      · simp [hasNullWrapper] at h
  · cases v <;>
      simp only [validateValue, stripLcNull, hasNullWrapper, Bool.and_eq_true,
        decide_eq_true_eq, Bool.false_eq_true] at hval
    rename_i tz2 x p2
    obtain ⟨⟨htz, hp2⟩, h1, h2⟩ := hval
    have eL : ((2 : Int) ^ 63) = 9223372036854775808 := by norm_num
    have hlt : ((x % ((2 : Int) ^ (8 * 8))).toNat) < 256 ^ 8 := by
      have h1 := intToLE_toNat_lt 8 x
      have h2 : (2 : Nat) ^ (8 * 8) = 256 ^ 8 := by norm_num
      omega
    have eh : ((2 : Int) ^ (8 * 8 - 1)) = 9223372036854775808 := by norm_num
    have hA : -((2 : Int) ^ (8 * 8 - 1)) ≤ x := by rw [eh]; omega
    have hB : x < (2 : Int) ^ (8 * 8 - 1) := by rw [eh]; omega
    have hd := decodeSigned_intToLE (w := 8) (by norm_num) hA hB
    refine ⟨intToLE 8 x, CHValue.dateTime64 tz2 x p2, rfl, fun r2 => ?_, fun _ => rfl⟩
    have hr : readLE 8 (intToLE 8 x ++ r2)
        = .ok ((x % ((2 : Int) ^ (8 * 8))).toNat, r2) := by
      rw [intToLE]
      exact readLE_append_of_lt hlt r2
    simp only [decElem, hr, hd, htz, hp2]

theorem elemRT_string :
    ∀ v, v = CHValue.null ∨ validateValue (CHType.string) v = true →
      ∃ b w, encElem (CHType.string) v = .ok b ∧
        (∀ r2, decElem (CHType.string) (b ++ r2) = .ok (w, r2)) ∧ DecRel (CHType.string) v w := by
  intro v hv
  rcases hv with rfl | hval
  · refine ⟨write_string [], CHValue.string [], rfl, fun r2 => ?_, fun h => ?_⟩
    · have h0 := read_write_string [] (by norm_num [MAX_STRING_SIZE]) r2
      simp [decElem, h0]
    · rcases h with h | h
      · exact absurd rfl h
      · simp [hasNullWrapper] at h
  · cases v <;>
      simp only [validateValue, stripLcNull, hasNullWrapper, Bool.and_eq_true,
        decide_eq_true_eq, Bool.false_eq_true] at hval
    rename_i bs
    obtain ⟨hlen, _⟩ := hval
    refine ⟨write_string bs, CHValue.string bs, rfl, fun r2 => ?_, fun _ => rfl⟩
    simp [decElem, read_write_string bs hlen r2]

theorem elemRT_fixedString (n : Nat) :
    ∀ v, v = CHValue.null ∨ validateValue (CHType.fixedString n) v = true →
      ∃ b w, encElem (CHType.fixedString n) v = .ok b ∧
        (∀ r2, decElem (CHType.fixedString n) (b ++ r2) = .ok (w, r2)) ∧ DecRel (CHType.fixedString n) v w := by
  intro v hv
  rcases hv with rfl | hval
  · refine ⟨List.replicate n 0, CHValue.string [], rfl, fun r2 => ?_, fun h => ?_⟩
    · refine ?_
      have htake : (List.replicate n (0:Nat) ++ r2).take n = List.replicate n 0 :=
        List.take_left' (by simp)
      have hdrop : (List.replicate n (0:Nat) ++ r2).drop n = r2 :=
        List.drop_left' (by simp)
      have htrim : trimTrailingZeros (List.replicate n 0) = [] := by
        have h0 := @trimTrailingZeros_pad [] (by simp) n
        simpa using h0
      have hlen2 : ¬ ((List.replicate n (0:Nat) ++ r2).length < n) := by simp
      simp only [decElem]
      rw [if_neg hlen2, htake, htrim, hdrop]
    · rcases h with h | h
      · exact absurd rfl h
      · simp [hasNullWrapper] at h
  · cases v <;>
      simp only [validateValue, stripLcNull, hasNullWrapper, Bool.and_eq_true,
        decide_eq_true_eq, Bool.false_eq_true] at hval
    rename_i bs
    obtain ⟨⟨hle, _⟩, hlast⟩ := hval
    have henc : bs.take n ++ List.replicate (n - bs.length) 0
        = bs ++ List.replicate (n - bs.length) 0 := by
      rw [List.take_of_length_le hle]
    have hlenenc : (bs ++ List.replicate (n - bs.length) 0).length = n := by
      simp
      omega
    refine ⟨bs.take n ++ List.replicate (n - bs.length) 0, CHValue.string bs, rfl,
      fun r2 => ?_, fun _ => rfl⟩
    rw [henc]
    have htake : ((bs ++ List.replicate (n - bs.length) 0) ++ r2).take n
        = bs ++ List.replicate (n - bs.length) 0 := List.take_left' hlenenc
    have hdrop : ((bs ++ List.replicate (n - bs.length) 0) ++ r2).drop n = r2 :=
      List.drop_left' hlenenc
    have hlen2 : ¬ (((bs ++ List.replicate (n - bs.length) 0) ++ r2).length < n) := by
      simp
      omega
    have htrim := trimTrailingZeros_pad hlast (n - bs.length)
    simp only [decElem]
    rw [if_neg hlen2, htake, htrim, hdrop]

theorem elemRT_uuid :
    ∀ v, v = CHValue.null ∨ validateValue (CHType.uuid) v = true →
      ∃ b w, encElem (CHType.uuid) v = .ok b ∧
        (∀ r2, decElem (CHType.uuid) (b ++ r2) = .ok (w, r2)) ∧ DecRel (CHType.uuid) v w := by
  intro v hv
  rcases hv with rfl | hval
  · refine ⟨List.replicate 16 0, CHValue.uuid (((List.replicate 16 (0:Nat)).take 8).reverse ++ ((List.replicate 16 (0:Nat)).drop 8).reverse), rfl, fun r2 => ?_, fun h => ?_⟩
    · refine ?_
      have htake : (List.replicate 16 (0:Nat) ++ r2).take 16 = List.replicate 16 0 :=
        List.take_left' (by simp)
      have hdrop : (List.replicate 16 (0:Nat) ++ r2).drop 16 = r2 :=
        List.drop_left' (by simp)
      have hlen2 : ¬ ((List.replicate 16 (0:Nat) ++ r2).length < 16) := by simp
      simp only [decElem, hlen2, if_false, htake, hdrop]
    · rcases h with h | h
      · exact absurd rfl h
      · simp [hasNullWrapper] at h
  · cases v <;>
      simp only [validateValue, stripLcNull, hasNullWrapper, Bool.and_eq_true,
        decide_eq_true_eq, Bool.false_eq_true] at hval
    rename_i bs
    obtain ⟨h16, _⟩ := hval
    have hx : (bs.take 8).length = 8 := by simp [h16]
    have hlenenc : ((bs.take 8).reverse ++ (bs.drop 8).reverse).length = 16 := by
      simp [h16]
    refine ⟨(bs.take 8).reverse ++ (bs.drop 8).reverse, CHValue.uuid bs, rfl,
      fun r2 => ?_, fun _ => rfl⟩
    have htake : (((bs.take 8).reverse ++ (bs.drop 8).reverse) ++ r2).take 16
        = (bs.take 8).reverse ++ (bs.drop 8).reverse := List.take_left' hlenenc
    have hdrop : (((bs.take 8).reverse ++ (bs.drop 8).reverse) ++ r2).drop 16 = r2 :=
      List.drop_left' hlenenc
    have hlen2 : ¬ ((((bs.take 8).reverse ++ (bs.drop 8).reverse) ++ r2).length < 16) := by
      simp [h16]
      omega
    have hxr : (bs.take 8).reverse.length = 8 := by simp [hx]
    have ht8 : ((bs.take 8).reverse ++ (bs.drop 8).reverse).take 8 = (bs.take 8).reverse :=
      List.take_left' hxr
    have hd8 : ((bs.take 8).reverse ++ (bs.drop 8).reverse).drop 8 = (bs.drop 8).reverse :=
      List.drop_left' hxr
    simp only [decElem, hlen2, if_false, htake, hdrop, ht8, hd8,
      List.reverse_reverse, List.take_append_drop]


/-! Helper layer for the column round-trip induction: positivity of the
measure, `Forall₂` plumbing, and inversion of `validateValue` at the
composite types. -/

theorem typeWeight_pos (t : CHType) : 1 ≤ typeWeight t := by
  cases t <;> simp only [typeWeight] <;> omega

theorem typeWeightList_pos (fs : List CHType) : 1 ≤ typeWeightList fs := by
  cases fs <;> simp only [typeWeightList] <;> omega

theorem forall₂_map_self {α β : Type} (f : α → β) :
    ∀ xs : List α, List.Forall₂ (fun x y => y = f x) xs (xs.map f) := by
  intro xs
  induction xs with
  | nil => exact .nil
  | cons x xs ih => exact .cons rfl ih

theorem forall₂_map_left {α β γ : Type} {R : β → γ → Prop} {f : α → β}
    {xs : List α} {ys : List γ} (h : List.Forall₂ R (xs.map f) ys) :
    List.Forall₂ (fun x y => R (f x) y) xs ys :=
  List.forall₂_map_left_iff.mp h

theorem forall₂_map_right2 {α β γ : Type} {R : α → γ → Prop} {f : β → γ} :
    ∀ {xs : List α} {ys : List β}, List.Forall₂ (fun x y => R x (f y)) xs ys →
      List.Forall₂ R xs (ys.map f) := by
  intro xs ys h
  induction h with
  | nil => exact .nil
  | cons hR _ ih => exact .cons hR ih

theorem forall₂_zipWith_ex {α β γ δ : Type} {R : α → β → Prop} {S : α → γ → Prop}
    (f : β → γ → δ) :
    ∀ {vs : List α} {xs : List β} {ys : List γ},
      List.Forall₂ R vs xs → List.Forall₂ S vs ys →
      List.Forall₂ (fun v d => ∃ b c, d = f b c ∧ R v b ∧ S v c) vs
        (List.zipWith f xs ys) := by
  intro vs xs ys h1
  induction h1 generalizing ys with
  | nil =>
    intro h2
    cases h2
    exact .nil
  | cons hR _ ih =>
    intro h2
    cases h2 with
    | cons hS hrest2 =>
      exact .cons ⟨_, _, rfl, hR, hS⟩ (ih hrest2)

/-- A decoded list agrees exactly with the source whenever every `Null`
source entry sits under a null-capable wrapper (non-null entries always
agree). -/
theorem forall₂_DecRel_eq2 {t : CHType} :
    ∀ {xs ws : List CHValue}, List.Forall₂ (DecRel t) xs ws →
      (∀ x ∈ xs, x = CHValue.null → hasNullWrapper t = true) → ws = xs := by
  intro xs ws h
  induction h with
  | nil => intro _; rfl
  | cons hR hrest ih =>
    rename_i x w xs2 ws2
    intro hnull
    have hx : w = x := by
      by_cases hn : x = CHValue.null
      · exact hR (Or.inr (hnull x (by simp) hn))
      · exact hR (Or.inl hn)
    rw [hx, ih (fun y hy => hnull y (by simp [hy]))]

theorem validate_array_inv {t : CHType} {v : CHValue}
    (h : validateValue (CHType.array t) v = true) :
    ∃ xs, v = CHValue.array xs ∧ validateAll t xs = true := by
  cases v <;> simp only [validateValue, stripLcNull, hasNullWrapper,
    Bool.false_eq_true] at h
  rename_i xs
  exact ⟨xs, rfl, h⟩

theorem validate_tuple_inv {fs : List CHType} {v : CHValue}
    (h : validateValue (CHType.tuple fs) v = true) :
    ∃ xs, v = CHValue.tuple xs ∧ validateTuple fs xs = true := by
  cases v <;> simp only [validateValue, stripLcNull, hasNullWrapper,
    Bool.false_eq_true] at h
  rename_i xs
  exact ⟨xs, rfl, h⟩

theorem validate_map_inv {k t : CHType} {v : CHValue}
    (h : validateValue (CHType.map k t) v = true) :
    ∃ ks xs, v = CHValue.map ks xs ∧ ks.length = xs.length ∧
      validateAll k ks = true ∧ validateAll t xs = true := by
  cases v <;> simp only [validateValue, stripLcNull, hasNullWrapper,
    Bool.and_eq_true, decide_eq_true_eq, Bool.false_eq_true] at h
  rename_i ks xs
  exact ⟨ks, xs, rfl, h.1.1, h.1.2, h.2⟩

theorem validate_point_inv {v : CHValue}
    (h : validateValue CHType.point v = true) :
    ∃ x y, v = CHValue.point x y ∧ x < 2 ^ 64 ∧ y < 2 ^ 64 := by
  cases v <;> simp only [validateValue, stripLcNull, hasNullWrapper,
    Bool.and_eq_true, decide_eq_true_eq, Bool.false_eq_true] at h
  rename_i x y
  exact ⟨x, y, rfl, h.1, h.2⟩

theorem validate_ring_inv {v : CHValue}
    (h : validateValue CHType.ring v = true) :
    ∃ ps, v = CHValue.ring ps ∧ ∀ p ∈ ps, p.1 < 2 ^ 64 ∧ p.2 < 2 ^ 64 := by
  cases v <;> simp only [validateValue, stripLcNull, hasNullWrapper,
    List.all_eq_true, Bool.and_eq_true, decide_eq_true_eq, Bool.false_eq_true] at h
  rename_i ps
  exact ⟨ps, rfl, h⟩

theorem validate_polygon_inv {v : CHValue}
    (h : validateValue CHType.polygon v = true) :
    ∃ rs, v = CHValue.polygon rs ∧
      ∀ r ∈ rs, ∀ p ∈ r, p.1 < 2 ^ 64 ∧ p.2 < 2 ^ 64 := by
  cases v <;> simp only [validateValue, stripLcNull, hasNullWrapper,
    List.all_eq_true, Bool.and_eq_true, decide_eq_true_eq, Bool.false_eq_true] at h
  rename_i rs
  exact ⟨rs, rfl, h⟩

theorem validate_multiPolygon_inv {v : CHValue}
    (h : validateValue CHType.multiPolygon v = true) :
    ∃ ms, v = CHValue.multiPolygon ms ∧
      ∀ q ∈ ms, ∀ r ∈ q, ∀ p ∈ r, p.1 < 2 ^ 64 ∧ p.2 < 2 ^ 64 := by
  cases v <;> simp only [validateValue, stripLcNull, hasNullWrapper,
    List.all_eq_true, Bool.and_eq_true, decide_eq_true_eq, Bool.false_eq_true] at h
  rename_i ms
  exact ⟨ms, rfl, h⟩

/-! Round trips of the geo column codecs. -/

theorem pointCol_rt (ps : List (Nat × Nat)) (rest : List Nat)
    (h : ∀ p ∈ ps, p.1 < 2 ^ 64 ∧ p.2 < 2 ^ 64) :
    pointColDec ps.length (pointColEnc ps ++ rest) = .ok (ps, rest) := by
  have hp : (256 : Nat) ^ 8 = 2 ^ 64 := by norm_num
  have h1 := decNats_append 8 (ps.map Prod.fst)
    (((ps.map Prod.snd).map (natToLE 8)).flatten ++ rest)
    (by
      intro x hx
      simp only [List.mem_map] at hx
      obtain ⟨p, hp2, rfl⟩ := hx
      have := (h p hp2).1
      omega)
  have h2 := decNats_append 8 (ps.map Prod.snd) rest
    (by
      intro x hx
      simp only [List.mem_map] at hx
      obtain ⟨p, hp2, rfl⟩ := hx
      have := (h p hp2).2
      omega)
  simp only [List.length_map] at h1 h2
  simp only [pointColEnc, pointColDec, List.append_assoc, h1, h2, zip_map_fst_snd]

theorem ringCol_rt (rs : List (List (Nat × Nat))) (rest : List Nat)
    (hco : ∀ r ∈ rs, ∀ p ∈ r, p.1 < 2 ^ 64 ∧ p.2 < 2 ^ 64)
    (hlen : rs.flatten.length < 2 ^ 64) :
    ringColDec rs.length (ringColEnc rs ++ rest) = .ok (rs, rest) := by
  have hp : (256 : Nat) ^ 8 = 2 ^ 64 := by norm_num
  have hsum : (rs.map List.length).sum = rs.flatten.length :=
    (List.length_flatten rs).symm
  have hoffs := decNats_append 8 (cumAux 0 (rs.map List.length))
    (pointColEnc rs.flatten ++ rest)
    (by
      intro o ho
      have := cumAux_mem_le (rs.map List.length) 0 o ho
      omega)
  rw [cumAux_length] at hoffs
  simp only [List.length_map] at hoffs
  have hpoint := pointCol_rt rs.flatten rest
    (by
      intro p hp2
      simp only [List.mem_flatten] at hp2
      obtain ⟨r, hr, hpr⟩ := hp2
      exact hco r hr p hpr)
  have hlast : lastD 0 (cumAux 0 (rs.map List.length)) = rs.flatten.length := by
    rw [lastD_cumAux]
    omega
  simp only [ringColEnc, ringColDec, List.append_assoc, hoffs, hlast, hpoint,
    offSizes_cumAux, splitChunks_flatten]

theorem polygonCol_rt (qs : List (List (List (Nat × Nat)))) (rest : List Nat)
    (hco : ∀ q ∈ qs, ∀ r ∈ q, ∀ p ∈ r, p.1 < 2 ^ 64 ∧ p.2 < 2 ^ 64)
    (hlen1 : qs.flatten.length < 2 ^ 64)
    (hlen2 : qs.flatten.flatten.length < 2 ^ 64) :
    polygonColDec qs.length (polygonColEnc qs ++ rest) = .ok (qs, rest) := by
  have hp : (256 : Nat) ^ 8 = 2 ^ 64 := by norm_num
  have hsum : (qs.map List.length).sum = qs.flatten.length :=
    (List.length_flatten qs).symm
  have hoffs := decNats_append 8 (cumAux 0 (qs.map List.length))
    (ringColEnc qs.flatten ++ rest)
    (by
      intro o ho
      have := cumAux_mem_le (qs.map List.length) 0 o ho
      omega)
  rw [cumAux_length] at hoffs
  simp only [List.length_map] at hoffs
  have hring := ringCol_rt qs.flatten rest
    (by
      intro r hr p hpr
      simp only [List.mem_flatten] at hr
      obtain ⟨q, hq, hrq⟩ := hr
      exact hco q hq r hrq p hpr)
    hlen2
  have hlast : lastD 0 (cumAux 0 (qs.map List.length)) = qs.flatten.length := by
    rw [lastD_cumAux]
    omega
  simp only [polygonColEnc, polygonColDec, List.append_assoc, hoffs, hlast, hring,
    offSizes_cumAux, splitChunks_flatten]

theorem multiPolygonCol_rt (ms : List (List (List (List (Nat × Nat)))))
    (rest : List Nat)
    (hco : ∀ m ∈ ms, ∀ q ∈ m, ∀ r ∈ q, ∀ p ∈ r, p.1 < 2 ^ 64 ∧ p.2 < 2 ^ 64)
    (hlen1 : ms.flatten.length < 2 ^ 64)
    (hlen2 : ms.flatten.flatten.length < 2 ^ 64)
    (hlen3 : ms.flatten.flatten.flatten.length < 2 ^ 64) :
    multiPolygonColDec ms.length (multiPolygonColEnc ms ++ rest) =
      .ok (ms, rest) := by
  have hp : (256 : Nat) ^ 8 = 2 ^ 64 := by norm_num
  have hsum : (ms.map List.length).sum = ms.flatten.length :=
    (List.length_flatten ms).symm
  have hoffs := decNats_append 8 (cumAux 0 (ms.map List.length))
    (polygonColEnc ms.flatten ++ rest)
    (by
      intro o ho
      have := cumAux_mem_le (ms.map List.length) 0 o ho
      omega)
  rw [cumAux_length] at hoffs
  simp only [List.length_map] at hoffs
  have hpoly := polygonCol_rt ms.flatten rest
    (by
      intro q hq r hrq p hpr
      simp only [List.mem_flatten] at hq
      obtain ⟨m, hm, hqm⟩ := hq
      exact hco m hm q hqm r hrq p hpr)
    hlen2 hlen3
  have hlast : lastD 0 (cumAux 0 (ms.map List.length)) = ms.flatten.length := by
    rw [lastD_cumAux]
    omega
  simp only [multiPolygonColEnc, multiPolygonColDec, List.append_assoc, hoffs,
    hlast, hpoly, offSizes_cumAux, splitChunks_flatten]

/-! LowCardinality helpers: the serializer, deserializer and size predicate
match on whether the dictionary type is Nullable; these unfold the
catch-all (non-Nullable) arm, and bound the flags word and index widths. -/

theorem serializeColumn_lc_eq (inner : CHType)
    (hne : ∀ u, inner ≠ CHType.nullable u) (vs : List CHValue) :
    serializeColumn (CHType.lowCardinality inner) vs =
      if vs.length = 0 then .ok []
      else
        match serializeColumn inner (firstDedup vs) with
        | .err e => .err e
        | .ok dict => .ok (lcSerTail (firstDedup vs) dict vs) := by
  cases inner <;> first | exact absurd rfl (hne _) | rfl

set_option maxHeartbeats 3200000 in
theorem deserializeColumn_lc_eq (inner : CHType)
    (hne : ∀ u, inner ≠ CHType.nullable u) (n : Nat) (s : List Nat) :
    deserializeColumn (CHType.lowCardinality inner) n s =
      if n = 0 then .ok ([], s)
      else
        match readLE 8 s with
        | .err e => .err e
        | .ok (flags, s2) =>
          if 3 < flags % 256 then
            .err (.deserializeError "unsupported low cardinality index width")
          else
            match readLE 8 s2 with
            | .err e => .err e
            | .ok (dictLen, s3) =>
              match deserializeColumn inner dictLen s3 with
              | .err e => .err e
              | .ok (dictVals, s4) =>
                match readLE 8 s4 with
                | .err e => .err e
                | .ok (rowCount, s5) =>
                  match decNats (2 ^ (flags % 256)) rowCount s5 with
                  | .err e => .err e
                  | .ok (idxs, s6) =>
                    .ok (idxs.map (fun i => dictVals.getD i CHValue.null), s6) := by
  cases inner <;> first
  | exact absurd rfl (hne _)
  | (rw [deserializeColumn.eq_def])

theorem colFits_lc_eq (inner : CHType)
    (hne : ∀ u, inner ≠ CHType.nullable u) (vs : List CHValue) :
    colFits (CHType.lowCardinality inner) vs =
      (decide (vs.length < 2 ^ 64) && decide ((firstDedup vs).length < 2 ^ 64) &&
        colFits inner (firstDedup vs)) := by
  cases inner <;> first | exact absurd rfl (hne _) | rfl

theorem widthBits_cases (m : Nat) :
    widthBits m = 0 ∨ widthBits m = 1 ∨ widthBits m = 2 ∨ widthBits m = 3 := by
  unfold widthBits
  split_ifs <;> simp

theorem lcFlags_or_facts {w : Nat} (hw : w = 0 ∨ w = 1 ∨ w = 2 ∨ w = 3) :
    (lcFlags ||| w) % 256 = w ∧ lcFlags ||| w < 2 ^ 64 := by
  rcases hw with rfl | rfl | rfl | rfl <;> exact ⟨by decide, by decide⟩

theorem idx_lt_width {i m : Nat} (h : i < m) (hm : m < 2 ^ 64) :
    i < 256 ^ lcIndexBytes m := by
  unfold lcIndexBytes widthBits
  split_ifs with h1 h2 h3
  · have hq : (256 : Nat) ^ 2 ^ 0 = 256 := by norm_num
    omega
  · have hq : (256 : Nat) ^ 2 ^ 1 = 65536 := by norm_num
    omega
  · have hq : (256 : Nat) ^ 2 ^ 2 = 4294967296 := by norm_num
    omega
  · have hq : (256 : Nat) ^ 2 ^ 3 = 2 ^ 64 := by norm_num
    omega

theorem map_congr_mem {α β : Type} {f g : α → β} :
    ∀ {l : List α}, (∀ a ∈ l, f a = g a) → l.map f = l.map g := by
  intro l
  induction l with
  | nil => intro _; rfl
  | cons x xs ih =>
    intro h
    simp only [List.map_cons, h x (by simp), ih (fun a ha => h a (by simp [ha]))]

theorem mem_filter_nonnull {v : CHValue} {vs : List CHValue} (hv : v ∈ vs)
    (hn : v ≠ CHValue.null) :
    v ∈ vs.filter (fun v => decide (v ≠ CHValue.null)) := by
  rw [List.mem_filter]
  exact ⟨hv, by simpa using hn⟩

theorem of_mem_filter_nonnull {v : CHValue} {vs : List CHValue}
    (h : v ∈ vs.filter (fun v => decide (v ≠ CHValue.null))) :
    v ∈ vs ∧ v ≠ CHValue.null := by
  rw [List.mem_filter] at h
  exact ⟨h.1, by simpa using h.2⟩

theorem serializeColumn_lc_nullable_eq (u : CHType) (vs : List CHValue) :
    serializeColumn (CHType.lowCardinality (CHType.nullable u)) vs =
      if vs.length = 0 then .ok []
      else
        match serializeColumn u
            (CHValue.null ::
              firstDedup (vs.filter (fun v => decide (v ≠ CHValue.null)))) with
        | .err e => .err e
        | .ok dict =>
          .ok (lcSerTail
            (CHValue.null ::
              firstDedup (vs.filter (fun v => decide (v ≠ CHValue.null))))
            dict vs) := rfl

set_option maxHeartbeats 1600000 in
theorem deserializeColumn_lc_nullable_eq (u : CHType) (n : Nat) (s : List Nat) :
    deserializeColumn (CHType.lowCardinality (CHType.nullable u)) n s =
      if n = 0 then .ok ([], s)
      else
        match readLE 8 s with
        | .err e => .err e
        | .ok (flags, s2) =>
          if 3 < flags % 256 then
            .err (.deserializeError "unsupported low cardinality index width")
          else
            match readLE 8 s2 with
            | .err e => .err e
            | .ok (dictLen, s3) =>
              match deserializeColumn u dictLen s3 with
              | .err e => .err e
              | .ok (dictVals, s4) =>
                match readLE 8 s4 with
                | .err e => .err e
                | .ok (rowCount, s5) =>
                  match decNats (2 ^ (flags % 256)) rowCount s5 with
                  | .err e => .err e
                  | .ok (idxs, s6) =>
                    .ok (idxs.map (fun i =>
                      if i = 0 then CHValue.null
                      else dictVals.getD i CHValue.null), s6) := by
  rw [deserializeColumn.eq_def]

theorem colFits_lc_nullable_eq (u : CHType) (vs : List CHValue) :
    colFits (CHType.lowCardinality (CHType.nullable u)) vs =
      (decide (vs.length < 2 ^ 64) &&
        decide ((CHValue.null ::
          firstDedup (vs.filter (fun v => decide (v ≠ CHValue.null)))).length < 2 ^ 64) &&
        colFits u (CHValue.null ::
          firstDedup (vs.filter (fun v => decide (v ≠ CHValue.null))))) := rfl

/-! Induction steps of the column round-trip: one lemma per composite
type constructor, each assuming the round trip for the children. -/

theorem tupRT_nil : TupRT [] := by
  intro vs rest hval _
  refine ⟨[], List.replicate vs.length (CHValue.tuple []), rfl, rfl, ?_⟩
  refine forall₂_replicate_of_mem vs ?_
  intro v hv hant
  rcases hval v hv with rfl | h
  · rcases hant with hbad | hbad
    · exact absurd rfl hbad
    · simp [hasNullWrapper] at hbad
  · obtain ⟨xs, rfl, hxs⟩ := validate_tuple_inv h
    cases xs with
    | nil => rfl
    | cons x xs2 => simp [validateTuple] at hxs

theorem colRT_nullable_step (inner : CHType) (hrt : ColRT inner) :
    ColRT (CHType.nullable inner) := by
  intro vs rest hval hfits
  have hval2 : ∀ v ∈ vs, v = CHValue.null ∨ validateValue inner v = true := by
    intro v hv
    rcases hval v hv with h | h
    · exact Or.inl h
    · by_cases hn : v = CHValue.null
      · exact Or.inl hn
      · exact Or.inr (by rwa [validateValue_nullable inner hn] at h)
  obtain ⟨body, ws, hser, hdes, hF⟩ := hrt vs rest hval2 hfits
  refine ⟨vs.map (fun v => if v = CHValue.null then 1 else 0) ++ body,
    List.zipWith (fun m v => if m ≠ 0 then CHValue.null else v)
      (vs.map (fun v => if v = CHValue.null then 1 else 0)) ws, ?_, ?_, ?_⟩
  · simp only [serializeColumn, hser]
  · have hmask : ∀ b ∈ vs.map (fun v => if v = CHValue.null then 1 else 0),
        b < 256 := by
      intro b hb
      simp only [List.mem_map] at hb
      obtain ⟨v, _, hveq⟩ := hb
      split at hveq <;> omega
    have hm := decNats_append 1 (vs.map (fun v => if v = CHValue.null then 1 else 0))
      (body ++ rest)
      (by
        intro x hx
        have := hmask x hx
        simpa using this)
    rw [flatten_map_natToLE_one _ hmask] at hm
    simp only [List.length_map] at hm
    simp only [deserializeColumn, List.append_assoc, hm, hdes]
  · have h1 := forall₂_map_self (fun v => if v = CHValue.null then 1 else 0) vs
    have h2 := forall₂_zipWith_ex
      (fun m v => if m ≠ 0 then CHValue.null else v) h1 hF
    refine forall₂_imp_mem h2 ?_
    intro v hv d hd hant
    obtain ⟨b, c, rfl, hb, hc⟩ := hd
    by_cases hn : v = CHValue.null
    · subst hn
      simp only [if_pos rfl] at hb
      subst hb
      simp
    · simp only [if_neg hn] at hb
      subst hb
      show (if (0 : Nat) ≠ 0 then CHValue.null else c) = v
      rw [if_neg (by omega)]
      exact hc (Or.inl hn)

theorem colRT_array_step (inner : CHType) (hrt : ColRT inner) :
    ColRT (CHType.array inner) := by
  intro vs rest hval hfits
  have hmap : mapKR arrayItems vs = .ok (vs.map arrayItemsD) := by
    apply mapKR_ok
    intro v hv
    rcases hval v hv with rfl | h
    · rfl
    · obtain ⟨xs, rfl, _⟩ := validate_array_inv h
      rfl
  simp only [colFits, Bool.and_eq_true, decide_eq_true_eq] at hfits
  obtain ⟨hlen, hfin⟩ := hfits
  have hvalflat : ∀ x ∈ (vs.map arrayItemsD).flatten,
      x = CHValue.null ∨ validateValue inner x = true := by
    intro x hx
    simp only [List.mem_flatten, List.mem_map] at hx
    obtain ⟨l, ⟨v, hv, rfl⟩, hxl⟩ := hx
    rcases hval v hv with rfl | h
    · simp [arrayItemsD] at hxl
    · obtain ⟨xs, rfl, hall⟩ := validate_array_inv h
      exact Or.inr ((validateAll_iff inner xs).mp hall x
        (by simpa [arrayItemsD] using hxl))
  obtain ⟨body, ws, hser, hdes, hF⟩ :=
    hrt (vs.map arrayItemsD).flatten rest hvalflat hfin
  refine ⟨((cumAux 0 ((vs.map arrayItemsD).map List.length)).map (natToLE 8)).flatten
      ++ body,
    (splitChunks ((vs.map arrayItemsD).map List.length) ws).map CHValue.array,
    ?_, ?_, ?_⟩
  · simp only [serializeColumn, hmap, hser]
  · have hp : (256 : Nat) ^ 8 = 2 ^ 64 := by norm_num
    have hsum : ((vs.map arrayItemsD).map List.length).sum
        = (vs.map arrayItemsD).flatten.length := (List.length_flatten _).symm
    have hoffs := decNats_append 8
      (cumAux 0 ((vs.map arrayItemsD).map List.length)) (body ++ rest)
      (by
        intro o ho
        have := cumAux_mem_le ((vs.map arrayItemsD).map List.length) 0 o ho
        omega)
    rw [cumAux_length] at hoffs
    simp only [List.length_map] at hoffs
    have hlast : lastD 0 (cumAux 0 ((vs.map arrayItemsD).map List.length))
        = (vs.map arrayItemsD).flatten.length := by
      rw [lastD_cumAux]
      omega
    simp only [deserializeColumn, List.append_assoc, hoffs, hlast, hdes,
      offSizes_cumAux]
  · have hchunks := splitChunks_forall₂ (vs.map arrayItemsD) ws hF
    have h2 := forall₂_map_left hchunks
    refine forall₂_map_right2 (forall₂_imp_mem h2 ?_)
    intro v hv c hc hant
    rcases hval v hv with rfl | h
    · rcases hant with hbad | hbad
      · exact absurd rfl hbad
      · simp [hasNullWrapper] at hbad
    · obtain ⟨xs, rfl, hall⟩ := validate_array_inv h
      have hc2 : c = xs := forall₂_DecRel_eq
        (by simpa [arrayItemsD] using hc)
        ((validateAll_iff inner xs).mp hall)
    
      rw [hc2]

theorem colRT_map_step (kt vt : CHType) (hrtK : ColRT kt) (hrtV : ColRT vt) :
    ColRT (CHType.map kt vt) := by
  intro vs rest hval hfits
  have hmap : mapKR mapEntries vs
      = .ok (vs.map (fun v => (mapKeysD v, mapValsD v))) := by
    apply mapKR_ok
    intro v hv
    rcases hval v hv with rfl | h
    · rfl
    · obtain ⟨ks, xs, rfl, _, _, _⟩ := validate_map_inv h
      rfl
  simp only [colFits, Bool.and_eq_true, decide_eq_true_eq] at hfits
  obtain ⟨⟨hlenK, hfitK⟩, hfitV⟩ := hfits
  have hkv : ∀ v ∈ vs, (mapKeysD v).length = (mapValsD v).length := by
    intro v hv
    rcases hval v hv with rfl | h
    · rfl
    · obtain ⟨ks, xs, rfl, hlen, _, _⟩ := validate_map_inv h
      simpa [mapKeysD, mapValsD] using hlen
  have hlens : (vs.map mapKeysD).map List.length
      = (vs.map mapValsD).map List.length := by
    simp only [List.map_map]
    exact map_congr_mem (fun v hv => hkv v hv)
  have hvalK : ∀ x ∈ (vs.map mapKeysD).flatten,
      x = CHValue.null ∨ validateValue kt x = true := by
    intro x hx
    simp only [List.mem_flatten, List.mem_map] at hx
    obtain ⟨l, ⟨v, hv, rfl⟩, hxl⟩ := hx
    rcases hval v hv with rfl | h
    · simp [mapKeysD] at hxl
    · obtain ⟨ks, xs, rfl, _, hk, _⟩ := validate_map_inv h
      exact Or.inr ((validateAll_iff kt ks).mp hk x
        (by simpa [mapKeysD] using hxl))
  have hvalV : ∀ x ∈ (vs.map mapValsD).flatten,
      x = CHValue.null ∨ validateValue vt x = true := by
    intro x hx
    simp only [List.mem_flatten, List.mem_map] at hx
    obtain ⟨l, ⟨v, hv, rfl⟩, hxl⟩ := hx
    rcases hval v hv with rfl | h
    · simp [mapValsD] at hxl
    · obtain ⟨ks, xs, rfl, _, _, hx2⟩ := validate_map_inv h
      exact Or.inr ((validateAll_iff vt xs).mp hx2 x
        (by simpa [mapValsD] using hxl))
  obtain ⟨vb, vws, hserV, hdesV, hFV⟩ :=
    hrtV (vs.map mapValsD).flatten rest hvalV hfitV
  obtain ⟨kb, kws, hserK, hdesK, hFK⟩ :=
    hrtK (vs.map mapKeysD).flatten (vb ++ rest) hvalK hfitK
  refine ⟨((cumAux 0 ((vs.map mapKeysD).map List.length)).map (natToLE 8)).flatten
      ++ kb ++ vb,
    List.zipWith (fun a b => CHValue.map a b)
      (splitChunks ((vs.map mapKeysD).map List.length) kws)
      (splitChunks ((vs.map mapKeysD).map List.length) vws), ?_, ?_, ?_⟩
  · have hfst : (vs.map (fun v => (mapKeysD v, mapValsD v))).map Prod.fst
        = vs.map mapKeysD := by simp
    have hsnd : (vs.map (fun v => (mapKeysD v, mapValsD v))).map Prod.snd
        = vs.map mapValsD := by simp
    have hoffl : (vs.map (fun v => (mapKeysD v, mapValsD v))).map
        (fun p => p.1.length) = (vs.map mapKeysD).map List.length := by
      simp
    simp only [serializeColumn, hmap, hfst, hsnd, hoffl, hserK, hserV]
  · have hp : (256 : Nat) ^ 8 = 2 ^ 64 := by norm_num
    have hsumK : ((vs.map mapKeysD).map List.length).sum
        = (vs.map mapKeysD).flatten.length := (List.length_flatten _).symm
    have hsumV : (vs.map mapValsD).flatten.length
        = (vs.map mapKeysD).flatten.length := by
      rw [List.length_flatten, List.length_flatten, hlens]
    have hoffs := decNats_append 8
      (cumAux 0 ((vs.map mapKeysD).map List.length)) (kb ++ (vb ++ rest))
      (by
        intro o ho
        have := cumAux_mem_le ((vs.map mapKeysD).map List.length) 0 o ho
        omega)
    rw [cumAux_length] at hoffs
    simp only [List.length_map] at hoffs
    have hlast : lastD 0 (cumAux 0 ((vs.map mapKeysD).map List.length))
        = (vs.map mapKeysD).flatten.length := by
      rw [lastD_cumAux]
      omega
    have hdesV2 : deserializeColumn vt (vs.map mapKeysD).flatten.length
        (vb ++ rest) = .ok (vws, rest) := by
      rw [← hsumV]
      exact hdesV
    simp only [deserializeColumn, List.append_assoc, hoffs, hlast, hdesK, hdesV2,
      offSizes_cumAux]
  · have hchK := splitChunks_forall₂ (vs.map mapKeysD) kws hFK
    have hchV := splitChunks_forall₂ (vs.map mapValsD) vws hFV
    rw [← hlens] at hchV
    have h1 := forall₂_map_left hchK
    have h2 := forall₂_map_left hchV
    have h3 := forall₂_zipWith_ex (fun a b => CHValue.map a b) h1 h2
    refine forall₂_imp_mem h3 ?_
    intro v hv d hd hant
    obtain ⟨ck, cv, rfl, hck, hcv⟩ := hd
    rcases hval v hv with rfl | h
    · rcases hant with hbad | hbad
      · exact absurd rfl hbad
      · simp [hasNullWrapper] at hbad
    · obtain ⟨ks, xs, rfl, _, hk, hx⟩ := validate_map_inv h
      have hck2 : ck = ks := forall₂_DecRel_eq (by simpa [mapKeysD] using hck)
        ((validateAll_iff kt ks).mp hk)
      have hcv2 : cv = xs := forall₂_DecRel_eq (by simpa [mapValsD] using hcv)
        ((validateAll_iff vt xs).mp hx)
      show CHValue.map ck cv = CHValue.map ks xs
      rw [hck2, hcv2]

theorem tupRT_cons_step (f : CHType) (fs : List CHType)
    (hrtF : ColRT f) (hrtFs : TupRT fs) : TupRT (f :: fs) := by
  intro vs rest hval hfits
  have hshape : ∀ v ∈ vs, v = CHValue.null ∨
      ∃ x xs, v = CHValue.tuple (x :: xs) ∧ validateValue f x = true ∧
        validateTuple fs xs = true := by
    intro v hv
    rcases hval v hv with rfl | h
    · exact Or.inl rfl
    · obtain ⟨xs, rfl, hxs⟩ := validate_tuple_inv h
      cases xs with
      | nil => simp [validateTuple] at hxs
      | cons x xs2 =>
        simp only [validateTuple, Bool.and_eq_true] at hxs
        exact Or.inr ⟨x, xs2, rfl, hxs.1, hxs.2⟩
  have hheads : mapKR tupleHead vs = .ok (vs.map tupleHeadD) := by
    apply mapKR_ok
    intro v hv
    rcases hshape v hv with rfl | ⟨x, xs, rfl, _, _⟩ <;> rfl
  have htails : mapKR tupleTail vs = .ok (vs.map tupleTailD) := by
    apply mapKR_ok
    intro v hv
    rcases hshape v hv with rfl | ⟨x, xs, rfl, _, _⟩ <;> rfl
  simp only [colFitsTuple, Bool.and_eq_true] at hfits
  have hvalH : ∀ hv ∈ vs.map tupleHeadD,
      hv = CHValue.null ∨ validateValue f hv = true := by
    intro hvv hmem
    simp only [List.mem_map] at hmem
    obtain ⟨v, hv, rfl⟩ := hmem
    rcases hshape v hv with rfl | ⟨x, xs, rfl, hx, _⟩
    · exact Or.inl rfl
    · exact Or.inr (by simpa [tupleHeadD] using hx)
  have hvalT : ∀ tv ∈ vs.map tupleTailD, tv = CHValue.null ∨
      validateValue (CHType.tuple fs) tv = true := by
    intro tvv hmem
    simp only [List.mem_map] at hmem
    obtain ⟨v, hv, rfl⟩ := hmem
    rcases hshape v hv with rfl | ⟨x, xs, rfl, _, hxs⟩
    · exact Or.inl rfl
    · exact Or.inr (by simpa [tupleTailD, validateValue, stripLcNull] using hxs)
  obtain ⟨tailOut, rows, hserT, hdesT, hFT⟩ :=
    hrtFs (vs.map tupleTailD) rest hvalT hfits.2
  obtain ⟨headOut, hws, hserH, hdesH, hFH⟩ :=
    hrtF (vs.map tupleHeadD) (tailOut ++ rest) hvalH hfits.1
  refine ⟨headOut ++ tailOut, List.zipWith consTuple hws rows, ?_, ?_, ?_⟩
  · simp only [serializeTupleCols, hheads, hserH, htails, hserT]
  · rw [List.length_map] at hdesH hdesT
    simp only [deserializeTupleCols, List.append_assoc, hdesH, hdesT]
  · have h1 := forall₂_map_left hFH
    have h2 := forall₂_map_left hFT
    have h3 := forall₂_zipWith_ex consTuple h1 h2
    refine forall₂_imp_mem h3 ?_
    intro v hv d hd hant
    obtain ⟨hw, row, rfl, hRh, hRt⟩ := hd
    rcases hshape v hv with rfl | ⟨x, xs, rfl, hx, hxs⟩
    · rcases hant with hbad | hbad
      · exact absurd rfl hbad
      · simp [hasNullWrapper] at hbad
    · have hheadv : tupleHeadD (CHValue.tuple (x :: xs)) = x := rfl
      have htailv : tupleTailD (CHValue.tuple (x :: xs)) = CHValue.tuple xs := rfl
      rw [hheadv] at hRh
      rw [htailv] at hRt
      have hxw : hw = x := by
        by_cases hn : x = CHValue.null
        · refine hRh (Or.inr ?_)
          subst hn
          rwa [validateValue_null] at hx
        · exact hRh (Or.inl hn)
      have hrow : row = CHValue.tuple xs := hRt (Or.inl (by simp))
      rw [hxw, hrow]
      rfl

theorem colRT_point : ColRT CHType.point := by
  intro vs rest hval _
  have hmap : mapKR pointOf vs = .ok (vs.map (fun v =>
      match v with
      | CHValue.point x y => (x, y)
      | _ => ((0 : Nat), (0 : Nat)))) := by
    apply mapKR_ok
    intro v hv
    rcases hval v hv with rfl | h
    · rfl
    · obtain ⟨x, y, rfl, _, _⟩ := validate_point_inv h
      rfl
  have hbound : ∀ p ∈ vs.map (fun v =>
      match v with
      | CHValue.point x y => (x, y)
      | _ => ((0 : Nat), (0 : Nat))), p.1 < 2 ^ 64 ∧ p.2 < 2 ^ 64 := by
    intro p hp
    simp only [List.mem_map] at hp
    obtain ⟨v, hv, rfl⟩ := hp
    rcases hval v hv with rfl | h
    · exact ⟨by norm_num, by norm_num⟩
    · obtain ⟨x, y, rfl, hx, hy⟩ := validate_point_inv h
      exact ⟨hx, hy⟩
  have hrt := pointCol_rt (vs.map (fun v =>
      match v with
      | CHValue.point x y => (x, y)
      | _ => ((0 : Nat), (0 : Nat)))) rest hbound
  rw [List.length_map] at hrt
  refine ⟨pointColEnc (vs.map (fun v =>
      match v with
      | CHValue.point x y => (x, y)
      | _ => ((0 : Nat), (0 : Nat)))),
    ((vs.map (fun v =>
      match v with
      | CHValue.point x y => (x, y)
      | _ => ((0 : Nat), (0 : Nat)))).map (fun p => CHValue.point p.1 p.2)),
    ?_, ?_, ?_⟩
  · simp only [serializeColumn, hmap]
  · simp only [deserializeColumn, hrt]
  · rw [List.map_map]
    refine forall₂_imp_mem (forall₂_map_self _ vs) ?_
    intro v hv w hw hant
    rcases hval v hv with rfl | h
    · rcases hant with hbad | hbad
      · exact absurd rfl hbad
      · simp [hasNullWrapper] at hbad
    · obtain ⟨x, y, rfl, _, _⟩ := validate_point_inv h
      rw [hw]
      rfl

theorem colRT_ring : ColRT CHType.ring := by
  intro vs rest hval hfits
  have hmap : mapKR ringOf vs = .ok (vs.map ringOfD) := by
    apply mapKR_ok
    intro v hv
    rcases hval v hv with rfl | h
    · rfl
    · obtain ⟨ps, rfl, _⟩ := validate_ring_inv h
      rfl
  simp only [colFits, decide_eq_true_eq] at hfits
  have hco : ∀ r ∈ vs.map ringOfD, ∀ p ∈ r, p.1 < 2 ^ 64 ∧ p.2 < 2 ^ 64 := by
    intro r hr p hp
    simp only [List.mem_map] at hr
    obtain ⟨v, hv, rfl⟩ := hr
    rcases hval v hv with rfl | h
    · simp [ringOfD] at hp
    · obtain ⟨ps, rfl, hps⟩ := validate_ring_inv h
      exact hps p (by simpa [ringOfD] using hp)
  have hrt := ringCol_rt (vs.map ringOfD) rest hco hfits
  rw [List.length_map] at hrt
  refine ⟨ringColEnc (vs.map ringOfD), (vs.map ringOfD).map CHValue.ring,
    ?_, ?_, ?_⟩
  · simp only [serializeColumn, hmap]
  · simp only [deserializeColumn, hrt]
  · rw [List.map_map]
    refine forall₂_imp_mem (forall₂_map_self _ vs) ?_
    intro v hv w hw hant
    rcases hval v hv with rfl | h
    · rcases hant with hbad | hbad
      · exact absurd rfl hbad
      · simp [hasNullWrapper] at hbad
    · obtain ⟨ps, rfl, _⟩ := validate_ring_inv h
      rw [hw]
      rfl

theorem colRT_polygon : ColRT CHType.polygon := by
  intro vs rest hval hfits
  have hmap : mapKR polygonOf vs = .ok (vs.map polygonOfD) := by
    apply mapKR_ok
    intro v hv
    rcases hval v hv with rfl | h
    · rfl
    · obtain ⟨rs, rfl, _⟩ := validate_polygon_inv h
      rfl
  simp only [colFits, Bool.and_eq_true, decide_eq_true_eq] at hfits
  have hco : ∀ q ∈ vs.map polygonOfD, ∀ r ∈ q, ∀ p ∈ r,
      p.1 < 2 ^ 64 ∧ p.2 < 2 ^ 64 := by
    intro q hq r hr p hp
    simp only [List.mem_map] at hq
    obtain ⟨v, hv, rfl⟩ := hq
    rcases hval v hv with rfl | h
    · simp [polygonOfD] at hr
    · obtain ⟨rs, rfl, hrs⟩ := validate_polygon_inv h
      exact hrs r (by simpa [polygonOfD] using hr) p hp
  have hrt := polygonCol_rt (vs.map polygonOfD) rest hco hfits.1 hfits.2
  rw [List.length_map] at hrt
  refine ⟨polygonColEnc (vs.map polygonOfD),
    (vs.map polygonOfD).map CHValue.polygon, ?_, ?_, ?_⟩
  · simp only [serializeColumn, hmap]
  · simp only [deserializeColumn, hrt]
  · rw [List.map_map]
    refine forall₂_imp_mem (forall₂_map_self _ vs) ?_
    intro v hv w hw hant
    rcases hval v hv with rfl | h
    · rcases hant with hbad | hbad
      · exact absurd rfl hbad
      · simp [hasNullWrapper] at hbad
    · obtain ⟨rs, rfl, _⟩ := validate_polygon_inv h
      rw [hw]
      rfl

theorem colRT_multiPolygon : ColRT CHType.multiPolygon := by
  intro vs rest hval hfits
  have hmap : mapKR multiPolygonOf vs = .ok (vs.map multiPolygonOfD) := by
    apply mapKR_ok
    intro v hv
    rcases hval v hv with rfl | h
    · rfl
    · obtain ⟨ms, rfl, _⟩ := validate_multiPolygon_inv h
      rfl
  simp only [colFits, Bool.and_eq_true, decide_eq_true_eq] at hfits
  have hco : ∀ m ∈ vs.map multiPolygonOfD, ∀ q ∈ m, ∀ r ∈ q, ∀ p ∈ r,
      p.1 < 2 ^ 64 ∧ p.2 < 2 ^ 64 := by
    intro m hm q hq r hr p hp
    simp only [List.mem_map] at hm
    obtain ⟨v, hv, rfl⟩ := hm
    rcases hval v hv with rfl | h
    · simp [multiPolygonOfD] at hq
    · obtain ⟨ms, rfl, hms⟩ := validate_multiPolygon_inv h
      exact hms q (by simpa [multiPolygonOfD] using hq) r hr p hp
  have hrt := multiPolygonCol_rt (vs.map multiPolygonOfD) rest hco
    hfits.1.1 hfits.1.2 hfits.2
  rw [List.length_map] at hrt
  refine ⟨multiPolygonColEnc (vs.map multiPolygonOfD),
    (vs.map multiPolygonOfD).map CHValue.multiPolygon, ?_, ?_, ?_⟩
  · simp only [serializeColumn, hmap]
  · simp only [deserializeColumn, hrt]
  · rw [List.map_map]
    refine forall₂_imp_mem (forall₂_map_self _ vs) ?_
    intro v hv w hw hant
    rcases hval v hv with rfl | h
    · rcases hant with hbad | hbad
      · exact absurd rfl hbad
      · simp [hasNullWrapper] at hbad
    · obtain ⟨ms, rfl, _⟩ := validate_multiPolygon_inv h
      rw [hw]
      rfl

set_option maxHeartbeats 1600000 in
theorem colRT_lc_nonnull_step (inner : CHType)
    (hne : ∀ u, inner ≠ CHType.nullable u) (hrt : ColRT inner) :
    ColRT (CHType.lowCardinality inner) := by
  intro vs rest hval hfits
  by_cases hvs0 : vs.length = 0
  · have hnil : vs = [] := List.length_eq_zero.mp hvs0
    subst hnil
    refine ⟨[], [], ?_, ?_, .nil⟩
    · rw [serializeColumn_lc_eq inner hne]
      rfl
    · rw [deserializeColumn_lc_eq inner hne]
      rfl
  · rw [colFits_lc_eq inner hne] at hfits
    simp only [Bool.and_eq_true, decide_eq_true_eq] at hfits
    obtain ⟨⟨hn64, hm64⟩, hfitD⟩ := hfits
    have hvalD : ∀ key ∈ firstDedup vs,
        key = CHValue.null ∨ validateValue inner key = true := by
      intro key hkey
      have hkv : key ∈ vs := by
        rcases firstDedupAux_sub vs [] hkey with h | h
        · simp at h
        · exact h
      rcases hval key hkv with rfl | h
      · exact Or.inl rfl
      · by_cases hn : key = CHValue.null
        · exact Or.inl hn
        · exact Or.inr (by rwa [validateValue_lowCardinality inner hn] at h)
    obtain ⟨dict, dictWs, hserD, hdesD, hFD⟩ :=
      hrt (firstDedup vs)
        (natToLE 8 vs.length ++
          (((vs.map (fun v => idxOf v (firstDedup vs))).map
            (natToLE (lcIndexBytes (firstDedup vs).length))).flatten ++ rest))
        hvalD hfitD
    refine ⟨lcSerTail (firstDedup vs) dict vs,
      (vs.map (fun v => idxOf v (firstDedup vs))).map
        (fun i => dictWs.getD i CHValue.null), ?_, ?_, ?_⟩
    · rw [serializeColumn_lc_eq inner hne, if_neg hvs0]
      simp only [hserD]
    · have hp : (256 : Nat) ^ 8 = 2 ^ 64 := by norm_num
      have hwb := widthBits_cases (firstDedup vs).length
      obtain ⟨hmod, hflt⟩ := lcFlags_or_facts hwb
      have hle3 : widthBits (firstDedup vs).length ≤ 3 := by
        rcases hwb with h | h | h | h <;> omega
      have hr1 := readLE_append_of_lt
        (show lcFlags ||| widthBits (firstDedup vs).length < 256 ^ 8 by omega)
        (natToLE 8 (firstDedup vs).length ++ (dict ++ (natToLE 8 vs.length ++
          (((vs.map (fun v => idxOf v (firstDedup vs))).map
            (natToLE (lcIndexBytes (firstDedup vs).length))).flatten ++ rest))))
      have hcond : ¬ (3 < (lcFlags ||| widthBits (firstDedup vs).length) % 256) := by
        rw [hmod]
        omega
      have hr2 := readLE_append_of_lt
        (show (firstDedup vs).length < 256 ^ 8 by omega)
        (dict ++ (natToLE 8 vs.length ++
          (((vs.map (fun v => idxOf v (firstDedup vs))).map
            (natToLE (lcIndexBytes (firstDedup vs).length))).flatten ++ rest)))
      have hr3 := readLE_append_of_lt
        (show vs.length < 256 ^ 8 by omega)
        (((vs.map (fun v => idxOf v (firstDedup vs))).map
          (natToLE (lcIndexBytes (firstDedup vs).length))).flatten ++ rest)
      have hmod2 : (2 : Nat) ^ ((lcFlags ||| widthBits (firstDedup vs).length) % 256)
          = lcIndexBytes (firstDedup vs).length := by
        rw [hmod]
        rfl
      have hidx := decNats_append (lcIndexBytes (firstDedup vs).length)
        (vs.map (fun v => idxOf v (firstDedup vs))) rest
        (by
          intro x hx
          simp only [List.mem_map] at hx
          obtain ⟨v, hv, rfl⟩ := hx
          exact idx_lt_width (idxOf_lt (firstDedup_mem hv)) hm64)
      rw [List.length_map] at hidx
      rw [deserializeColumn_lc_eq inner hne, if_neg hvs0]
      simp only [lcSerTail, List.append_assoc, hr1, if_neg hcond, hr2, hdesD,
        hr3, hmod2, hidx]
    · rw [List.map_map]
      refine forall₂_imp_mem (forall₂_map_self _ vs) ?_
      intro v hv w hw hant
      have hvk : v ∈ firstDedup vs := firstDedup_mem hv
      have hidxlt : idxOf v (firstDedup vs) < (firstDedup vs).length :=
        idxOf_lt hvk
      have hgd := forall₂_getD hFD (idxOf v (firstDedup vs)) hidxlt
        CHValue.null CHValue.null
      rw [idxOf_getD CHValue.null hvk] at hgd
      have hant2 : v ≠ CHValue.null ∨ hasNullWrapper inner = true := by
        rcases hant with h | h
        · exact Or.inl h
        · exact Or.inr (by simpa [hasNullWrapper] using h)
      rw [hw]
      exact hgd hant2

set_option maxHeartbeats 1600000 in
theorem colRT_lc_nullable_step (u : CHType) (hrt : ColRT u) :
    ColRT (CHType.lowCardinality (CHType.nullable u)) := by
  intro vs rest hval hfits
  by_cases hvs0 : vs.length = 0
  · have hnil : vs = [] := List.length_eq_zero.mp hvs0
    subst hnil
    refine ⟨[], [], ?_, ?_, .nil⟩
    · rw [serializeColumn_lc_nullable_eq]
      rfl
    · rw [deserializeColumn_lc_nullable_eq]
      rfl
  · rw [colFits_lc_nullable_eq] at hfits
    simp only [Bool.and_eq_true, decide_eq_true_eq] at hfits
    obtain ⟨⟨hn64, hm64⟩, hfitD⟩ := hfits
    have hvalD : ∀ key ∈ CHValue.null ::
        firstDedup (vs.filter (fun v => decide (v ≠ CHValue.null))),
        key = CHValue.null ∨ validateValue u key = true := by
      intro key hkey
      rcases List.mem_cons.mp hkey with rfl | hkey2
      · exact Or.inl rfl
      · have hkf : key ∈ vs.filter (fun v => decide (v ≠ CHValue.null)) := by
          rcases firstDedupAux_sub _ [] hkey2 with h | h
          · simp at h
          · exact h
        obtain ⟨hkv, hkn⟩ := of_mem_filter_nonnull hkf
        rcases hval key hkv with rfl | h
        · exact absurd rfl hkn
        · rw [validateValue_lowCardinality _ hkn,
            validateValue_nullable u hkn] at h
          exact Or.inr h
    obtain ⟨dict, dictWs, hserD, hdesD, hFD⟩ :=
      hrt (CHValue.null :: firstDedup (vs.filter (fun v => decide (v ≠ CHValue.null))))
        (natToLE 8 vs.length ++
          (((vs.map (fun v => idxOf v (CHValue.null ::
            firstDedup (vs.filter (fun v => decide (v ≠ CHValue.null)))))).map
            (natToLE (lcIndexBytes (CHValue.null ::
              firstDedup (vs.filter (fun v => decide (v ≠ CHValue.null)))).length))).flatten
            ++ rest))
        hvalD hfitD
    refine ⟨lcSerTail (CHValue.null ::
        firstDedup (vs.filter (fun v => decide (v ≠ CHValue.null)))) dict vs,
      (vs.map (fun v => idxOf v (CHValue.null ::
        firstDedup (vs.filter (fun v => decide (v ≠ CHValue.null)))))).map
        (fun i => if i = 0 then CHValue.null else dictWs.getD i CHValue.null),
      ?_, ?_, ?_⟩
    · rw [serializeColumn_lc_nullable_eq, if_neg hvs0]
      simp only [hserD]
    · have hp : (256 : Nat) ^ 8 = 2 ^ 64 := by norm_num
      have hwb := widthBits_cases (CHValue.null ::
        firstDedup (vs.filter (fun v => decide (v ≠ CHValue.null)))).length
      obtain ⟨hmod, hflt⟩ := lcFlags_or_facts hwb
      have hle3 : widthBits (CHValue.null ::
          firstDedup (vs.filter (fun v => decide (v ≠ CHValue.null)))).length ≤ 3 := by
        rcases hwb with h | h | h | h <;> omega
      have hr1 := readLE_append_of_lt
        (show lcFlags ||| widthBits (CHValue.null ::
          firstDedup (vs.filter (fun v => decide (v ≠ CHValue.null)))).length
            < 256 ^ 8 by omega)
        (natToLE 8 (CHValue.null ::
          firstDedup (vs.filter (fun v => decide (v ≠ CHValue.null)))).length ++
          (dict ++ (natToLE 8 vs.length ++
          (((vs.map (fun v => idxOf v (CHValue.null ::
            firstDedup (vs.filter (fun v => decide (v ≠ CHValue.null)))))).map
            (natToLE (lcIndexBytes (CHValue.null ::
              firstDedup (vs.filter (fun v => decide (v ≠ CHValue.null)))).length))).flatten
            ++ rest))))
      have hcond : ¬ (3 < (lcFlags ||| widthBits (CHValue.null ::
          firstDedup (vs.filter (fun v => decide (v ≠ CHValue.null)))).length) % 256) := by
        rw [hmod]
        omega
      have hr2 := readLE_append_of_lt
        (show (CHValue.null ::
          firstDedup (vs.filter (fun v => decide (v ≠ CHValue.null)))).length
            < 256 ^ 8 by omega)
        (dict ++ (natToLE 8 vs.length ++
          (((vs.map (fun v => idxOf v (CHValue.null ::
            firstDedup (vs.filter (fun v => decide (v ≠ CHValue.null)))))).map
            (natToLE (lcIndexBytes (CHValue.null ::
              firstDedup (vs.filter (fun v => decide (v ≠ CHValue.null)))).length))).flatten
            ++ rest)))
      have hr3 := readLE_append_of_lt
        (show vs.length < 256 ^ 8 by omega)
        (((vs.map (fun v => idxOf v (CHValue.null ::
          firstDedup (vs.filter (fun v => decide (v ≠ CHValue.null)))))).map
          (natToLE (lcIndexBytes (CHValue.null ::
            firstDedup (vs.filter (fun v => decide (v ≠ CHValue.null)))).length))).flatten
          ++ rest)
      have hmod2 : (2 : Nat) ^ ((lcFlags ||| widthBits (CHValue.null ::
          firstDedup (vs.filter (fun v => decide (v ≠ CHValue.null)))).length) % 256)
          = lcIndexBytes (CHValue.null ::
            firstDedup (vs.filter (fun v => decide (v ≠ CHValue.null)))).length := by
        rw [hmod]
        rfl
      have hidx := decNats_append (lcIndexBytes (CHValue.null ::
          firstDedup (vs.filter (fun v => decide (v ≠ CHValue.null)))).length)
        (vs.map (fun v => idxOf v (CHValue.null ::
          firstDedup (vs.filter (fun v => decide (v ≠ CHValue.null)))))) rest
        (by
          intro x hx
          simp only [List.mem_map] at hx
          obtain ⟨v, hv, rfl⟩ := hx
          have hvk : v ∈ CHValue.null ::
              firstDedup (vs.filter (fun v => decide (v ≠ CHValue.null))) := by
            by_cases hn : v = CHValue.null
            · simp [hn]
            · exact List.mem_cons_of_mem _
                (firstDedup_mem (mem_filter_nonnull hv hn))
          exact idx_lt_width (idxOf_lt hvk) hm64)
      rw [List.length_map] at hidx
      rw [deserializeColumn_lc_nullable_eq, if_neg hvs0]
      simp only [lcSerTail, List.append_assoc, hr1, if_neg hcond, hr2, hdesD,
        hr3, hmod2, hidx]
    · rw [List.map_map]
      refine forall₂_imp_mem (forall₂_map_self _ vs) ?_
      intro v hv w hw hant
      by_cases hn : v = CHValue.null
      · subst hn
        rw [hw]
        simp [idxOf]
      · have hnn : ¬ (CHValue.null = v) := fun hh => hn hh.symm
        have hvk : v ∈ CHValue.null ::
            firstDedup (vs.filter (fun v => decide (v ≠ CHValue.null))) :=
          List.mem_cons_of_mem _ (firstDedup_mem (mem_filter_nonnull hv hn))
        have hne0 : idxOf v (CHValue.null ::
            firstDedup (vs.filter (fun v => decide (v ≠ CHValue.null)))) ≠ 0 := by
          simp only [idxOf, if_neg hnn]
          omega
        have hidxlt := idxOf_lt hvk
        have hgd := forall₂_getD hFD
          (idxOf v (CHValue.null ::
            firstDedup (vs.filter (fun v => decide (v ≠ CHValue.null)))))
          hidxlt CHValue.null CHValue.null
        rw [idxOf_getD CHValue.null hvk] at hgd
        rw [hw]
        show (if idxOf v (CHValue.null ::
            firstDedup (vs.filter (fun v => decide (v ≠ CHValue.null)))) = 0
          then CHValue.null
          else dictWs.getD (idxOf v (CHValue.null ::
            firstDedup (vs.filter (fun v => decide (v ≠ CHValue.null)))))
            CHValue.null) = v
        rw [if_neg hne0]
        exact hgd (Or.inl hn)

set_option maxHeartbeats 3200000 in
/-- Master round-trip induction on the type weight: every type's column
codec round-trips, and so does the peeled tuple-column codec. -/
theorem serdes_rt_measure : ∀ kk : Nat,
    (∀ t : CHType, typeWeight t ≤ kk → ColRT t) ∧
    (∀ fs : List CHType, typeWeightList fs ≤ kk → TupRT fs) := by
  intro kk
  induction kk with
  | zero =>
    constructor
    · intro t ht
      have := typeWeight_pos t
      omega
    · intro fs hfs
      have := typeWeightList_pos fs
      omega
  | succ k ih =>
    obtain ⟨ihT, ihL⟩ := ih
    constructor
    · intro t ht
      cases t with
      | int8 =>
        intro vs rest hval hfits2
        exact encColumn_decColumn (encElem (CHType.int8)) (decElem (CHType.int8))
          (DecRel (CHType.int8)) vs rest (fun v hv => elemRT_int8 v (hval v hv))
      | int16 =>
        intro vs rest hval hfits2
        exact encColumn_decColumn (encElem (CHType.int16)) (decElem (CHType.int16))
          (DecRel (CHType.int16)) vs rest (fun v hv => elemRT_int16 v (hval v hv))
      | int32 =>
        intro vs rest hval hfits2
        exact encColumn_decColumn (encElem (CHType.int32)) (decElem (CHType.int32))
          (DecRel (CHType.int32)) vs rest (fun v hv => elemRT_int32 v (hval v hv))
      | int64 =>
        intro vs rest hval hfits2
        exact encColumn_decColumn (encElem (CHType.int64)) (decElem (CHType.int64))
          (DecRel (CHType.int64)) vs rest (fun v hv => elemRT_int64 v (hval v hv))
      | int128 =>
        intro vs rest hval hfits2
        exact encColumn_decColumn (encElem (CHType.int128)) (decElem (CHType.int128))
          (DecRel (CHType.int128)) vs rest (fun v hv => elemRT_int128 v (hval v hv))
      | int256 =>
        intro vs rest hval hfits2
        exact encColumn_decColumn (encElem (CHType.int256)) (decElem (CHType.int256))
          (DecRel (CHType.int256)) vs rest (fun v hv => elemRT_int256 v (hval v hv))
      | uint8 =>
        intro vs rest hval hfits2
        exact encColumn_decColumn (encElem (CHType.uint8)) (decElem (CHType.uint8))
          (DecRel (CHType.uint8)) vs rest (fun v hv => elemRT_uint8 v (hval v hv))
      | uint16 =>
        intro vs rest hval hfits2
        exact encColumn_decColumn (encElem (CHType.uint16)) (decElem (CHType.uint16))
          (DecRel (CHType.uint16)) vs rest (fun v hv => elemRT_uint16 v (hval v hv))
      | uint32 =>
        intro vs rest hval hfits2
        exact encColumn_decColumn (encElem (CHType.uint32)) (decElem (CHType.uint32))
          (DecRel (CHType.uint32)) vs rest (fun v hv => elemRT_uint32 v (hval v hv))
      | uint64 =>
        intro vs rest hval hfits2
        exact encColumn_decColumn (encElem (CHType.uint64)) (decElem (CHType.uint64))
          (DecRel (CHType.uint64)) vs rest (fun v hv => elemRT_uint64 v (hval v hv))
      | uint128 =>
        intro vs rest hval hfits2
        exact encColumn_decColumn (encElem (CHType.uint128)) (decElem (CHType.uint128))
          (DecRel (CHType.uint128)) vs rest (fun v hv => elemRT_uint128 v (hval v hv))
      | uint256 =>
        intro vs rest hval hfits2
        exact encColumn_decColumn (encElem (CHType.uint256)) (decElem (CHType.uint256))
          (DecRel (CHType.uint256)) vs rest (fun v hv => elemRT_uint256 v (hval v hv))
      | float32 =>
        intro vs rest hval hfits2
        exact encColumn_decColumn (encElem (CHType.float32)) (decElem (CHType.float32))
          (DecRel (CHType.float32)) vs rest (fun v hv => elemRT_float32 v (hval v hv))
      | float64 =>
        intro vs rest hval hfits2
        exact encColumn_decColumn (encElem (CHType.float64)) (decElem (CHType.float64))
          (DecRel (CHType.float64)) vs rest (fun v hv => elemRT_float64 v (hval v hv))
      | decimal32 sc =>
        intro vs rest hval hfits2
        exact encColumn_decColumn (encElem (CHType.decimal32 sc)) (decElem (CHType.decimal32 sc))
          (DecRel (CHType.decimal32 sc)) vs rest (fun v hv => elemRT_decimal32 sc v (hval v hv))
      | decimal64 sc =>
        intro vs rest hval hfits2
        exact encColumn_decColumn (encElem (CHType.decimal64 sc)) (decElem (CHType.decimal64 sc))
          (DecRel (CHType.decimal64 sc)) vs rest (fun v hv => elemRT_decimal64 sc v (hval v hv))
      | decimal128 sc =>
        intro vs rest hval hfits2
        exact encColumn_decColumn (encElem (CHType.decimal128 sc)) (decElem (CHType.decimal128 sc))
          (DecRel (CHType.decimal128 sc)) vs rest (fun v hv => elemRT_decimal128 sc v (hval v hv))
      | decimal256 sc =>
        intro vs rest hval hfits2
        exact encColumn_decColumn (encElem (CHType.decimal256 sc)) (decElem (CHType.decimal256 sc))
          (DecRel (CHType.decimal256 sc)) vs rest (fun v hv => elemRT_decimal256 sc v (hval v hv))
      | string =>
        intro vs rest hval hfits2
        exact encColumn_decColumn (encElem (CHType.string)) (decElem (CHType.string))
          (DecRel (CHType.string)) vs rest (fun v hv => elemRT_string v (hval v hv))
      | fixedString n =>
        intro vs rest hval hfits2
        exact encColumn_decColumn (encElem (CHType.fixedString n)) (decElem (CHType.fixedString n))
          (DecRel (CHType.fixedString n)) vs rest (fun v hv => elemRT_fixedString n v (hval v hv))
      | uuid =>
        intro vs rest hval hfits2
        exact encColumn_decColumn (encElem (CHType.uuid)) (decElem (CHType.uuid))
          (DecRel (CHType.uuid)) vs rest (fun v hv => elemRT_uuid v (hval v hv))
      | date =>
        intro vs rest hval hfits2
        exact encColumn_decColumn (encElem (CHType.date)) (decElem (CHType.date))
          (DecRel (CHType.date)) vs rest (fun v hv => elemRT_date v (hval v hv))
      | dateTime tz =>
        intro vs rest hval hfits2
        exact encColumn_decColumn (encElem (CHType.dateTime tz)) (decElem (CHType.dateTime tz))
          (DecRel (CHType.dateTime tz)) vs rest (fun v hv => elemRT_dateTime tz v (hval v hv))
      | dateTime64 p tz =>
        intro vs rest hval hfits2
        exact encColumn_decColumn (encElem (CHType.dateTime64 p tz)) (decElem (CHType.dateTime64 p tz))
          (DecRel (CHType.dateTime64 p tz)) vs rest (fun v hv => elemRT_dateTime64 p tz v (hval v hv))
      | enum8 entries =>
        intro vs rest hval hfits2
        exact encColumn_decColumn (encElem (CHType.enum8 entries)) (decElem (CHType.enum8 entries))
          (DecRel (CHType.enum8 entries)) vs rest (fun v hv => elemRT_enum8 entries v (hval v hv))
      | enum16 entries =>
        intro vs rest hval hfits2
        exact encColumn_decColumn (encElem (CHType.enum16 entries)) (decElem (CHType.enum16 entries))
          (DecRel (CHType.enum16 entries)) vs rest (fun v hv => elemRT_enum16 entries v (hval v hv))
      | lowCardinality inner =>
        have hw2 : typeWeight inner ≤ k := by
          simp only [typeWeight] at ht
          omega
        obtain ⟨u, rfl⟩ | hne : (∃ u2, inner = CHType.nullable u2) ∨
            (∀ u2, inner ≠ CHType.nullable u2) := by
          cases inner <;> simp
        · exact colRT_lc_nullable_step u
            (ihT u (by simp only [typeWeight] at hw2; omega))
        · exact colRT_lc_nonnull_step inner hne (ihT inner hw2)
      | array inner =>
        exact colRT_array_step inner
          (ihT inner (by simp only [typeWeight] at ht; omega))
      | nullable inner =>
        exact colRT_nullable_step inner
          (ihT inner (by simp only [typeWeight] at ht; omega))
      | map kt vt =>
        have hk : typeWeight kt ≤ k := by
          have h1 := typeWeight_pos vt
          simp only [typeWeight] at ht
          omega
        have hv2 : typeWeight vt ≤ k := by
          have h1 := typeWeight_pos kt
          simp only [typeWeight] at ht
          omega
        exact colRT_map_step kt vt (ihT kt hk) (ihT vt hv2)
      | tuple fs =>
        have h2 : typeWeightList fs ≤ k := by
          simp only [typeWeight] at ht
          omega
        exact ihL fs h2
      | point => exact colRT_point
      | ring => exact colRT_ring
      | polygon => exact colRT_polygon
      | multiPolygon => exact colRT_multiPolygon
    · intro fs hfs
      cases fs with
      | nil => exact tupRT_nil
      | cons f fs2 =>
        have hwf : typeWeight f ≤ k := by
          have := typeWeightList_pos fs2
          simp only [typeWeightList] at hfs
          omega
        have hwfs : typeWeightList fs2 ≤ k := by
          have := typeWeight_pos f
          simp only [typeWeightList] at hfs
          omega
        exact tupRT_cons_step f fs2 (ihT f hwf) (ihL fs2 hwfs)

/-- Every type's column codec round-trips. -/
theorem colRT_all (t : CHType) : ColRT t :=
  (serdes_rt_measure (typeWeight t)).1 t (le_refl _)

/-- C1: for every type `T` and every list of values `V` in which each
element is well-typed for `T` (`validateValue`), and whose wire-format
lengths fit the u64 fields (`colFits`, automatic for any list realizable
as a Rust `Vec`), serializing `V` as a column of type `T` succeeds and
deserializing the produced bytes at element count `len(V)` yields exactly
`V` again. Floats are modelled as raw IEEE-754 bit patterns, so the
claim's NaN-bit-pattern proviso is subsumed by plain equality. -/
theorem C1_column_roundtrip (t : CHType) (vs : List CHValue) (rest : List Nat)
    (hval : ∀ v ∈ vs, validateValue t v = true)
    (hfits : colFits t vs = true) :
    ∃ out, serializeColumn t vs = .ok out ∧
      deserializeColumn t vs.length (out ++ rest) = .ok (vs, rest) := by
  obtain ⟨out, ws, hser, hdes, hF⟩ := colRT_all t vs rest
    (fun v hv => Or.inr (hval v hv)) hfits
  have hws : ws = vs := forall₂_DecRel_eq hF hval
  exact ⟨out, hser, by rwa [hws] at hdes⟩

theorem C1_column_roundtrip_witness :
    (∀ v ∈ [CHValue.tuple [CHValue.uint8 7, CHValue.null],
        CHValue.tuple [CHValue.uint8 200, CHValue.string [104, 105]]],
      validateValue (CHType.tuple [CHType.uint8, CHType.nullable CHType.string])
        v = true) ∧
    colFits (CHType.tuple [CHType.uint8, CHType.nullable CHType.string])
      [CHValue.tuple [CHValue.uint8 7, CHValue.null],
        CHValue.tuple [CHValue.uint8 200, CHValue.string [104, 105]]] = true ∧
    ∃ out,
      serializeColumn (CHType.tuple [CHType.uint8, CHType.nullable CHType.string])
        [CHValue.tuple [CHValue.uint8 7, CHValue.null],
          CHValue.tuple [CHValue.uint8 200, CHValue.string [104, 105]]] = .ok out ∧
      deserializeColumn (CHType.tuple [CHType.uint8, CHType.nullable CHType.string])
        ([CHValue.tuple [CHValue.uint8 7, CHValue.null],
          CHValue.tuple [CHValue.uint8 200, CHValue.string [104, 105]]]).length
        (out ++ []) =
        .ok ([CHValue.tuple [CHValue.uint8 7, CHValue.null],
          CHValue.tuple [CHValue.uint8 200, CHValue.string [104, 105]]], []) :=
  ⟨by decide, by decide,
    C1_column_roundtrip
      (CHType.tuple [CHType.uint8, CHType.nullable CHType.string])
      [CHValue.tuple [CHValue.uint8 7, CHValue.null],
        CHValue.tuple [CHValue.uint8 200, CHValue.string [104, 105]]]
      [] (by decide) (by decide)⟩

/-- C8 counterexample: serializing the 4-byte string "test" as a
FixedString(3) column does NOT return a serialize error — it silently
truncates to the 3 bytes "tes" (pinned by the FixedString(3) case of
`roundtrip_string` in types/tests.rs, which serializes an over-long
string without error and asserts the round trip is merely unequal), and
the round trip returns a different value. -/
theorem C8_counterexample_fixed_string_truncates :
    serializeColumn (CHType.fixedString 3) [CHValue.string [116, 101, 115, 116]]
      = .ok [116, 101, 115] ∧
    deserializeColumn (CHType.fixedString 3) 1 [116, 101, 115]
      = .ok ([CHValue.string [116, 101, 115]], []) ∧
    CHValue.string [116, 101, 115] ≠ CHValue.string [116, 101, 115, 116] :=
  ⟨rfl, rfl, by decide⟩

/-- C8 amended: FixedString(n) serialization writes exactly n bytes per
element — zero-padding shorter values and silently truncating longer ones
to their first n bytes, with no error in either case. -/
theorem C8_fixed_string_exact (n : Nat) (bs : List Nat) :
    encElem (CHType.fixedString n) (CHValue.string bs)
      = .ok (bs.take n ++ List.replicate (n - bs.length) 0) ∧
    (bs.take n ++ List.replicate (n - bs.length) 0).length = n := by
  refine ⟨rfl, ?_⟩
  simp only [List.length_append, List.length_take, List.length_replicate]
  omega

/-- C9: embedded from types/serialize/nullable.rs lines 8–31 — serializing
`n` values as Nullable(T) writes first a mask of exactly `n` bytes, byte
`i` being 1 exactly when value `i` is Null and 0 otherwise, followed by
the inner column of type T serialized over the same `n` values (one inner
element even at null positions). -/
theorem C9_nullable_mask (t : CHType) (vs : List CHValue) (out : List Nat)
    (h : serializeColumn (CHType.nullable t) vs = .ok out) :
    ∃ body, serializeColumn t vs = .ok body ∧
      out = vs.map (fun v => if v = CHValue.null then 1 else 0) ++ body ∧
      (vs.map (fun v => if v = CHValue.null then 1 else 0)).length = vs.length := by
  cases hser : serializeColumn t vs with
  | err e =>
    simp only [serializeColumn, hser] at h
    cases h
  | ok body =>
    simp only [serializeColumn, hser] at h
    cases h
    exact ⟨body, rfl, rfl, by simp⟩

theorem C9_nullable_mask_witness :
    serializeColumn (CHType.nullable CHType.uint8)
      [CHValue.null, CHValue.uint8 5] = .ok [1, 0, 0, 5] ∧
    ∃ body, serializeColumn CHType.uint8 [CHValue.null, CHValue.uint8 5]
        = .ok body ∧
      [1, 0, 0, 5] = ([CHValue.null, CHValue.uint8 5].map
        (fun v => if v = CHValue.null then 1 else 0)) ++ body ∧
      ([CHValue.null, CHValue.uint8 5].map
        (fun v => if v = CHValue.null then 1 else 0)).length
        = ([CHValue.null, CHValue.uint8 5] : List CHValue).length :=
  ⟨rfl, C9_nullable_mask CHType.uint8 [CHValue.null, CHValue.uint8 5]
    [1, 0, 0, 5] rfl⟩

/-! Type-text grammar, modelled from the spec §4.3 (the types module is
not under src/): a canonical printer for `CHType` and a recursive-descent
parser over `identifier ( argument-list )?`, with arguments being integer
literals, single-quoted string literals with backslash escapes, enum
`'name' = integer` entries, or nested types. The parser carries explicit
recursion fuel; `parseCHType` supplies input length + 1, which the
round-trip proof shows is always sufficient for printed types. -/

def isDigitChar (c : Char) : Bool := 48 ≤ c.toNat && c.toNat ≤ 57

def isIdentChar (c : Char) : Bool :=
  (65 ≤ c.toNat && c.toNat ≤ 90) || (97 ≤ c.toNat && c.toNat ≤ 122) ||
    (48 ≤ c.toNat && c.toNat ≤ 57)

def skipSpaces (s : List Char) : List Char := s.dropWhile (fun c => c = ' ')

def natDigitsAux : Nat → Nat → List Char
  | 0, _ => []
  | fuel + 1, n =>
    if n = 0 then []
    else natDigitsAux fuel (n / 10) ++ [Char.ofNat (48 + n % 10)]

def printNat (n : Nat) : List Char :=
  if n = 0 then ['0'] else natDigitsAux (n + 1) n

def printInt (v : Int) : List Char :=
  if v < 0 then '-' :: printNat v.natAbs else printNat v.toNat

def digitsVal (acc : Nat) : List Char → Nat
  | [] => acc
  | c :: cs => digitsVal (acc * 10 + (c.toNat - 48)) cs

def parseNatTok (s : List Char) : KResult (Nat × List Char) :=
  if (s.takeWhile isDigitChar).isEmpty then
    .err (.typeParseError "expected integer")
  else .ok (digitsVal 0 (s.takeWhile isDigitChar), s.dropWhile isDigitChar)

def parseIntTok (s : List Char) : KResult (Int × List Char) :=
  match s with
  | [] => .err (.typeParseError "expected integer")
  | c :: cs =>
    if c = '-' then
      match parseNatTok cs with
      | .err e => .err e
      | .ok (n, rest) => .ok (-(n : Int), rest)
    else
      match parseNatTok (c :: cs) with
      | .err e => .err e
      | .ok (n, rest) => .ok ((n : Int), rest)

def parseQuoted : List Char → KResult (List Char × List Char)
  | [] => .err (.typeParseError "unterminated string literal")
  | c :: cs =>
    if c = '\\' then
      match cs with
      | [] => .err (.typeParseError "unterminated string literal")
      | c2 :: cs2 =>
        match parseQuoted cs2 with
        | .err e => .err e
        | .ok (a, rest) => .ok (c2 :: a, rest)
    else if c = '\'' then .ok ([], cs)
    else
      match parseQuoted cs with
      | .err e => .err e
      | .ok (a, rest) => .ok (c :: a, rest)

def escapeChars : List Char → List Char
  | [] => []
  | c :: cs =>
    if c = '\'' ∨ c = '\\' then '\\' :: c :: escapeChars cs
    else c :: escapeChars cs

def printEntry (e : String × Int) : List Char :=
  '\'' :: (escapeChars e.1.data ++ ('\'' :: ' ' :: '=' :: ' ' :: printInt e.2))

def printEntries : List (String × Int) → List Char
  | [] => []
  | [e] => printEntry e
  | e :: e2 :: es => printEntry e ++ (',' :: ' ' :: printEntries (e2 :: es))

mutual

/-- Modelled from the spec §4.3: the canonical textual form of a type. -/
def printType : CHType → List Char
  | .int8 => "Int8".data
  | .int16 => "Int16".data
  | .int32 => "Int32".data
  | .int64 => "Int64".data
  | .int128 => "Int128".data
  | .int256 => "Int256".data
  | .uint8 => "UInt8".data
  | .uint16 => "UInt16".data
  | .uint32 => "UInt32".data
  | .uint64 => "UInt64".data
  | .uint128 => "UInt128".data
  | .uint256 => "UInt256".data
  | .float32 => "Float32".data
  | .float64 => "Float64".data
  | .decimal32 s => "Decimal32".data ++ ('(' :: (printNat s ++ [')']))
  | .decimal64 s => "Decimal64".data ++ ('(' :: (printNat s ++ [')']))
  | .decimal128 s => "Decimal128".data ++ ('(' :: (printNat s ++ [')']))
  | .decimal256 s => "Decimal256".data ++ ('(' :: (printNat s ++ [')']))
  | .string => "String".data
  | .fixedString n => "FixedString".data ++ ('(' :: (printNat n ++ [')']))
  | .uuid => "UUID".data
  | .date => "Date".data
  | .dateTime tz =>
    "DateTime".data ++ ('(' :: ('\'' :: (escapeChars tz.data ++ ('\'' :: [')']))))
  | .dateTime64 p tz =>
    "DateTime64".data ++ ('(' :: (printNat p ++ (',' :: ' ' ::
      ('\'' :: (escapeChars tz.data ++ ('\'' :: [')']))))))
  | .enum8 es => "Enum8".data ++ ('(' :: (printEntries es ++ [')']))
  | .enum16 es => "Enum16".data ++ ('(' :: (printEntries es ++ [')']))
  | .lowCardinality t => "LowCardinality".data ++ ('(' :: (printType t ++ [')']))
  | .array t => "Array".data ++ ('(' :: (printType t ++ [')']))
  | .tuple fs => "Tuple".data ++ ('(' :: (printTypeList fs ++ [')']))
  | .nullable t => "Nullable".data ++ ('(' :: (printType t ++ [')']))
  | .map k v =>
    "Map".data ++ ('(' :: (printType k ++ (',' :: ' ' :: (printType v ++ [')']))))
  | .point => "Point".data
  | .ring => "Ring".data
  | .polygon => "Polygon".data
  | .multiPolygon => "MultiPolygon".data

def printTypeList : List CHType → List Char
  | [] => []
  | [t] => printType t
  | t :: t2 :: ts => printType t ++ (',' :: ' ' :: printTypeList (t2 :: ts))

end

/-- Argument of a parsed type expression. -/
inductive TypeArg where
  | intv (v : Int)
  | strv (s : List Char)
  | entry (name : List Char) (v : Int)
  | sub (t : CHType)

def distinctBy {α β : Type} [DecidableEq β] (f : α → β) : List α → Bool
  | [] => true
  | x :: xs => xs.all (fun y => decide (f x ≠ f y)) && distinctBy f xs

/-- The spec §4.3 enum validity rules: every code in range, no duplicate
names, no duplicate codes. -/
def enumEntriesOk (lo hi : Int) (es : List (String × Int)) : Bool :=
  es.all (fun e => decide (lo ≤ e.2 ∧ e.2 < hi)) &&
    distinctBy Prod.fst es && distinctBy Prod.snd es

def entriesOfArgs : List TypeArg → KResult (List (String × Int))
  | [] => .ok []
  | .entry name v :: rest =>
    match entriesOfArgs rest with
    | .err e => .err e
    | .ok es => .ok ((String.mk name, v) :: es)
  | _ => .err (.typeParseError "expected enum entry")

def subsOfArgs : List TypeArg → KResult (List CHType)
  | [] => .ok []
  | .sub t :: rest =>
    match subsOfArgs rest with
    | .err e => .err e
    | .ok ts => .ok (t :: ts)
  | _ => .err (.typeParseError "expected type argument")

/-- Assemble a parsed `identifier ( args )` into a type, applying the enum
validity rules and the Decimal precision buckets. -/
def assembleType (ident : List Char) (args : List TypeArg) : KResult CHType :=
  if ident = "Int8".data then
    match args with
    | [] => .ok .int8
    | _ => .err (.typeParseError "unexpected arguments")
  else if ident = "Int16".data then
    match args with
    | [] => .ok .int16
    | _ => .err (.typeParseError "unexpected arguments")
  else if ident = "Int32".data then
    match args with
    | [] => .ok .int32
    | _ => .err (.typeParseError "unexpected arguments")
  else if ident = "Int64".data then
    match args with
    | [] => .ok .int64
    | _ => .err (.typeParseError "unexpected arguments")
  else if ident = "Int128".data then
    match args with
    | [] => .ok .int128
    | _ => .err (.typeParseError "unexpected arguments")
  else if ident = "Int256".data then
    match args with
    | [] => .ok .int256
    | _ => .err (.typeParseError "unexpected arguments")
  else if ident = "UInt8".data then
    match args with
    | [] => .ok .uint8
    | _ => .err (.typeParseError "unexpected arguments")
  else if ident = "UInt16".data then
    match args with
    | [] => .ok .uint16
    | _ => .err (.typeParseError "unexpected arguments")
  else if ident = "UInt32".data then
    match args with
    | [] => .ok .uint32
    | _ => .err (.typeParseError "unexpected arguments")
  else if ident = "UInt64".data then
    match args with
    | [] => .ok .uint64
    | _ => .err (.typeParseError "unexpected arguments")
  else if ident = "UInt128".data then
    match args with
    | [] => .ok .uint128
    | _ => .err (.typeParseError "unexpected arguments")
  else if ident = "UInt256".data then
    match args with
    | [] => .ok .uint256
    | _ => .err (.typeParseError "unexpected arguments")
  else if ident = "Float32".data then
    match args with
    | [] => .ok .float32
    | _ => .err (.typeParseError "unexpected arguments")
  else if ident = "Float64".data then
    match args with
    | [] => .ok .float64
    | _ => .err (.typeParseError "unexpected arguments")
  else if ident = "String".data then
    match args with
    | [] => .ok .string
    | _ => .err (.typeParseError "unexpected arguments")
  else if ident = "UUID".data then
    match args with
    | [] => .ok .uuid
    | _ => .err (.typeParseError "unexpected arguments")
  else if ident = "Date".data then
    match args with
    | [] => .ok .date
    | _ => .err (.typeParseError "unexpected arguments")
  else if ident = "Point".data then
    match args with
    | [] => .ok .point
    | _ => .err (.typeParseError "unexpected arguments")
  else if ident = "Ring".data then
    match args with
    | [] => .ok .ring
    | _ => .err (.typeParseError "unexpected arguments")
  else if ident = "Polygon".data then
    match args with
    | [] => .ok .polygon
    | _ => .err (.typeParseError "unexpected arguments")
  else if ident = "MultiPolygon".data then
    match args with
    | [] => .ok .multiPolygon
    | _ => .err (.typeParseError "unexpected arguments")
  else if ident = "Decimal32".data then
    match args with
    | [.intv v] =>
      if 0 ≤ v then .ok (.decimal32 v.toNat)
      else .err (.typeParseError "negative scale")
    | _ => .err (.typeParseError "expected scale")
  else if ident = "Decimal64".data then
    match args with
    | [.intv v] =>
      if 0 ≤ v then .ok (.decimal64 v.toNat)
      else .err (.typeParseError "negative scale")
    | _ => .err (.typeParseError "expected scale")
  else if ident = "Decimal128".data then
    match args with
    | [.intv v] =>
      if 0 ≤ v then .ok (.decimal128 v.toNat)
      else .err (.typeParseError "negative scale")
    | _ => .err (.typeParseError "expected scale")
  else if ident = "Decimal256".data then
    match args with
    | [.intv v] =>
      if 0 ≤ v then .ok (.decimal256 v.toNat)
      else .err (.typeParseError "negative scale")
    | _ => .err (.typeParseError "expected scale")
  else if ident = "Decimal".data then
    match args with
    | [.intv p, .intv sc] =>
      if 0 ≤ p ∧ 0 ≤ sc then
        if p ≤ 9 then .ok (.decimal32 sc.toNat)
        else if p ≤ 18 then .ok (.decimal64 sc.toNat)
        else if p ≤ 38 then .ok (.decimal128 sc.toNat)
        else if p ≤ 76 then .ok (.decimal256 sc.toNat)
        else .err (.typeParseError "precision too large")
      else .err (.typeParseError "negative precision or scale")
    | _ => .err (.typeParseError "expected precision and scale")
  else if ident = "FixedString".data then
    match args with
    | [.intv v] =>
      if 0 ≤ v then .ok (.fixedString v.toNat)
      else .err (.typeParseError "negative length")
    | _ => .err (.typeParseError "expected length")
  else if ident = "DateTime".data then
    match args with
    | [.strv tz] => .ok (.dateTime (String.mk tz))
    | _ => .err (.typeParseError "expected timezone")
  else if ident = "DateTime64".data then
    match args with
    | [.intv p, .strv tz] =>
      if 0 ≤ p then .ok (.dateTime64 p.toNat (String.mk tz))
      else .err (.typeParseError "negative precision")
    | _ => .err (.typeParseError "expected precision and timezone")
  else if ident = "Enum8".data then
    match entriesOfArgs args with
    | .err e => .err e
    | .ok es =>
      if enumEntriesOk (-128) 128 es then .ok (.enum8 es)
      else .err (.typeParseError "invalid enum entries")
  else if ident = "Enum16".data then
    match entriesOfArgs args with
    | .err e => .err e
    | .ok es =>
      if enumEntriesOk (-32768) 32768 es then .ok (.enum16 es)
      else .err (.typeParseError "invalid enum entries")
  else if ident = "LowCardinality".data then
    match args with
    | [.sub t] => .ok (.lowCardinality t)
    | _ => .err (.typeParseError "expected inner type")
  else if ident = "Array".data then
    match args with
    | [.sub t] => .ok (.array t)
    | _ => .err (.typeParseError "expected inner type")
  else if ident = "Nullable".data then
    match args with
    | [.sub t] => .ok (.nullable t)
    | _ => .err (.typeParseError "expected inner type")
  else if ident = "Map".data then
    match args with
    | [.sub k, .sub v] => .ok (.map k v)
    | _ => .err (.typeParseError "expected key and value types")
  else if ident = "Tuple".data then
    match subsOfArgs args with
    | .err e => .err e
    | .ok ts => .ok (.tuple ts)
  else .err (.typeParseError "unknown type name")

mutual

/-- Modelled from the spec §4.3: recursive descent over
`identifier ( argument-list )?` with explicit fuel. -/
def parseType : Nat → List Char → KResult (CHType × List Char)
  | 0, _ => .err (.typeParseError "type nesting too deep")
  | fuel + 1, s =>
    if (s.takeWhile isIdentChar).isEmpty then
      .err (.typeParseError "expected type name")
    else
      match s.dropWhile isIdentChar with
      | [] =>
        match assembleType (s.takeWhile isIdentChar) [] with
        | .err e => .err e
        | .ok t => .ok (t, [])
      | c :: cs =>
        if c = '(' then
          match parseArgs fuel (skipSpaces cs) with
          | .err e => .err e
          | .ok (args, s3) =>
            match assembleType (s.takeWhile isIdentChar) args with
            | .err e => .err e
            | .ok t => .ok (t, s3)
        else
          match assembleType (s.takeWhile isIdentChar) [] with
          | .err e => .err e
          | .ok t => .ok (t, c :: cs)

def parseArgs : Nat → List Char → KResult (List TypeArg × List Char)
  | 0, _ => .err (.typeParseError "type nesting too deep")
  | fuel + 1, s =>
    match s with
    | [] => .err (.typeParseError "expected argument or closing parenthesis")
    | c :: cs =>
      if c = ')' then .ok ([], cs)
      else
        match parseArg fuel (c :: cs) with
        | .err e => .err e
        | .ok (a, s2) =>
          match skipSpaces s2 with
          | [] => .err (.typeParseError "expected comma or closing parenthesis")
          | c2 :: cs2 =>
            if c2 = ',' then
              match parseArgs fuel (skipSpaces cs2) with
              | .err e => .err e
              | .ok (as2, s3) => .ok (a :: as2, s3)
            else if c2 = ')' then .ok ([a], cs2)
            else .err (.typeParseError "expected comma or closing parenthesis")

def parseArg : Nat → List Char → KResult (TypeArg × List Char)
  | 0, _ => .err (.typeParseError "type nesting too deep")
  | fuel + 1, s =>
    match s with
    | [] => .err (.typeParseError "expected argument")
    | c :: cs =>
      if c = '\'' then
        match parseQuoted cs with
        | .err e => .err e
        | .ok (name, s3) =>
          match skipSpaces s3 with
          | [] => .ok (.strv name, s3)
          | c2 :: cs2 =>
            if c2 = '=' then
              match parseIntTok (skipSpaces cs2) with
              | .err e => .err e
              | .ok (v, s5) => .ok (.entry name v, s5)
            else .ok (.strv name, s3)
      else if c = '-' ∨ isDigitChar c = true then
        match parseIntTok (c :: cs) with
        | .err e => .err e
        | .ok (v, s2) => .ok (.intv v, s2)
      else
        match parseType fuel (c :: cs) with
        | .err e => .err e
        | .ok (t, s2) => .ok (.sub t, s2)

end

/-- Parse a complete type expression (fuel = input length + 1, shown
sufficient for every printed type by the round-trip theorem); trailing
characters are a parse error, mirroring `FromStr`. -/
def parseCHType (s : List Char) : KResult CHType :=
  match parseType (s.length + 1) s with
  | .err e => .err e
  | .ok (t, rest) =>
    if rest.isEmpty then .ok t
    else .err (.typeParseError "trailing characters after type")

mutual

/-- Fuel needed by `parseType` on the printed form of a type. -/
def pfuel : CHType → Nat
  | .decimal32 _ => 3
  | .decimal64 _ => 3
  | .decimal128 _ => 3
  | .decimal256 _ => 3
  | .fixedString _ => 3
  | .dateTime _ => 3
  | .dateTime64 _ _ => 4
  | .enum8 es => es.length + 3
  | .enum16 es => es.length + 3
  | .lowCardinality t => pfuel t + 3
  | .array t => pfuel t + 3
  | .nullable t => pfuel t + 3
  | .map k v => pfuel k + pfuel v + 4
  | .tuple fs => pfuelList fs + 2
  | _ => 1

def pfuelList : List CHType → Nat
  | [] => 1
  | f :: fs => pfuel f + pfuelList fs + 2

end

mutual

/-- Well-formedness of the enum entry lists inside a type (the spec §4.3
rules); all other type text always round-trips. -/
def typeTextOk : CHType → Bool
  | .enum8 es => enumEntriesOk (-128) 128 es
  | .enum16 es => enumEntriesOk (-32768) 32768 es
  | .lowCardinality t => typeTextOk t
  | .array t => typeTextOk t
  | .nullable t => typeTextOk t
  | .map k v => typeTextOk k && typeTextOk v
  | .tuple fs => typeTextOkList fs
  | _ => true

def typeTextOkList : List CHType → Bool
  | [] => true
  | f :: fs => typeTextOk f && typeTextOkList fs

end

/-- True when the unconsumed suffix begins with a grammar stop character
(or is empty), so greedy tokens cannot run into it. -/
def restStop : List Char → Bool
  | [] => true
  | c :: _ => decide (c = ')' ∨ c = ',')

/-- The head of the suffix (if any) fails the scan predicate. -/
def headFails (p : Char → Bool) : List Char → Prop
  | [] => True
  | c :: _ => p c = false

theorem takeWhile_append_stop {p : Char → Bool} :
    ∀ (pre rest : List Char), (∀ c ∈ pre, p c = true) → headFails p rest →
      (pre ++ rest).takeWhile p = pre ∧ (pre ++ rest).dropWhile p = rest := by
  intro pre
  induction pre with
  | nil =>
    intro rest _ hrest
    cases rest with
    | nil => exact ⟨rfl, rfl⟩
    | cons c cs =>
      have hc : p c = false := hrest
      constructor
      · simp [List.takeWhile_cons, hc]
      · simp [List.dropWhile_cons, hc]
  | cons x xs ih =>
    intro rest hpre hrest
    have hx : p x = true := hpre x (by simp)
    obtain ⟨h1, h2⟩ := ih rest (fun c hc => hpre c (by simp [hc])) hrest
    constructor
    · simp [List.takeWhile_cons, hx, h1]
    · simp [List.dropWhile_cons, hx, h2]

theorem restStop_ident {rest : List Char} (h : restStop rest = true) :
    headFails isIdentChar rest := by
  cases rest with
  | nil => trivial
  | cons c cs =>
    simp only [restStop, decide_eq_true_eq] at h
    rcases h with rfl | rfl
    · exact (by decide : isIdentChar ')' = false)
    · exact (by decide : isIdentChar ',' = false)

theorem restStop_digit {rest : List Char} (h : restStop rest = true) :
    headFails isDigitChar rest := by
  cases rest with
  | nil => trivial
  | cons c cs =>
    simp only [restStop, decide_eq_true_eq] at h
    rcases h with rfl | rfl
    · exact (by decide : isDigitChar ')' = false)
    · exact (by decide : isDigitChar ',' = false)

theorem skipSpaces_cons_of {c : Char} (cs : List Char) (h : ¬ c = ' ') :
    skipSpaces (c :: cs) = c :: cs := by
  simp [skipSpaces, List.dropWhile_cons, h]

theorem skipSpaces_space (cs : List Char) :
    skipSpaces (' ' :: cs) = skipSpaces cs := by
  simp [skipSpaces, List.dropWhile_cons]

theorem restStop_skipSpaces {rest : List Char} (h : restStop rest = true) :
    skipSpaces rest = rest := by
  cases rest with
  | nil => rfl
  | cons c cs =>
    simp only [restStop, decide_eq_true_eq] at h
    rcases h with rfl | rfl <;> rfl

theorem digit_char_toNat {d : Nat} (h : d < 10) :
    (Char.ofNat (48 + d)).toNat = 48 + d := by
  interval_cases d <;> decide

theorem digit_char_isDigit {d : Nat} (h : d < 10) :
    isDigitChar (Char.ofNat (48 + d)) = true := by
  interval_cases d <;> decide

theorem natDigitsAux_all_digits :
    ∀ fuel n, ∀ c ∈ natDigitsAux fuel n, isDigitChar c = true := by
  intro fuel
  induction fuel with
  | zero => intro n c hc; simp [natDigitsAux] at hc
  | succ fuel ih =>
    intro n c hc
    by_cases h0 : n = 0
    · simp [natDigitsAux, h0] at hc
    · simp only [natDigitsAux, if_neg h0, List.mem_append,
        List.mem_singleton] at hc
      rcases hc with hc | rfl
      · exact ih _ c hc
      · exact digit_char_isDigit (Nat.mod_lt _ (by omega))

theorem printNat_all_digits (n : Nat) : ∀ c ∈ printNat n, isDigitChar c = true := by
  intro c hc
  by_cases h0 : n = 0
  · simp [printNat, h0] at hc
    subst hc
    decide
  · simp only [printNat, if_neg h0] at hc
    exact natDigitsAux_all_digits _ _ c hc

theorem printNat_ne_nil (n : Nat) : printNat n ≠ [] := by
  by_cases h0 : n = 0
  · simp [printNat, h0]
  · simp only [printNat, if_neg h0]
    cases hf : natDigitsAux (n + 1) n with
    | nil =>
      exfalso
      have : n ≤ n + 1 := by omega
      simp only [natDigitsAux, if_neg h0] at hf
      exact absurd hf (by simp)
    | cons c cs => simp

theorem digitsVal_append (xs ys : List Char) :
    ∀ acc, digitsVal acc (xs ++ ys) = digitsVal (digitsVal acc xs) ys := by
  induction xs with
  | nil => intro acc; rfl
  | cons x xs ih =>
    intro acc
    simp only [List.cons_append]
    show digitsVal (acc * 10 + (x.toNat - 48)) (xs ++ ys)
      = digitsVal (digitsVal (acc * 10 + (x.toNat - 48)) xs) ys
    exact ih _

theorem digitsVal_natDigitsAux :
    ∀ fuel n acc, n ≤ fuel →
      digitsVal acc (natDigitsAux fuel n)
        = acc * 10 ^ (natDigitsAux fuel n).length + n := by
  intro fuel
  induction fuel with
  | zero =>
    intro n acc h
    have : n = 0 := by omega
    subst this
    show acc = acc * 10 ^ (0 : Nat) + 0
    simp
  | succ fuel ih =>
    intro n acc h
    by_cases h0 : n = 0
    · subst h0
      show acc = acc * 10 ^ (0 : Nat) + 0
      simp
    · have hdiv : n / 10 ≤ fuel := by
        have := Nat.div_lt_self (Nat.pos_of_ne_zero h0) (by norm_num : 1 < 10)
        omega
      have hmod : n % 10 < 10 := Nat.mod_lt _ (by omega)
      have hct := digit_char_toNat hmod
      simp only [natDigitsAux, if_neg h0]
      generalize hgc : Char.ofNat (48 + n % 10) = dch
      rw [hgc] at hct
      rw [digitsVal_append, ih _ acc hdiv]
      simp only [List.length_append, List.length_singleton]
      show (acc * 10 ^ (natDigitsAux fuel (n / 10)).length + n / 10) * 10
          + (dch.toNat - 48)
        = acc * 10 ^ ((natDigitsAux fuel (n / 10)).length + 1) + n
      rw [hct]
      have h48 : 48 + n % 10 - 48 = n % 10 := by omega
      rw [h48]
      calc (acc * 10 ^ (natDigitsAux fuel (n / 10)).length + n / 10) * 10 + n % 10
          = acc * (10 ^ (natDigitsAux fuel (n / 10)).length * 10)
            + (10 * (n / 10) + n % 10) := by ring
        _ = acc * 10 ^ ((natDigitsAux fuel (n / 10)).length + 1) + n := by
            rw [Nat.div_add_mod, pow_succ]

theorem digitsVal_printNat (n : Nat) : digitsVal 0 (printNat n) = n := by
  by_cases h0 : n = 0
  · subst h0
    rfl
  · have h := digitsVal_natDigitsAux (n + 1) n 0 (by omega)
    simp only [printNat, if_neg h0, h, Nat.zero_mul, Nat.zero_add]

theorem parseNatTok_printNat (n : Nat) (rest : List Char)
    (hrest : headFails isDigitChar rest) :
    parseNatTok (printNat n ++ rest) = .ok (n, rest) := by
  obtain ⟨ht, hd⟩ := takeWhile_append_stop (printNat n) rest
    (printNat_all_digits n) hrest
  have hne : (printNat n).isEmpty = false := by
    cases hp : printNat n with
    | nil => exact absurd hp (printNat_ne_nil n)
    | cons c cs => rfl
  simp only [parseNatTok, ht, hd, hne, Bool.false_eq_true, if_false,
    digitsVal_printNat]

theorem printNat_head_digit (n : Nat) :
    ∃ c cs, printNat n = c :: cs ∧ isDigitChar c = true := by
  cases hp : printNat n with
  | nil => exact absurd hp (printNat_ne_nil n)
  | cons c cs =>
    exact ⟨c, cs, rfl, printNat_all_digits n c (by rw [hp]; simp)⟩

theorem parseIntTok_printInt (v : Int) (rest : List Char)
    (hrest : headFails isDigitChar rest) :
    parseIntTok (printInt v ++ rest) = .ok (v, rest) := by
  by_cases hneg : v < 0
  · simp only [printInt, if_pos hneg, List.cons_append, parseIntTok, if_true]
    simp only [parseNatTok_printNat _ _ hrest]
    have h2 : -((v.natAbs : Nat) : Int) = v := by omega
    rw [h2]
  · obtain ⟨c, cs, hpn, hdig⟩ := printNat_head_digit v.toNat
    simp only [printInt, if_neg hneg, hpn, List.cons_append, parseIntTok]
    have hcne : ¬ c = '-' := by
      intro hcc
      subst hcc
      exact absurd hdig (by decide)
    rw [if_neg hcne, ← List.cons_append, ← hpn]
    simp only [parseNatTok_printNat _ _ hrest]
    have h2 : ((v.toNat : Nat) : Int) = v := by omega
    rw [h2]

theorem parseQuoted_escape (cs : List Char) :
    ∀ rest, parseQuoted (escapeChars cs ++ ('\'' :: rest)) = .ok (cs, rest) := by
  induction cs with
  | nil =>
    intro rest
    show parseQuoted ('\'' :: rest) = .ok ([], rest)
    rw [parseQuoted.eq_def]
    simp only []
    rw [if_neg (by decide : ¬ ('\'' = '\\')), if_pos trivial]
  | cons c cs ih =>
    intro rest
    by_cases hc : c = '\'' ∨ c = '\\'
    · simp only [escapeChars, if_pos hc, List.cons_append, parseQuoted, if_true]
      simp only [ih rest]
    · simp only [escapeChars, if_neg hc, List.cons_append]
      push_neg at hc
      rw [parseQuoted.eq_def]
      simp only []
      rw [if_neg hc.2, if_neg hc.1]
      simp only [ih rest]

theorem printInt_head (v : Int) :
    ∃ c cs, printInt v = c :: cs ∧ (c = '-' ∨ isDigitChar c = true) := by
  by_cases hneg : v < 0
  · exact ⟨'-', printNat v.natAbs, by simp [printInt, hneg], Or.inl rfl⟩
  · obtain ⟨c, cs, h1, h2⟩ := printNat_head_digit v.toNat
    exact ⟨c, cs, by simp [printInt, hneg, h1], Or.inr h2⟩

theorem skipSpaces_printInt (v : Int) (X : List Char) :
    skipSpaces (printInt v ++ X) = printInt v ++ X := by
  obtain ⟨c, cs, h1, h2⟩ := printInt_head v
  rw [h1, List.cons_append, skipSpaces_cons_of]
  rcases h2 with rfl | h2
  · decide
  · simp only [isDigitChar, Bool.and_eq_true, decide_eq_true_eq] at h2
    intro hsp
    rw [hsp] at h2
    exact absurd h2 (by decide)

theorem printType_head (t : CHType) :
    ∃ c cs, printType t = c :: cs ∧ 65 ≤ c.toNat ∧ c.toNat ≤ 90 := by
  cases t <;> exact ⟨_, _, rfl, by decide, by decide⟩

theorem parseArg_upper (fuel : Nat) (s out : List Char) (t : CHType)
    (hhead : ∃ c cs, s = c :: cs ∧ 65 ≤ c.toNat ∧ c.toNat ≤ 90)
    (hpt : parseType fuel s = .ok (t, out)) :
    parseArg (fuel + 1) s = .ok (.sub t, out) := by
  obtain ⟨c, cs, rfl, h1, h2⟩ := hhead
  rw [parseArg.eq_def]
  simp only []
  have hq : ¬ c = '\'' := by
    intro h
    rw [h] at h1
    exact absurd h1 (by decide)
  have hm : ¬ (c = '-' ∨ isDigitChar c = true) := by
    rintro (h | h)
    · rw [h] at h1
      exact absurd h1 (by decide)
    · simp only [isDigitChar, Bool.and_eq_true, decide_eq_true_eq] at h
      omega
  rw [if_neg hq, if_neg hm, hpt]

theorem printEntry_parseArg (e : String × Int) (fuel : Nat) (rest : List Char)
    (hrest : restStop rest = true) :
    parseArg (fuel + 1) (printEntry e ++ rest)
      = .ok (.entry e.1.data e.2, rest) := by
  have hstream : printEntry e ++ rest
      = '\'' :: (escapeChars e.1.data ++ ('\'' :: (' ' :: '=' :: ' ' ::
        (printInt e.2 ++ rest)))) := by
    simp [printEntry]
  rw [hstream, parseArg.eq_def]
  simp only []
  rw [if_pos trivial, parseQuoted_escape]
  simp only []
  rw [skipSpaces_space, skipSpaces_cons_of _ (by decide)]
  simp only []
  rw [if_pos trivial]
  rw [skipSpaces_space, skipSpaces_printInt]
  rw [parseIntTok_printInt _ _ (restStop_digit hrest)]

theorem mk_data (s : String) : String.mk s.data = s := rfl

theorem entriesOfArgs_map (es : List (String × Int)) :
    entriesOfArgs (es.map (fun e => TypeArg.entry e.1.data e.2)) = .ok es := by
  induction es with
  | nil => rfl
  | cons e es ih =>
    simp only [List.map_cons, entriesOfArgs, ih, mk_data]

theorem subsOfArgs_map (ts : List CHType) :
    subsOfArgs (ts.map TypeArg.sub) = .ok ts := by
  induction ts with
  | nil => rfl
  | cons t ts ih =>
    simp only [List.map_cons, subsOfArgs, ih]

theorem parseArgs_last_step (fuel : Nat) (s rest : List Char) (a : TypeArg)
    (hne : ∃ c cs, s = c :: cs ∧ ¬ c = ')')
    (harg : parseArg fuel s = .ok (a, ')' :: rest)) :
    parseArgs (fuel + 1) s = .ok ([a], rest) := by
  obtain ⟨c, cs, rfl, hc⟩ := hne
  rw [parseArgs.eq_def]
  simp only []
  rw [if_neg hc, harg]
  simp only []
  rw [skipSpaces_cons_of _ (by decide)]
  simp only []
  rw [if_neg (by decide : ¬ (')' = ',')), if_pos trivial]

theorem parseArgs_cons_step (fuel : Nat) (s rest2 rest3 : List Char)
    (a : TypeArg) (as2 : List TypeArg)
    (hne : ∃ c cs, s = c :: cs ∧ ¬ c = ')')
    (harg : parseArg fuel s = .ok (a, ',' :: ' ' :: rest2))
    (hsk : skipSpaces rest2 = rest2)
    (hnext : parseArgs fuel rest2 = .ok (as2, rest3)) :
    parseArgs (fuel + 1) s = .ok (a :: as2, rest3) := by
  obtain ⟨c, cs, rfl, hc⟩ := hne
  rw [parseArgs.eq_def]
  simp only []
  rw [if_neg hc, harg]
  simp only []
  rw [skipSpaces_cons_of _ (by decide)]
  simp only []
  rw [if_pos trivial, skipSpaces_space, hsk, hnext]

theorem parseArgs_close (fuel : Nat) (rest : List Char) :
    parseArgs (fuel + 1) (')' :: rest) = .ok ([], rest) := by
  rw [parseArgs.eq_def]
  simp only []
  rw [if_pos trivial]

theorem printEntries_cons_head (e : String × Int) (es : List (String × Int)) :
    ∃ cs, printEntries (e :: es) = '\'' :: cs := by
  cases es with
  | nil => exact ⟨_, rfl⟩
  | cons e2 es2 => exact ⟨_, rfl⟩

theorem parseArgs_entries (es : List (String × Int)) :
    ∀ fuel rest, es.length + 1 ≤ fuel → restStop rest = true →
      parseArgs fuel (printEntries es ++ (')' :: rest))
        = .ok (es.map (fun e => TypeArg.entry e.1.data e.2), rest) := by
  induction es with
  | nil =>
    intro fuel rest hf _
    obtain ⟨f2, rfl⟩ : ∃ f2, fuel = f2 + 1 := ⟨fuel - 1, by omega⟩
    exact parseArgs_close f2 rest
  | cons e es ih =>
    intro fuel rest hf hrest
    simp only [List.length_cons] at hf
    obtain ⟨f2, rfl⟩ : ∃ f2, fuel = f2 + 1 := ⟨fuel - 1, by omega⟩
    obtain ⟨f3, rfl⟩ : ∃ f3, f2 = f3 + 1 := ⟨f2 - 1, by omega⟩
    rw [List.map_cons]
    cases es with
    | nil =>
      apply parseArgs_last_step
      · exact ⟨'\'', _, rfl, by decide⟩
      · exact printEntry_parseArg e f3 (')' :: rest) (by simp [restStop])
    | cons e2 es2 =>
      have hstream : printEntries (e :: e2 :: es2) ++ (')' :: rest)
          = printEntry e ++ (',' :: ' ' ::
            (printEntries (e2 :: es2) ++ (')' :: rest))) := by
        simp [printEntries]
      rw [hstream]
      apply parseArgs_cons_step
      · exact ⟨'\'', _, rfl, by decide⟩
      · exact printEntry_parseArg e f3 _ (by simp [restStop])
      · obtain ⟨cs0, hcs0⟩ := printEntries_cons_head e2 es2
        rw [hcs0, List.cons_append]
        exact skipSpaces_cons_of _ (by decide)
      · exact ih (f3 + 1) rest
          (by simp only [List.length_cons] at hf ⊢; omega) hrest

theorem parseArg_natTok (n : Nat) (fuel : Nat) (X : List Char)
    (hX : headFails isDigitChar X) :
    parseArg (fuel + 1) (printNat n ++ X) = .ok (.intv (n : Int), X) := by
  obtain ⟨c, cs, h1, h2⟩ := printNat_head_digit n
  rw [h1, List.cons_append, parseArg.eq_def]
  simp only []
  have hq : ¬ c = '\'' := by
    intro h
    rw [h] at h2
    exact absurd h2 (by decide)
  rw [if_neg hq, if_pos (Or.inr h2), ← List.cons_append, ← h1]
  have hpi : printInt ((n : Nat) : Int) = printNat n := by
    simp [printInt]
  rw [← hpi, parseIntTok_printInt _ _ hX]

theorem parseArgs_single_int (n : Nat) (fuel : Nat) (rest : List Char) :
    parseArgs (fuel + 2) (printNat n ++ (')' :: rest))
      = .ok ([.intv (n : Int)], rest) := by
  apply parseArgs_last_step
  · obtain ⟨c, cs, h1, h2⟩ := printNat_head_digit n
    refine ⟨c, cs ++ (')' :: rest), by rw [h1]; rfl, ?_⟩
    intro hcc
    rw [hcc] at h2
    exact absurd h2 (by decide)
  · exact parseArg_natTok n fuel (')' :: rest)
      (by exact (by decide : isDigitChar ')' = false))

theorem parseArgs_single_str (sd : List Char) (fuel : Nat) (rest : List Char) :
    parseArgs (fuel + 2)
      ('\'' :: (escapeChars sd ++ ('\'' :: (')' :: rest))))
      = .ok ([.strv sd], rest) := by
  apply parseArgs_last_step
  · exact ⟨'\'', _, rfl, by decide⟩
  · rw [parseArg.eq_def]
    simp only []
    rw [if_pos trivial, parseQuoted_escape]
    simp only []
    rw [skipSpaces_cons_of _ (by decide)]
    simp only []
    rw [if_neg (by decide : ¬ (')' = '='))]

theorem parseArgs_int_str (p : Nat) (sd : List Char) (fuel : Nat)
    (rest : List Char) :
    parseArgs (fuel + 3)
      (printNat p ++ (',' :: ' ' ::
        ('\'' :: (escapeChars sd ++ ('\'' :: (')' :: rest))))))
      = .ok ([.intv (p : Int), .strv sd], rest) := by
  apply parseArgs_cons_step
  · obtain ⟨c, cs, h1, h2⟩ := printNat_head_digit p
    refine ⟨c, cs ++ _, by rw [h1]; rfl, ?_⟩
    intro hcc
    rw [hcc] at h2
    exact absurd h2 (by decide)
  · exact parseArg_natTok p (fuel + 1)
      (',' :: ' ' :: ('\'' :: (escapeChars sd ++ ('\'' :: (')' :: rest)))))
      (by exact (by decide : isDigitChar ',' = false))
  · exact skipSpaces_cons_of _ (by decide)
  · exact parseArgs_single_str sd fuel rest

theorem skipSpaces_printNat (n : Nat) (X : List Char) :
    skipSpaces (printNat n ++ X) = printNat n ++ X := by
  obtain ⟨c, cs, h1, h2⟩ := printNat_head_digit n
  rw [h1, List.cons_append, skipSpaces_cons_of]
  intro hsp
  rw [hsp] at h2
  exact absurd h2 (by decide)

theorem skipSpaces_printType (t : CHType) (X : List Char) :
    skipSpaces (printType t ++ X) = printType t ++ X := by
  obtain ⟨c, cs, h1, h2, h3⟩ := printType_head t
  rw [h1, List.cons_append, skipSpaces_cons_of]
  intro hsp
  rw [hsp] at h2
  exact absurd h2 (by decide)

/-- Round-trip property of the type-text grammar for one type: its
printed form parses back to it, given enough fuel, leaving the stop
suffix untouched. -/
def ParseRT (t : CHType) : Prop :=
  ∀ fuel rest, pfuel t ≤ fuel → typeTextOk t = true → restStop rest = true →
    parseType fuel (printType t ++ rest) = .ok (t, rest)

/-- Round-trip property of a printed tuple argument list. -/
def ParseRTList (fs : List CHType) : Prop :=
  ∀ fuel rest, pfuelList fs ≤ fuel → typeTextOkList fs = true →
    restStop rest = true →
    parseArgs fuel (printTypeList fs ++ (')' :: rest))
      = .ok (fs.map TypeArg.sub, rest)

theorem parseRT_int8 : ParseRT CHType.int8 := by
  intro fuel rest hfuel hok hrest
  simp only [pfuel] at hfuel
  obtain ⟨f2, rfl⟩ : ∃ f2, fuel = f2 + 1 := ⟨fuel - 1, by omega⟩
  obtain ⟨ht, hd⟩ := takeWhile_append_stop "Int8".data rest (by decide)
    (restStop_ident hrest)
  simp only [printType]
  rw [parseType.eq_def]
  simp only []
  rw [ht, hd, if_neg (by decide : ¬ (("Int8".data : List Char).isEmpty = true))]
  cases rest with
  | nil => rfl
  | cons c cs =>
    simp only [restStop, decide_eq_true_eq] at hrest
    rcases hrest with rfl | rfl <;> rfl

theorem parseRT_decimal32 (sc : Nat) : ParseRT (CHType.decimal32 sc) := by
  intro fuel rest hfuel hok hrest
  simp only [pfuel] at hfuel
  obtain ⟨f4, rfl⟩ : ∃ f4, fuel = f4 + 2 + 1 := ⟨fuel - 3, by omega⟩
  simp only [printType]
  have hstream : ("Decimal32".data ++ ('(' :: (printNat sc ++ [')']))) ++ rest
      = "Decimal32".data ++ ('(' :: (printNat sc ++ (')' :: rest))) := by
    simp
  rw [hstream]
  obtain ⟨ht, hd⟩ := @takeWhile_append_stop isIdentChar "Decimal32".data
    ('(' :: (printNat sc ++ (')' :: rest))) (by decide)
    ((by decide : isIdentChar '(' = false))
  rw [parseType.eq_def]
  simp only []
  rw [ht, hd,
    if_neg (by decide : ¬ (("Decimal32".data : List Char).isEmpty = true))]
  simp only []
  rw [if_pos trivial, skipSpaces_printNat, parseArgs_single_int sc f4 rest]
  simp only []
  have hassem : assembleType "Decimal32".data [.intv (sc : Int)]
      = .ok (.decimal32 sc) := by
    have h0 : ((sc : Int)).toNat = sc := by omega
    show (if (0 : Int) ≤ (sc : Int) then
        KResult.ok (CHType.decimal32 ((sc : Int)).toNat)
      else .err (.typeParseError "negative scale")) = .ok (.decimal32 sc)
    rw [if_pos (by positivity), h0]
  rw [hassem]

theorem parseRT_int16 : ParseRT CHType.int16 := by
  intro fuel rest hfuel hok hrest
  simp only [pfuel] at hfuel
  obtain ⟨f2, rfl⟩ : ∃ f2, fuel = f2 + 1 := ⟨fuel - 1, by omega⟩
  obtain ⟨ht, hd⟩ := @takeWhile_append_stop isIdentChar "Int16".data rest
    (by decide) (restStop_ident hrest)
  simp only [printType]
  rw [parseType.eq_def]
  simp only []
  rw [ht, hd, if_neg (by decide : ¬ (("Int16".data : List Char).isEmpty = true))]
  cases rest with
  | nil => rfl
  | cons c cs =>
    simp only [restStop, decide_eq_true_eq] at hrest
    rcases hrest with rfl | rfl <;> rfl

theorem parseRT_int32 : ParseRT CHType.int32 := by
  intro fuel rest hfuel hok hrest
  simp only [pfuel] at hfuel
  obtain ⟨f2, rfl⟩ : ∃ f2, fuel = f2 + 1 := ⟨fuel - 1, by omega⟩
  obtain ⟨ht, hd⟩ := @takeWhile_append_stop isIdentChar "Int32".data rest
    (by decide) (restStop_ident hrest)
  simp only [printType]
  rw [parseType.eq_def]
  simp only []
  rw [ht, hd, if_neg (by decide : ¬ (("Int32".data : List Char).isEmpty = true))]
  cases rest with
  | nil => rfl
  | cons c cs =>
    simp only [restStop, decide_eq_true_eq] at hrest
    rcases hrest with rfl | rfl <;> rfl

theorem parseRT_int64 : ParseRT CHType.int64 := by
  intro fuel rest hfuel hok hrest
  simp only [pfuel] at hfuel
  obtain ⟨f2, rfl⟩ : ∃ f2, fuel = f2 + 1 := ⟨fuel - 1, by omega⟩
  obtain ⟨ht, hd⟩ := @takeWhile_append_stop isIdentChar "Int64".data rest
    (by decide) (restStop_ident hrest)
  simp only [printType]
  rw [parseType.eq_def]
  simp only []
  rw [ht, hd, if_neg (by decide : ¬ (("Int64".data : List Char).isEmpty = true))]
  cases rest with
  | nil => rfl
  | cons c cs =>
    simp only [restStop, decide_eq_true_eq] at hrest
    rcases hrest with rfl | rfl <;> rfl

theorem parseRT_int128 : ParseRT CHType.int128 := by
  intro fuel rest hfuel hok hrest
  simp only [pfuel] at hfuel
  obtain ⟨f2, rfl⟩ : ∃ f2, fuel = f2 + 1 := ⟨fuel - 1, by omega⟩
  obtain ⟨ht, hd⟩ := @takeWhile_append_stop isIdentChar "Int128".data rest
    (by decide) (restStop_ident hrest)
  simp only [printType]
  rw [parseType.eq_def]
  simp only []
  rw [ht, hd, if_neg (by decide : ¬ (("Int128".data : List Char).isEmpty = true))]
  cases rest with
  | nil => rfl
  | cons c cs =>
    simp only [restStop, decide_eq_true_eq] at hrest
    rcases hrest with rfl | rfl <;> rfl

theorem parseRT_int256 : ParseRT CHType.int256 := by
  intro fuel rest hfuel hok hrest
  simp only [pfuel] at hfuel
  obtain ⟨f2, rfl⟩ : ∃ f2, fuel = f2 + 1 := ⟨fuel - 1, by omega⟩
  obtain ⟨ht, hd⟩ := @takeWhile_append_stop isIdentChar "Int256".data rest
    (by decide) (restStop_ident hrest)
  simp only [printType]
  rw [parseType.eq_def]
  simp only []
  rw [ht, hd, if_neg (by decide : ¬ (("Int256".data : List Char).isEmpty = true))]
  cases rest with
  | nil => rfl
  | cons c cs =>
    simp only [restStop, decide_eq_true_eq] at hrest
    rcases hrest with rfl | rfl <;> rfl

theorem parseRT_uint8 : ParseRT CHType.uint8 := by
  intro fuel rest hfuel hok hrest
  simp only [pfuel] at hfuel
  obtain ⟨f2, rfl⟩ : ∃ f2, fuel = f2 + 1 := ⟨fuel - 1, by omega⟩
  obtain ⟨ht, hd⟩ := @takeWhile_append_stop isIdentChar "UInt8".data rest
    (by decide) (restStop_ident hrest)
  simp only [printType]
  rw [parseType.eq_def]
  simp only []
  rw [ht, hd, if_neg (by decide : ¬ (("UInt8".data : List Char).isEmpty = true))]
  cases rest with
  | nil => rfl
  | cons c cs =>
    simp only [restStop, decide_eq_true_eq] at hrest
    rcases hrest with rfl | rfl <;> rfl

theorem parseRT_uint16 : ParseRT CHType.uint16 := by
  intro fuel rest hfuel hok hrest
  simp only [pfuel] at hfuel
  obtain ⟨f2, rfl⟩ : ∃ f2, fuel = f2 + 1 := ⟨fuel - 1, by omega⟩
  obtain ⟨ht, hd⟩ := @takeWhile_append_stop isIdentChar "UInt16".data rest
    (by decide) (restStop_ident hrest)
  simp only [printType]
  rw [parseType.eq_def]
  simp only []
  rw [ht, hd, if_neg (by decide : ¬ (("UInt16".data : List Char).isEmpty = true))]
  cases rest with
  | nil => rfl
  | cons c cs =>
    simp only [restStop, decide_eq_true_eq] at hrest
    rcases hrest with rfl | rfl <;> rfl

theorem parseRT_uint32 : ParseRT CHType.uint32 := by
  intro fuel rest hfuel hok hrest
  simp only [pfuel] at hfuel
  obtain ⟨f2, rfl⟩ : ∃ f2, fuel = f2 + 1 := ⟨fuel - 1, by omega⟩
  obtain ⟨ht, hd⟩ := @takeWhile_append_stop isIdentChar "UInt32".data rest
    (by decide) (restStop_ident hrest)
  simp only [printType]
  rw [parseType.eq_def]
  simp only []
  rw [ht, hd, if_neg (by decide : ¬ (("UInt32".data : List Char).isEmpty = true))]
  cases rest with
  | nil => rfl
  | cons c cs =>
    simp only [restStop, decide_eq_true_eq] at hrest
    rcases hrest with rfl | rfl <;> rfl

theorem parseRT_uint64 : ParseRT CHType.uint64 := by
  intro fuel rest hfuel hok hrest
  simp only [pfuel] at hfuel
  obtain ⟨f2, rfl⟩ : ∃ f2, fuel = f2 + 1 := ⟨fuel - 1, by omega⟩
  obtain ⟨ht, hd⟩ := @takeWhile_append_stop isIdentChar "UInt64".data rest
    (by decide) (restStop_ident hrest)
  simp only [printType]
  rw [parseType.eq_def]
  simp only []
  rw [ht, hd, if_neg (by decide : ¬ (("UInt64".data : List Char).isEmpty = true))]
  cases rest with
  | nil => rfl
  | cons c cs =>
    simp only [restStop, decide_eq_true_eq] at hrest
    rcases hrest with rfl | rfl <;> rfl

theorem parseRT_uint128 : ParseRT CHType.uint128 := by
  intro fuel rest hfuel hok hrest
  simp only [pfuel] at hfuel
  obtain ⟨f2, rfl⟩ : ∃ f2, fuel = f2 + 1 := ⟨fuel - 1, by omega⟩
  obtain ⟨ht, hd⟩ := @takeWhile_append_stop isIdentChar "UInt128".data rest
    (by decide) (restStop_ident hrest)
  simp only [printType]
  rw [parseType.eq_def]
  simp only []
  rw [ht, hd, if_neg (by decide : ¬ (("UInt128".data : List Char).isEmpty = true))]
  cases rest with
  | nil => rfl
  | cons c cs =>
    simp only [restStop, decide_eq_true_eq] at hrest
    rcases hrest with rfl | rfl <;> rfl

theorem parseRT_uint256 : ParseRT CHType.uint256 := by
  intro fuel rest hfuel hok hrest
  simp only [pfuel] at hfuel
  obtain ⟨f2, rfl⟩ : ∃ f2, fuel = f2 + 1 := ⟨fuel - 1, by omega⟩
  obtain ⟨ht, hd⟩ := @takeWhile_append_stop isIdentChar "UInt256".data rest
    (by decide) (restStop_ident hrest)
  simp only [printType]
  rw [parseType.eq_def]
  simp only []
  rw [ht, hd, if_neg (by decide : ¬ (("UInt256".data : List Char).isEmpty = true))]
  cases rest with
  | nil => rfl
  | cons c cs =>
    simp only [restStop, decide_eq_true_eq] at hrest
    rcases hrest with rfl | rfl <;> rfl

theorem parseRT_float32 : ParseRT CHType.float32 := by
  intro fuel rest hfuel hok hrest
  simp only [pfuel] at hfuel
  obtain ⟨f2, rfl⟩ : ∃ f2, fuel = f2 + 1 := ⟨fuel - 1, by omega⟩
  obtain ⟨ht, hd⟩ := @takeWhile_append_stop isIdentChar "Float32".data rest
    (by decide) (restStop_ident hrest)
  simp only [printType]
  rw [parseType.eq_def]
  simp only []
  rw [ht, hd, if_neg (by decide : ¬ (("Float32".data : List Char).isEmpty = true))]
  cases rest with
  | nil => rfl
  | cons c cs =>
    simp only [restStop, decide_eq_true_eq] at hrest
    rcases hrest with rfl | rfl <;> rfl

theorem parseRT_float64 : ParseRT CHType.float64 := by
  intro fuel rest hfuel hok hrest
  simp only [pfuel] at hfuel
  obtain ⟨f2, rfl⟩ : ∃ f2, fuel = f2 + 1 := ⟨fuel - 1, by omega⟩
  obtain ⟨ht, hd⟩ := @takeWhile_append_stop isIdentChar "Float64".data rest
    (by decide) (restStop_ident hrest)
  simp only [printType]
  rw [parseType.eq_def]
  simp only []
  rw [ht, hd, if_neg (by decide : ¬ (("Float64".data : List Char).isEmpty = true))]
  cases rest with
  | nil => rfl
  | cons c cs =>
    simp only [restStop, decide_eq_true_eq] at hrest
    rcases hrest with rfl | rfl <;> rfl

theorem parseRT_string : ParseRT CHType.string := by
  intro fuel rest hfuel hok hrest
  simp only [pfuel] at hfuel
  obtain ⟨f2, rfl⟩ : ∃ f2, fuel = f2 + 1 := ⟨fuel - 1, by omega⟩
  obtain ⟨ht, hd⟩ := @takeWhile_append_stop isIdentChar "String".data rest
    (by decide) (restStop_ident hrest)
  simp only [printType]
  rw [parseType.eq_def]
  simp only []
  rw [ht, hd, if_neg (by decide : ¬ (("String".data : List Char).isEmpty = true))]
  cases rest with
  | nil => rfl
  | cons c cs =>
    simp only [restStop, decide_eq_true_eq] at hrest
    rcases hrest with rfl | rfl <;> rfl

theorem parseRT_uuid : ParseRT CHType.uuid := by
  intro fuel rest hfuel hok hrest
  simp only [pfuel] at hfuel
  obtain ⟨f2, rfl⟩ : ∃ f2, fuel = f2 + 1 := ⟨fuel - 1, by omega⟩
  obtain ⟨ht, hd⟩ := @takeWhile_append_stop isIdentChar "UUID".data rest
    (by decide) (restStop_ident hrest)
  simp only [printType]
  rw [parseType.eq_def]
  simp only []
  rw [ht, hd, if_neg (by decide : ¬ (("UUID".data : List Char).isEmpty = true))]
  cases rest with
  | nil => rfl
  | cons c cs =>
    simp only [restStop, decide_eq_true_eq] at hrest
    rcases hrest with rfl | rfl <;> rfl

theorem parseRT_date : ParseRT CHType.date := by
  intro fuel rest hfuel hok hrest
  simp only [pfuel] at hfuel
  obtain ⟨f2, rfl⟩ : ∃ f2, fuel = f2 + 1 := ⟨fuel - 1, by omega⟩
  obtain ⟨ht, hd⟩ := @takeWhile_append_stop isIdentChar "Date".data rest
    (by decide) (restStop_ident hrest)
  simp only [printType]
  rw [parseType.eq_def]
  simp only []
  rw [ht, hd, if_neg (by decide : ¬ (("Date".data : List Char).isEmpty = true))]
  cases rest with
  | nil => rfl
  | cons c cs =>
    simp only [restStop, decide_eq_true_eq] at hrest
    rcases hrest with rfl | rfl <;> rfl

theorem parseRT_point : ParseRT CHType.point := by
  intro fuel rest hfuel hok hrest
  simp only [pfuel] at hfuel
  obtain ⟨f2, rfl⟩ : ∃ f2, fuel = f2 + 1 := ⟨fuel - 1, by omega⟩
  obtain ⟨ht, hd⟩ := @takeWhile_append_stop isIdentChar "Point".data rest
    (by decide) (restStop_ident hrest)
  simp only [printType]
  rw [parseType.eq_def]
  simp only []
  rw [ht, hd, if_neg (by decide : ¬ (("Point".data : List Char).isEmpty = true))]
  cases rest with
  | nil => rfl
  | cons c cs =>
    simp only [restStop, decide_eq_true_eq] at hrest
    rcases hrest with rfl | rfl <;> rfl

theorem parseRT_ring : ParseRT CHType.ring := by
  intro fuel rest hfuel hok hrest
  simp only [pfuel] at hfuel
  obtain ⟨f2, rfl⟩ : ∃ f2, fuel = f2 + 1 := ⟨fuel - 1, by omega⟩
  obtain ⟨ht, hd⟩ := @takeWhile_append_stop isIdentChar "Ring".data rest
    (by decide) (restStop_ident hrest)
  simp only [printType]
  rw [parseType.eq_def]
  simp only []
  rw [ht, hd, if_neg (by decide : ¬ (("Ring".data : List Char).isEmpty = true))]
  cases rest with
  | nil => rfl
  | cons c cs =>
    simp only [restStop, decide_eq_true_eq] at hrest
    rcases hrest with rfl | rfl <;> rfl

theorem parseRT_polygon : ParseRT CHType.polygon := by
  intro fuel rest hfuel hok hrest
  simp only [pfuel] at hfuel
  obtain ⟨f2, rfl⟩ : ∃ f2, fuel = f2 + 1 := ⟨fuel - 1, by omega⟩
  obtain ⟨ht, hd⟩ := @takeWhile_append_stop isIdentChar "Polygon".data rest
    (by decide) (restStop_ident hrest)
  simp only [printType]
  rw [parseType.eq_def]
  simp only []
  rw [ht, hd, if_neg (by decide : ¬ (("Polygon".data : List Char).isEmpty = true))]
  cases rest with
  | nil => rfl
  | cons c cs =>
    simp only [restStop, decide_eq_true_eq] at hrest
    rcases hrest with rfl | rfl <;> rfl

theorem parseRT_multiPolygon : ParseRT CHType.multiPolygon := by
  intro fuel rest hfuel hok hrest
  simp only [pfuel] at hfuel
  obtain ⟨f2, rfl⟩ : ∃ f2, fuel = f2 + 1 := ⟨fuel - 1, by omega⟩
  obtain ⟨ht, hd⟩ := @takeWhile_append_stop isIdentChar "MultiPolygon".data rest
    (by decide) (restStop_ident hrest)
  simp only [printType]
  rw [parseType.eq_def]
  simp only []
  rw [ht, hd, if_neg (by decide : ¬ (("MultiPolygon".data : List Char).isEmpty = true))]
  cases rest with
  | nil => rfl
  | cons c cs =>
    simp only [restStop, decide_eq_true_eq] at hrest
    rcases hrest with rfl | rfl <;> rfl

theorem parseRT_decimal64 (sc : Nat) : ParseRT (CHType.decimal64 sc) := by
  intro fuel rest hfuel hok hrest
  simp only [pfuel] at hfuel
  obtain ⟨f4, rfl⟩ : ∃ f4, fuel = f4 + 2 + 1 := ⟨fuel - 3, by omega⟩
  simp only [printType]
  have hstream : ("Decimal64".data ++ ('(' :: (printNat sc ++ [')']))) ++ rest
      = "Decimal64".data ++ ('(' :: (printNat sc ++ (')' :: rest))) := by
    simp
  rw [hstream]
  obtain ⟨ht, hd⟩ := @takeWhile_append_stop isIdentChar "Decimal64".data
    ('(' :: (printNat sc ++ (')' :: rest))) (by decide)
    ((by decide : isIdentChar '(' = false))
  rw [parseType.eq_def]
  simp only []
  rw [ht, hd,
    if_neg (by decide : ¬ (("Decimal64".data : List Char).isEmpty = true))]
  simp only []
  rw [if_pos trivial, skipSpaces_printNat, parseArgs_single_int sc f4 rest]
  simp only []
  have hassem : assembleType "Decimal64".data [.intv (sc : Int)]
      = .ok (CHType.decimal64 sc) := by
    have h0 : ((sc : Int)).toNat = sc := by omega
    show (if (0 : Int) ≤ (sc : Int) then
        KResult.ok (CHType.decimal64 ((sc : Int)).toNat)
      else .err (.typeParseError "negative scale")) = .ok (CHType.decimal64 sc)
    rw [if_pos (by positivity), h0]
  rw [hassem]

theorem parseRT_decimal128 (sc : Nat) : ParseRT (CHType.decimal128 sc) := by
  intro fuel rest hfuel hok hrest
  simp only [pfuel] at hfuel
  obtain ⟨f4, rfl⟩ : ∃ f4, fuel = f4 + 2 + 1 := ⟨fuel - 3, by omega⟩
  simp only [printType]
  have hstream : ("Decimal128".data ++ ('(' :: (printNat sc ++ [')']))) ++ rest
      = "Decimal128".data ++ ('(' :: (printNat sc ++ (')' :: rest))) := by
    simp
  rw [hstream]
  obtain ⟨ht, hd⟩ := @takeWhile_append_stop isIdentChar "Decimal128".data
    ('(' :: (printNat sc ++ (')' :: rest))) (by decide)
    ((by decide : isIdentChar '(' = false))
  rw [parseType.eq_def]
  simp only []
  rw [ht, hd,
    if_neg (by decide : ¬ (("Decimal128".data : List Char).isEmpty = true))]
  simp only []
  rw [if_pos trivial, skipSpaces_printNat, parseArgs_single_int sc f4 rest]
  simp only []
  have hassem : assembleType "Decimal128".data [.intv (sc : Int)]
      = .ok (CHType.decimal128 sc) := by
    have h0 : ((sc : Int)).toNat = sc := by omega
    show (if (0 : Int) ≤ (sc : Int) then
        KResult.ok (CHType.decimal128 ((sc : Int)).toNat)
      else .err (.typeParseError "negative scale")) = .ok (CHType.decimal128 sc)
    rw [if_pos (by positivity), h0]
  rw [hassem]

theorem parseRT_decimal256 (sc : Nat) : ParseRT (CHType.decimal256 sc) := by
  intro fuel rest hfuel hok hrest
  simp only [pfuel] at hfuel
  obtain ⟨f4, rfl⟩ : ∃ f4, fuel = f4 + 2 + 1 := ⟨fuel - 3, by omega⟩
  simp only [printType]
  have hstream : ("Decimal256".data ++ ('(' :: (printNat sc ++ [')']))) ++ rest
      = "Decimal256".data ++ ('(' :: (printNat sc ++ (')' :: rest))) := by
    simp
  rw [hstream]
  obtain ⟨ht, hd⟩ := @takeWhile_append_stop isIdentChar "Decimal256".data
    ('(' :: (printNat sc ++ (')' :: rest))) (by decide)
    ((by decide : isIdentChar '(' = false))
  rw [parseType.eq_def]
  simp only []
  rw [ht, hd,
    if_neg (by decide : ¬ (("Decimal256".data : List Char).isEmpty = true))]
  simp only []
  rw [if_pos trivial, skipSpaces_printNat, parseArgs_single_int sc f4 rest]
  simp only []
  have hassem : assembleType "Decimal256".data [.intv (sc : Int)]
      = .ok (CHType.decimal256 sc) := by
    have h0 : ((sc : Int)).toNat = sc := by omega
    show (if (0 : Int) ≤ (sc : Int) then
        KResult.ok (CHType.decimal256 ((sc : Int)).toNat)
      else .err (.typeParseError "negative scale")) = .ok (CHType.decimal256 sc)
    rw [if_pos (by positivity), h0]
  rw [hassem]

theorem parseRT_fixedString (sc : Nat) : ParseRT (CHType.fixedString sc) := by
  intro fuel rest hfuel hok hrest
  simp only [pfuel] at hfuel
  obtain ⟨f4, rfl⟩ : ∃ f4, fuel = f4 + 2 + 1 := ⟨fuel - 3, by omega⟩
  simp only [printType]
  have hstream : ("FixedString".data ++ ('(' :: (printNat sc ++ [')']))) ++ rest
      = "FixedString".data ++ ('(' :: (printNat sc ++ (')' :: rest))) := by
    simp
  rw [hstream]
  obtain ⟨ht, hd⟩ := @takeWhile_append_stop isIdentChar "FixedString".data
    ('(' :: (printNat sc ++ (')' :: rest))) (by decide)
    ((by decide : isIdentChar '(' = false))
  rw [parseType.eq_def]
  simp only []
  rw [ht, hd,
    if_neg (by decide : ¬ (("FixedString".data : List Char).isEmpty = true))]
  simp only []
  rw [if_pos trivial, skipSpaces_printNat, parseArgs_single_int sc f4 rest]
  simp only []
  have hassem : assembleType "FixedString".data [.intv (sc : Int)]
      = .ok (CHType.fixedString sc) := by
    have h0 : ((sc : Int)).toNat = sc := by omega
    show (if (0 : Int) ≤ (sc : Int) then
        KResult.ok (CHType.fixedString ((sc : Int)).toNat)
      else .err (.typeParseError "negative length")) = .ok (CHType.fixedString sc)
    rw [if_pos (by positivity), h0]
  rw [hassem]

theorem parseRT_dateTime (tz : String) : ParseRT (CHType.dateTime tz) := by
  intro fuel rest hfuel hok hrest
  simp only [pfuel] at hfuel
  obtain ⟨f4, rfl⟩ : ∃ f4, fuel = f4 + 2 + 1 := ⟨fuel - 3, by omega⟩
  simp only [printType]
  have hstream : ("DateTime".data ++ ('(' :: ('\'' ::
        (escapeChars tz.data ++ ('\'' :: [')']))))) ++ rest
      = "DateTime".data ++ ('(' :: ('\'' ::
        (escapeChars tz.data ++ ('\'' :: (')' :: rest))))) := by
    simp
  rw [hstream]
  obtain ⟨ht, hd⟩ := @takeWhile_append_stop isIdentChar "DateTime".data
    ('(' :: ('\'' :: (escapeChars tz.data ++ ('\'' :: (')' :: rest)))))
    (by decide) ((by decide : isIdentChar '(' = false))
  rw [parseType.eq_def]
  simp only []
  rw [ht, hd,
    if_neg (by decide : ¬ (("DateTime".data : List Char).isEmpty = true))]
  simp only []
  rw [if_pos trivial, skipSpaces_cons_of _ (by decide),
    parseArgs_single_str tz.data f4 rest]
  simp only []
  have hassem : assembleType "DateTime".data [.strv tz.data]
      = .ok (.dateTime tz) := by
    show KResult.ok (CHType.dateTime (String.mk tz.data)) = .ok (.dateTime tz)
    rw [mk_data]
  rw [hassem]

theorem parseRT_dateTime64 (p : Nat) (tz : String) :
    ParseRT (CHType.dateTime64 p tz) := by
  intro fuel rest hfuel hok hrest
  simp only [pfuel] at hfuel
  obtain ⟨f4, rfl⟩ : ∃ f4, fuel = f4 + 3 + 1 := ⟨fuel - 4, by omega⟩
  simp only [printType]
  have hstream : ("DateTime64".data ++ ('(' :: (printNat p ++ (',' :: ' ' ::
        ('\'' :: (escapeChars tz.data ++ ('\'' :: [')']))))))) ++ rest
      = "DateTime64".data ++ ('(' :: (printNat p ++ (',' :: ' ' ::
        ('\'' :: (escapeChars tz.data ++ ('\'' :: (')' :: rest))))))) := by
    simp
  rw [hstream]
  obtain ⟨ht, hd⟩ := @takeWhile_append_stop isIdentChar "DateTime64".data
    ('(' :: (printNat p ++ (',' :: ' ' ::
      ('\'' :: (escapeChars tz.data ++ ('\'' :: (')' :: rest)))))))
    (by decide) ((by decide : isIdentChar '(' = false))
  rw [parseType.eq_def]
  simp only []
  rw [ht, hd,
    if_neg (by decide : ¬ (("DateTime64".data : List Char).isEmpty = true))]
  simp only []
  rw [if_pos trivial, skipSpaces_printNat, parseArgs_int_str p tz.data f4 rest]
  simp only []
  have hassem : assembleType "DateTime64".data [.intv (p : Int), .strv tz.data]
      = .ok (.dateTime64 p tz) := by
    have h0 : ((p : Int)).toNat = p := by omega
    show (if (0 : Int) ≤ (p : Int) then
        KResult.ok (CHType.dateTime64 ((p : Int)).toNat (String.mk tz.data))
      else .err (.typeParseError "negative precision"))
      = .ok (.dateTime64 p tz)
    rw [if_pos (by positivity), h0, mk_data]
  rw [hassem]

theorem skipSpaces_printEntries (es : List (String × Int)) (rest : List Char) :
    skipSpaces (printEntries es ++ (')' :: rest))
      = printEntries es ++ (')' :: rest) := by
  cases es with
  | nil => exact skipSpaces_cons_of rest (by decide)
  | cons e es2 =>
    obtain ⟨cs0, hcs0⟩ := printEntries_cons_head e es2
    rw [hcs0, List.cons_append]
    exact skipSpaces_cons_of _ (by decide)

theorem parseRT_enum8 (es : List (String × Int)) :
    ParseRT (CHType.enum8 es) := by
  intro fuel rest hfuel hok hrest
  simp only [pfuel] at hfuel
  simp only [typeTextOk] at hok
  obtain ⟨f2, rfl⟩ : ∃ f2, fuel = f2 + 1 := ⟨fuel - 1, by omega⟩
  simp only [printType]
  have hstream : ("Enum8".data ++ ('(' :: (printEntries es ++ [')']))) ++ rest
      = "Enum8".data ++ ('(' :: (printEntries es ++ (')' :: rest))) := by
    simp
  rw [hstream]
  obtain ⟨ht, hd⟩ := @takeWhile_append_stop isIdentChar "Enum8".data
    ('(' :: (printEntries es ++ (')' :: rest))) (by decide)
    ((by decide : isIdentChar '(' = false))
  rw [parseType.eq_def]
  simp only []
  rw [ht, hd,
    if_neg (by decide : ¬ (("Enum8".data : List Char).isEmpty = true))]
  simp only []
  rw [if_pos trivial, skipSpaces_printEntries,
    parseArgs_entries es f2 rest (by omega) hrest]
  simp only []
  have hassem : assembleType "Enum8".data
      (es.map (fun e => TypeArg.entry e.1.data e.2)) = .ok (.enum8 es) := by
    show (match entriesOfArgs (es.map (fun e => TypeArg.entry e.1.data e.2)) with
      | .err e => KResult.err e
      | .ok es2 =>
        if enumEntriesOk (-128) 128 es2 then KResult.ok (CHType.enum8 es2)
        else .err (.typeParseError "invalid enum entries")) = .ok (.enum8 es)
    rw [entriesOfArgs_map]
    simp only []
    rw [if_pos hok]
  rw [hassem]

theorem parseRT_enum16 (es : List (String × Int)) :
    ParseRT (CHType.enum16 es) := by
  intro fuel rest hfuel hok hrest
  simp only [pfuel] at hfuel
  simp only [typeTextOk] at hok
  obtain ⟨f2, rfl⟩ : ∃ f2, fuel = f2 + 1 := ⟨fuel - 1, by omega⟩
  simp only [printType]
  have hstream : ("Enum16".data ++ ('(' :: (printEntries es ++ [')']))) ++ rest
      = "Enum16".data ++ ('(' :: (printEntries es ++ (')' :: rest))) := by
    simp
  rw [hstream]
  obtain ⟨ht, hd⟩ := @takeWhile_append_stop isIdentChar "Enum16".data
    ('(' :: (printEntries es ++ (')' :: rest))) (by decide)
    ((by decide : isIdentChar '(' = false))
  rw [parseType.eq_def]
  simp only []
  rw [ht, hd,
    if_neg (by decide : ¬ (("Enum16".data : List Char).isEmpty = true))]
  simp only []
  rw [if_pos trivial, skipSpaces_printEntries,
    parseArgs_entries es f2 rest (by omega) hrest]
  simp only []
  have hassem : assembleType "Enum16".data
      (es.map (fun e => TypeArg.entry e.1.data e.2)) = .ok (.enum16 es) := by
    show (match entriesOfArgs (es.map (fun e => TypeArg.entry e.1.data e.2)) with
      | .err e => KResult.err e
      | .ok es2 =>
        if enumEntriesOk (-32768) 32768 es2 then KResult.ok (CHType.enum16 es2)
        else .err (.typeParseError "invalid enum entries")) = .ok (.enum16 es)
    rw [entriesOfArgs_map]
    simp only []
    rw [if_pos hok]
  rw [hassem]

theorem pfuel_pos (t : CHType) : 1 ≤ pfuel t := by
  cases t <;> simp only [pfuel] <;> omega

theorem pfuelList_pos (fs : List CHType) : 1 ≤ pfuelList fs := by
  cases fs <;> simp only [pfuelList] <;> omega

theorem printTypeList_cons_head (f : CHType) (fs : List CHType) :
    ∃ c cs, printTypeList (f :: fs) = c :: cs ∧ 65 ≤ c.toNat ∧ c.toNat ≤ 90 := by
  obtain ⟨c, cs, h1, h2, h3⟩ := printType_head f
  cases fs with
  | nil => exact ⟨c, cs, h1, h2, h3⟩
  | cons f2 fs2 =>
    refine ⟨c, cs ++ (',' :: ' ' :: printTypeList (f2 :: fs2)), ?_, h2, h3⟩
    show printType f ++ (',' :: ' ' :: printTypeList (f2 :: fs2)) = _
    rw [h1]
    rfl

theorem skipSpaces_printTypeList (fs : List CHType) (rest : List Char) :
    skipSpaces (printTypeList fs ++ (')' :: rest))
      = printTypeList fs ++ (')' :: rest) := by
  cases fs with
  | nil => exact skipSpaces_cons_of rest (by decide)
  | cons f fs2 =>
    obtain ⟨c, cs, h1, h2, h3⟩ := printTypeList_cons_head f fs2
    rw [h1, List.cons_append]
    refine skipSpaces_cons_of _ ?_
    intro hsp
    rw [hsp] at h2
    exact absurd h2 (by decide)

theorem parseArg_printType (t : CHType) (fuel : Nat) (X : List Char)
    (hpt : parseType fuel (printType t ++ X) = .ok (t, X)) :
    parseArg (fuel + 1) (printType t ++ X) = .ok (.sub t, X) := by
  apply parseArg_upper fuel _ _ t ?_ hpt
  obtain ⟨c, cs, h1, h2, h3⟩ := printType_head t
  exact ⟨c, cs ++ X, by rw [h1]; rfl, h2, h3⟩

theorem printType_stream_ne_close (t : CHType) (X : List Char) :
    ∃ c cs, printType t ++ X = c :: cs ∧ ¬ c = ')' := by
  obtain ⟨c, cs, h1, h2, h3⟩ := printType_head t
  refine ⟨c, cs ++ X, by rw [h1]; rfl, ?_⟩
  intro hcc
  rw [hcc] at h2
  exact absurd h2 (by decide)

theorem parseRT_array (t : CHType) (hrt : ParseRT t) :
    ParseRT (CHType.array t) := by
  intro fuel rest hfuel hok hrest
  simp only [pfuel] at hfuel
  obtain ⟨g2, rfl⟩ : ∃ g2, fuel = g2 + 2 + 1 := ⟨fuel - 3, by omega⟩
  have hg2 : pfuel t ≤ g2 := by omega
  simp only [printType]
  have hstream : ("Array".data ++ ('(' :: (printType t ++ [')']))) ++ rest
      = "Array".data ++ ('(' :: (printType t ++ (')' :: rest))) := by simp
  rw [hstream]
  obtain ⟨ht, hd⟩ := @takeWhile_append_stop isIdentChar "Array".data
    ('(' :: (printType t ++ (')' :: rest))) (by decide)
    ((by decide : isIdentChar '(' = false))
  rw [parseType.eq_def]
  simp only []
  rw [ht, hd, if_neg (by decide : ¬ (("Array".data : List Char).isEmpty = true))]
  simp only []
  rw [if_pos trivial, skipSpaces_printType]
  have hsub := hrt g2 (')' :: rest) hg2 hok (by simp [restStop])
  have hargs := parseArgs_last_step (g2 + 1) _ rest _
    (printType_stream_ne_close t (')' :: rest))
    (parseArg_printType t g2 (')' :: rest) hsub)
  rw [hargs]
  simp only []
  rfl

theorem parseRT_nullable (t : CHType) (hrt : ParseRT t) :
    ParseRT (CHType.nullable t) := by
  intro fuel rest hfuel hok hrest
  simp only [pfuel] at hfuel
  obtain ⟨g2, rfl⟩ : ∃ g2, fuel = g2 + 2 + 1 := ⟨fuel - 3, by omega⟩
  have hg2 : pfuel t ≤ g2 := by omega
  simp only [printType]
  have hstream : ("Nullable".data ++ ('(' :: (printType t ++ [')']))) ++ rest
      = "Nullable".data ++ ('(' :: (printType t ++ (')' :: rest))) := by simp
  rw [hstream]
  obtain ⟨ht, hd⟩ := @takeWhile_append_stop isIdentChar "Nullable".data
    ('(' :: (printType t ++ (')' :: rest))) (by decide)
    ((by decide : isIdentChar '(' = false))
  rw [parseType.eq_def]
  simp only []
  rw [ht, hd, if_neg (by decide : ¬ (("Nullable".data : List Char).isEmpty = true))]
  simp only []
  rw [if_pos trivial, skipSpaces_printType]
  have hsub := hrt g2 (')' :: rest) hg2 hok (by simp [restStop])
  have hargs := parseArgs_last_step (g2 + 1) _ rest _
    (printType_stream_ne_close t (')' :: rest))
    (parseArg_printType t g2 (')' :: rest) hsub)
  rw [hargs]
  simp only []
  rfl

theorem parseRT_lowCardinality (t : CHType) (hrt : ParseRT t) :
    ParseRT (CHType.lowCardinality t) := by
  intro fuel rest hfuel hok hrest
  simp only [pfuel] at hfuel
  obtain ⟨g2, rfl⟩ : ∃ g2, fuel = g2 + 2 + 1 := ⟨fuel - 3, by omega⟩
  have hg2 : pfuel t ≤ g2 := by omega
  simp only [printType]
  have hstream : ("LowCardinality".data ++ ('(' :: (printType t ++ [')']))) ++ rest
      = "LowCardinality".data ++ ('(' :: (printType t ++ (')' :: rest))) := by simp
  rw [hstream]
  obtain ⟨ht, hd⟩ := @takeWhile_append_stop isIdentChar "LowCardinality".data
    ('(' :: (printType t ++ (')' :: rest))) (by decide)
    ((by decide : isIdentChar '(' = false))
  rw [parseType.eq_def]
  simp only []
  rw [ht, hd, if_neg (by decide : ¬ (("LowCardinality".data : List Char).isEmpty = true))]
  simp only []
  rw [if_pos trivial, skipSpaces_printType]
  have hsub := hrt g2 (')' :: rest) hg2 hok (by simp [restStop])
  have hargs := parseArgs_last_step (g2 + 1) _ rest _
    (printType_stream_ne_close t (')' :: rest))
    (parseArg_printType t g2 (')' :: rest) hsub)
  rw [hargs]
  simp only []
  rfl

theorem parseRT_map (k v : CHType) (hk : ParseRT k) (hv : ParseRT v) :
    ParseRT (CHType.map k v) := by
  intro fuel rest hfuel hok hrest
  simp only [pfuel] at hfuel
  simp only [typeTextOk, Bool.and_eq_true] at hok
  have hpk := pfuel_pos k
  have hpv := pfuel_pos v
  obtain ⟨g, rfl⟩ : ∃ g, fuel = g + 3 + 1 := ⟨fuel - 4, by omega⟩
  have hgk : pfuel k ≤ g + 1 := by omega
  have hgv : pfuel v ≤ g := by omega
  simp only [printType]
  have hstream : ("Map".data ++ ('(' :: (printType k ++ (',' :: ' ' ::
        (printType v ++ [')']))))) ++ rest
      = "Map".data ++ ('(' :: (printType k ++ (',' :: ' ' ::
        (printType v ++ (')' :: rest))))) := by simp
  rw [hstream]
  obtain ⟨ht, hd⟩ := @takeWhile_append_stop isIdentChar "Map".data
    ('(' :: (printType k ++ (',' :: ' ' :: (printType v ++ (')' :: rest)))))
    (by decide) ((by decide : isIdentChar '(' = false))
  rw [parseType.eq_def]
  simp only []
  rw [ht, hd, if_neg (by decide : ¬ (("Map".data : List Char).isEmpty = true))]
  simp only []
  rw [if_pos trivial, skipSpaces_printType]
  have hsubk := hk (g + 1) (',' :: ' ' :: (printType v ++ (')' :: rest))) hgk
    hok.1 (by simp [restStop])
  have hsubv := hv g (')' :: rest) hgv hok.2 (by simp [restStop])
  have hargsv := parseArgs_last_step (g + 1) _ rest _
    (printType_stream_ne_close v (')' :: rest))
    (parseArg_printType v g (')' :: rest) hsubv)
  have hargs := parseArgs_cons_step (g + 2) _ _ rest _ _
    (printType_stream_ne_close k _)
    (parseArg_printType k (g + 1) _ hsubk)
    (skipSpaces_printType v (')' :: rest))
    hargsv
  rw [hargs]
  simp only []
  rfl

theorem parseRTL_nil : ParseRTList ([] : List CHType) := by
  intro fuel rest hfuel hok hrest
  simp only [pfuelList] at hfuel
  obtain ⟨f2, rfl⟩ : ∃ f2, fuel = f2 + 1 := ⟨fuel - 1, by omega⟩
  exact parseArgs_close f2 rest

theorem parseRTL_cons (f : CHType) (fs : List CHType)
    (hf : ParseRT f) (hfs : ParseRTList fs) : ParseRTList (f :: fs) := by
  intro fuel rest hfuel hok hrest
  have hp := pfuel_pos f
  cases fs with
  | nil =>
    simp only [pfuelList] at hfuel
    simp only [typeTextOkList, Bool.and_eq_true] at hok
    obtain ⟨g, rfl⟩ : ∃ g, fuel = g + 1 + 1 := ⟨fuel - 2, by omega⟩
    have hg : pfuel f ≤ g := by omega
    show parseArgs (g + 1 + 1) (printType f ++ (')' :: rest))
      = .ok ([TypeArg.sub f], rest)
    have hsub := hf g (')' :: rest) hg hok.1 (by simp [restStop])
    exact parseArgs_last_step (g + 1) _ rest _
      (printType_stream_ne_close f _)
      (parseArg_printType f g _ hsub)
  | cons f2 fs2 =>
    have hp2 := pfuel_pos f2
    have hpl2 := pfuelList_pos fs2
    simp only [pfuelList] at hfuel
    simp only [typeTextOkList, Bool.and_eq_true] at hok
    obtain ⟨g, rfl⟩ : ∃ g, fuel = g + 1 + 1 := ⟨fuel - 2, by omega⟩
    have hg : pfuel f ≤ g := by omega
    have hstream : printTypeList (f :: f2 :: fs2) ++ (')' :: rest)
        = printType f ++ (',' :: ' ' ::
          (printTypeList (f2 :: fs2) ++ (')' :: rest))) := by
      show (printType f ++ (',' :: ' ' :: printTypeList (f2 :: fs2)))
          ++ (')' :: rest) = _
      simp
    rw [hstream, List.map_cons]
    have hsub := hf g
      (',' :: ' ' :: (printTypeList (f2 :: fs2) ++ (')' :: rest))) hg
      hok.1 (by simp [restStop])
    apply parseArgs_cons_step
    · exact printType_stream_ne_close f _
    · exact parseArg_printType f g _ hsub
    · exact skipSpaces_printTypeList (f2 :: fs2) rest
    · refine hfs (g + 1) rest (by simp only [pfuelList]; omega) ?_ hrest
      simp only [typeTextOkList, Bool.and_eq_true]
      exact hok.2

theorem parseRT_tuple (fs : List CHType) (hfs : ParseRTList fs) :
    ParseRT (CHType.tuple fs) := by
  intro fuel rest hfuel hok hrest
  simp only [pfuel] at hfuel
  obtain ⟨f2, rfl⟩ : ∃ f2, fuel = f2 + 1 := ⟨fuel - 1, by omega⟩
  have hg : pfuelList fs ≤ f2 := by omega
  simp only [printType]
  have hstream : ("Tuple".data ++ ('(' :: (printTypeList fs ++ [')']))) ++ rest
      = "Tuple".data ++ ('(' :: (printTypeList fs ++ (')' :: rest))) := by simp
  rw [hstream]
  obtain ⟨ht, hd⟩ := @takeWhile_append_stop isIdentChar "Tuple".data
    ('(' :: (printTypeList fs ++ (')' :: rest))) (by decide)
    ((by decide : isIdentChar '(' = false))
  rw [parseType.eq_def]
  simp only []
  rw [ht, hd, if_neg (by decide : ¬ (("Tuple".data : List Char).isEmpty = true))]
  simp only []
  rw [if_pos trivial, skipSpaces_printTypeList, hfs f2 rest hg hok hrest]
  simp only []
  have hassem : assembleType "Tuple".data (fs.map TypeArg.sub)
      = .ok (.tuple fs) := by
    show (match subsOfArgs (fs.map TypeArg.sub) with
      | .err e => KResult.err e
      | .ok ts => KResult.ok (CHType.tuple ts)) = .ok (.tuple fs)
    rw [subsOfArgs_map]
  rw [hassem]

theorem parseRT_measure : ∀ kk : Nat,
    (∀ t : CHType, typeWeight t ≤ kk → ParseRT t) ∧
    (∀ fs : List CHType, typeWeightList fs ≤ kk → ParseRTList fs) := by
  intro kk
  induction kk with
  | zero =>
    constructor
    · intro t ht
      have := typeWeight_pos t
      omega
    · intro fs hfs
      have := typeWeightList_pos fs
      omega
  | succ k ih =>
    obtain ⟨ihT, ihL⟩ := ih
    constructor
    · intro t ht
      cases t with
      | int8 => exact parseRT_int8
      | int16 => exact parseRT_int16
      | int32 => exact parseRT_int32
      | int64 => exact parseRT_int64
      | int128 => exact parseRT_int128
      | int256 => exact parseRT_int256
      | uint8 => exact parseRT_uint8
      | uint16 => exact parseRT_uint16
      | uint32 => exact parseRT_uint32
      | uint64 => exact parseRT_uint64
      | uint128 => exact parseRT_uint128
      | uint256 => exact parseRT_uint256
      | float32 => exact parseRT_float32
      | float64 => exact parseRT_float64
      | string => exact parseRT_string
      | uuid => exact parseRT_uuid
      | date => exact parseRT_date
      | point => exact parseRT_point
      | ring => exact parseRT_ring
      | polygon => exact parseRT_polygon
      | multiPolygon => exact parseRT_multiPolygon
      | decimal32 sc => exact parseRT_decimal32 sc
      | decimal64 sc => exact parseRT_decimal64 sc
      | decimal128 sc => exact parseRT_decimal128 sc
      | decimal256 sc => exact parseRT_decimal256 sc
      | fixedString n => exact parseRT_fixedString n
      | dateTime tz => exact parseRT_dateTime tz
      | dateTime64 p tz => exact parseRT_dateTime64 p tz
      | enum8 es => exact parseRT_enum8 es
      | enum16 es => exact parseRT_enum16 es
      | lowCardinality t =>
        exact parseRT_lowCardinality t
          (ihT t (by simp only [typeWeight] at ht; omega))
      | array t =>
        exact parseRT_array t (ihT t (by simp only [typeWeight] at ht; omega))
      | nullable t =>
        exact parseRT_nullable t
          (ihT t (by simp only [typeWeight] at ht; omega))
      | map kt vt =>
        have h1 := typeWeight_pos kt
        have h2 := typeWeight_pos vt
        exact parseRT_map kt vt
          (ihT kt (by simp only [typeWeight] at ht; omega))
          (ihT vt (by simp only [typeWeight] at ht; omega))
      | tuple fs =>
        exact parseRT_tuple fs
          (ihL fs (by simp only [typeWeight] at ht; omega))
    · intro fs hfs
      cases fs with
      | nil => exact parseRTL_nil
      | cons f fs2 =>
        have h1 := typeWeight_pos f
        have h2 := typeWeightList_pos fs2
        exact parseRTL_cons f fs2
          (ihT f (by simp only [typeWeightList] at hfs; omega))
          (ihL fs2 (by simp only [typeWeightList] at hfs; omega))

theorem parseRT_all (t : CHType) : ParseRT t :=
  (parseRT_measure (typeWeight t)).1 t (le_refl _)

theorem printNat_len_pos (n : Nat) : 1 ≤ (printNat n).length := by
  cases hp : printNat n with
  | nil => exact absurd hp (printNat_ne_nil n)
  | cons c cs => simp

theorem entries_length_le : ∀ es : List (String × Int),
    es.length ≤ (printEntries es).length := by
  intro es
  induction es with
  | nil => simp [printEntries]
  | cons e es ih =>
    cases es with
    | nil =>
      show 1 ≤ (printEntry e).length
      simp [printEntry]
    | cons e2 es2 =>
      simp only [printEntries, List.length_append, List.length_cons] at ih ⊢
      omega

theorem pfuel_le_measure : ∀ kk : Nat,
    (∀ t : CHType, typeWeight t ≤ kk → pfuel t + 2 ≤ (printType t).length) ∧
    (∀ fs : List CHType, typeWeightList fs ≤ kk →
      pfuelList fs ≤ (printTypeList fs).length + 1) := by
  intro kk
  induction kk with
  | zero =>
    constructor
    · intro t ht
      have := typeWeight_pos t
      omega
    · intro fs hfs
      have := typeWeightList_pos fs
      omega
  | succ k ih =>
    obtain ⟨ihT, ihL⟩ := ih
    constructor
    · intro t ht
      cases t with
      | int8 => exact (by decide)
      | int16 => exact (by decide)
      | int32 => exact (by decide)
      | int64 => exact (by decide)
      | int128 => exact (by decide)
      | int256 => exact (by decide)
      | uint8 => exact (by decide)
      | uint16 => exact (by decide)
      | uint32 => exact (by decide)
      | uint64 => exact (by decide)
      | uint128 => exact (by decide)
      | uint256 => exact (by decide)
      | float32 => exact (by decide)
      | float64 => exact (by decide)
      | string => exact (by decide)
      | uuid => exact (by decide)
      | date => exact (by decide)
      | point => exact (by decide)
      | ring => exact (by decide)
      | polygon => exact (by decide)
      | multiPolygon => exact (by decide)
      | decimal32 sc =>
        have hl := printNat_len_pos sc
        have h9 : ("Decimal32".data : List Char).length = 9 := by decide
        simp only [pfuel, printType, List.length_append, List.length_cons,
          List.length_singleton]
        omega
      | decimal64 sc =>
        have hl := printNat_len_pos sc
        have h9 : ("Decimal64".data : List Char).length = 9 := by decide
        simp only [pfuel, printType, List.length_append, List.length_cons,
          List.length_singleton]
        omega
      | decimal128 sc =>
        have hl := printNat_len_pos sc
        have h9 : ("Decimal128".data : List Char).length = 10 := by decide
        simp only [pfuel, printType, List.length_append, List.length_cons,
          List.length_singleton]
        omega
      | decimal256 sc =>
        have hl := printNat_len_pos sc
        have h9 : ("Decimal256".data : List Char).length = 10 := by decide
        simp only [pfuel, printType, List.length_append, List.length_cons,
          List.length_singleton]
        omega
      | fixedString n =>
        have hl := printNat_len_pos n
        have h9 : ("FixedString".data : List Char).length = 11 := by decide
        simp only [pfuel, printType, List.length_append, List.length_cons,
          List.length_singleton]
        omega
      | dateTime tz =>
        have h8 : ("DateTime".data : List Char).length = 8 := by decide
        simp only [pfuel, printType, List.length_append, List.length_cons,
          List.length_singleton]
        omega
      | dateTime64 p tz =>
        have hl := printNat_len_pos p
        have h10 : ("DateTime64".data : List Char).length = 10 := by decide
        simp only [pfuel, printType, List.length_append, List.length_cons,
          List.length_singleton]
        omega
      | enum8 es =>
        have he := entries_length_le es
        have h5 : ("Enum8".data : List Char).length = 5 := by decide
        simp only [pfuel, printType, List.length_append, List.length_cons,
          List.length_singleton]
        omega
      | enum16 es =>
        have he := entries_length_le es
        have h5 : ("Enum16".data : List Char).length = 6 := by decide
        simp only [pfuel, printType, List.length_append, List.length_cons,
          List.length_singleton]
        omega
      | lowCardinality t =>
        have iht := ihT t (by simp only [typeWeight] at ht; omega)
        have h5 : ("LowCardinality".data : List Char).length = 14 := by decide
        simp only [pfuel, printType, List.length_append, List.length_cons,
          List.length_singleton]
        omega
      | array t =>
        have iht := ihT t (by simp only [typeWeight] at ht; omega)
        have h5 : ("Array".data : List Char).length = 5 := by decide
        simp only [pfuel, printType, List.length_append, List.length_cons,
          List.length_singleton]
        omega
      | nullable t =>
        have iht := ihT t (by simp only [typeWeight] at ht; omega)
        have h5 : ("Nullable".data : List Char).length = 8 := by decide
        simp only [pfuel, printType, List.length_append, List.length_cons,
          List.length_singleton]
        omega
      | map kt vt =>
        have h1 := typeWeight_pos kt
        have h2 := typeWeight_pos vt
        have ihk := ihT kt (by simp only [typeWeight] at ht; omega)
        have ihv := ihT vt (by simp only [typeWeight] at ht; omega)
        have h3 : ("Map".data : List Char).length = 3 := by decide
        simp only [pfuel, printType, List.length_append, List.length_cons,
          List.length_singleton]
        omega
      | tuple fs =>
        have ihl := ihL fs (by simp only [typeWeight] at ht; omega)
        have h5 : ("Tuple".data : List Char).length = 5 := by decide
        simp only [pfuel, printType, List.length_append, List.length_cons,
          List.length_singleton]
        omega
    · intro fs hfs
      cases fs with
      | nil => simp [pfuelList, printTypeList]
      | cons f fs2 =>
        have h1 := typeWeight_pos f
        have h2 := typeWeightList_pos fs2
        have ihf := ihT f (by simp only [typeWeightList] at hfs; omega)
        have ihl2 := ihL fs2 (by simp only [typeWeightList] at hfs; omega)
        cases fs2 with
        | nil =>
          show pfuel f + pfuelList [] + 2 ≤ (printType f).length + 1
          simp only [pfuelList]
          omega
        | cons f2 fs3 =>
          show pfuel f + pfuelList (f2 :: fs3) + 2
            ≤ (printType f ++ (',' :: ' ' :: printTypeList (f2 :: fs3))).length + 1
          simp only [List.length_append, List.length_cons]
          omega

theorem pfuel_le (t : CHType) : pfuel t + 2 ≤ (printType t).length :=
  (pfuel_le_measure (typeWeight t)).1 t (le_refl _)

/-- C2 counterexample: the type `Enum8('a' = 1, 'a' = 2)` has a canonical
printed form, but parsing that text back fails (the spec §4.3 rules make
duplicate enum names a parse error), so `parse(print(t)) = t` does not
hold for every type `t`. -/
theorem C2_counterexample_duplicate_enum :
    parseCHType (printType (CHType.enum8 [("a", 1), ("a", 2)]))
      = .err (.typeParseError "invalid enum entries") := by
  rfl

/-- C2: for every type whose enum entry lists satisfy the spec §4.3
validity rules (codes in range, no duplicate names, no duplicate codes —
`typeTextOk`), parsing the canonical printed form yields the type back. -/
theorem C2_print_parse_roundtrip (t : CHType) (h : typeTextOk t = true) :
    parseCHType (printType t) = .ok t := by
  have hp := parseRT_all t ((printType t).length + 1) []
    (by have := pfuel_le t; omega) h rfl
  rw [List.append_nil] at hp
  simp only [parseCHType, hp, List.isEmpty_nil, if_true]

theorem C2_print_parse_roundtrip_witness :
    typeTextOk (CHType.enum8 [("hello", 1), ("world", 2)]) = true ∧
    parseCHType (printType (CHType.enum8 [("hello", 1), ("world", 2)]))
      = .ok (CHType.enum8 [("hello", 1), ("world", 2)]) :=
  ⟨by decide, C2_print_parse_roundtrip _ (by decide)⟩
